import Mathlib

/-!
# Custos: term vectors, cosine similarity, the grouping sweep and undo

A verification development over `src/custos/background.js`.

Modelling conventions.

* A JS number is a binary64 value (`JSNum`): `NaN`, one of the two infinities, or a finite value
  held as the rational it denotes.  Every sum, product and quotient is the exact result rounded
  to nearest, ties to even, with gradual underflow and overflow to an infinity; `Math.sqrt` is
  correctly rounded.  The sign of zero is not kept.
* A JS object used as a dictionary (`vector`, `mergedVector`, `sharedVectorPool`) is the list of
  its own entries in key order.  A property read that finds no own entry goes on to
  `Object.prototype` (`getProp`).
* Calls to the browser are answered by an outcome record (`HostOutcomes`, `UndoHost`): a call
  resolves or rejects as the record says, and a rejected call changes nothing.
-/

namespace Custos

/-! ## Numbers: binary64 -/

/-- The rational `2 ^ z`. -/
def pow2 (z : ℤ) : ℚ :=
  if 0 ≤ z then ((2 ^ z.toNat : ℕ) : ℚ) else 1 / ((2 ^ (-z).toNat : ℕ) : ℚ)

/-- Binary search for the position of the top bit of `n`: with `2 ^ e ≤ n < 2 ^ (e + 2 ^ k)` the
result `r` has `2 ^ r ≤ n < 2 ^ (r + 1)`. -/
def log2Go (n : ℕ) : ℕ → ℕ → ℕ
  | 0, e => e
  | k + 1, e => if 2 ^ (e + 2 ^ k) ≤ n then log2Go n k (e + 2 ^ k) else log2Go n k e

/-- For `n > 0`, the position of the top bit of `n`. -/
def bitLog2 (n : ℕ) : ℕ := if n < 2 ^ 2 ^ 16 then log2Go n 16 0 else Nat.log2 n

/-- For `a > 0`, the exponent `e` with `2 ^ e ≤ a < 2 ^ (e + 1)`. -/
def floorLog2 (a : ℚ) : ℤ :=
  let e0 : ℤ := (bitLog2 a.num.natAbs : ℤ) - (bitLog2 a.den : ℤ)
  if pow2 e0 ≤ a then e0 else e0 - 1

/-- For `t ≥ 0`, the integer nearest to `t`, the even one on a tie. -/
def roundHalfEven (t : ℚ) : ℕ :=
  let k := t.num.natAbs / t.den
  let r := t.num.natAbs % t.den
  if 2 * r < t.den then k
  else if t.den < 2 * r then k + 1
  else if k % 2 = 0 then k else k + 1

/-- A JS number: a binary64 value.  A finite value is held as the rational it denotes.  The sign
of zero is not kept: the code compares, adds, multiplies and takes square roots, and its one
division is guarded by `denominator === 0`, so the two zeros behave alike. -/
inductive JSNum where
  | nan
  | posInf
  | negInf
  | fin (q : ℚ)
  deriving DecidableEq, Repr

instance (n : ℕ) : OfNat JSNum n := ⟨JSNum.fin n⟩

/-- For `a > 0`, the binary64 value nearest to `a` (ties to even, with gradual underflow), or
`none` when the rounded value is out of range. -/
def roundPos (a : ℚ) : Option ℚ :=
  let e := max (floorLog2 a) (-1022)
  let u := pow2 (e - 52)
  let r := (roundHalfEven (a / u) : ℚ) * u
  if pow2 1024 ≤ r then none else some r

/-- The binary64 value of an exact result: round to nearest, ties to even, overflow to an
infinity. -/
def roundToDouble (q : ℚ) : JSNum :=
  if q = 0 then JSNum.fin 0
  else if 0 < q then
    match roundPos q with
    | some r => JSNum.fin r
    | none => JSNum.posInf
  else
    match roundPos (-q) with
    | some r => JSNum.fin (-r)
    | none => JSNum.negInf

/-- The integer square root, bit by bit from the top. -/
def isqrt (n : ℕ) : ℕ :=
  (List.range (bitLog2 n / 2 + 2)).reverse.foldl
    (fun r b => if (r + 2 ^ b) * (r + 2 ^ b) ≤ n then r + 2 ^ b else r) 0

/-- For a binary64 value `q > 0`, the binary64 value nearest to its square root. -/
def sqrtPos (q : ℚ) : ℚ :=
  let k := floorLog2 q / 2
  let u := pow2 (k - 52)
  let t := q / (u * u)
  let m0 := isqrt (t.num.natAbs / t.den)
  let half : ℚ := (m0 : ℚ) + 1 / 2
  let m : ℕ :=
    if t < half * half then m0
    else if half * half < t then m0 + 1
    else if m0 % 2 = 0 then m0 else m0 + 1
  (m : ℚ) * u

namespace JSNum

/-- The operator `x + y` on numbers. -/
def add : JSNum → JSNum → JSNum
  | nan, _ => nan
  | _, nan => nan
  | posInf, negInf => nan
  | negInf, posInf => nan
  | posInf, _ => posInf
  | _, posInf => posInf
  | negInf, _ => negInf
  | _, negInf => negInf
  | fin a, fin b => roundToDouble (a + b)

/-- The operator `-x`. -/
def neg : JSNum → JSNum
  | nan => nan
  | posInf => negInf
  | negInf => posInf
  | fin a => fin (-a)

/-- The operator `x - y`. -/
def sub (x y : JSNum) : JSNum := add x (neg y)

/-- The infinity of the given sign. -/
def signedInf (positive : Bool) : JSNum := if positive then posInf else negInf

/-- The operator `x * y`. -/
def mul : JSNum → JSNum → JSNum
  | nan, _ => nan
  | _, nan => nan
  | posInf, posInf => posInf
  | posInf, negInf => negInf
  | negInf, posInf => negInf
  | negInf, negInf => posInf
  | posInf, fin b => if b = 0 then nan else signedInf (decide (0 < b))
  | negInf, fin b => if b = 0 then nan else signedInf (decide (b < 0))
  | fin a, posInf => if a = 0 then nan else signedInf (decide (0 < a))
  | fin a, negInf => if a = 0 then nan else signedInf (decide (a < 0))
  | fin a, fin b => roundToDouble (a * b)

/-- The operator `x / y`; a zero divisor counts as `+0`. -/
def div : JSNum → JSNum → JSNum
  | nan, _ => nan
  | _, nan => nan
  | fin _, posInf => fin 0
  | fin _, negInf => fin 0
  | posInf, fin b => signedInf (decide (0 ≤ b))
  | negInf, fin b => signedInf (decide (b < 0))
  | fin a, fin b =>
    if b = 0 then (if a = 0 then nan else signedInf (decide (0 < a)))
    else roundToDouble (a / b)
  | _, _ => nan

/-- The function `Math.sqrt`. -/
def sqrt : JSNum → JSNum
  | nan => nan
  | posInf => posInf
  | negInf => nan
  | fin q => if q < 0 then nan else if q = 0 then fin 0 else fin (sqrtPos q)

/-- The comparison `x > y`. -/
def gt : JSNum → JSNum → Bool
  | nan, _ => false
  | _, nan => false
  | posInf, posInf => false
  | posInf, _ => true
  | _, posInf => false
  | negInf, _ => false
  | fin _, negInf => true
  | fin a, fin b => decide (b < a)

/-- The comparison `x === 0`. -/
def isZero : JSNum → Bool
  | fin q => decide (q = 0)
  | _ => false

/-- The comparison `x === y` on numbers: `NaN` is equal to nothing, itself included. -/
def strictEq (x y : JSNum) : Bool := decide (x ≠ nan ∧ y ≠ nan ∧ x = y)

end JSNum

/-- The rational is an integer multiple of `2 ^ (-1074)`, the smallest positive binary64
value. -/
def onGrid (q : ℚ) : Prop := ∃ z : ℤ, q = (z : ℚ) * pow2 (-1074)

/-- The number is the outcome of a rounding: an infinity, or a finite value on the grid of
binary64. -/
def isDouble : JSNum → Prop
  | JSNum.nan => False
  | JSNum.posInf => True
  | JSNum.negInf => True
  | JSNum.fin q => onGrid q

/-! ## Values and term vectors -/

/-- The property names that every plain object inherits from `Object.prototype`. -/
def OBJECT_PROTOTYPE_KEYS : List String :=
  ["constructor", "__defineGetter__", "__defineSetter__", "hasOwnProperty", "__lookupGetter__",
   "__lookupSetter__", "isPrototypeOf", "propertyIsEnumerable", "toString", "valueOf",
   "__proto__", "toLocaleString"]

/-- The values that a property read on a term vector can give. -/
inductive JSVal where
  /-- The value `undefined`: the property is neither own nor inherited. -/
  | undefined
  /-- A number. -/
  | num (x : JSNum)
  /-- The value of the property `name` of `Object.prototype`: a function, or for `__proto__` the
  prototype itself. -/
  | inherited (name : String)
  /-- The string that starts with the text of the inherited property `name` and goes on with
  `suffix`, as `Object.prototype.constructor + 5` is `"function Object() { [native code] }5"`. -/
  | inheritedText (name : String) (suffix : String)
  deriving DecidableEq, Repr

instance (n : ℕ) : OfNat JSVal n := ⟨JSVal.num (JSNum.fin n)⟩

/-- A decimal literal such as `1.5` or `0.1`: the binary64 value nearest to it. -/
instance : OfScientific JSVal :=
  ⟨fun m s e => JSVal.num (roundToDouble (OfScientific.ofScientific m s e))⟩

/-- The conversion `ToBoolean`: `undefined`, `0` and `NaN` are falsy; a function, an object and
a non-empty string are truthy. -/
def JSVal.truthy : JSVal → Bool
  | JSVal.undefined => false
  | JSVal.num x => !(x.isZero || decide (x = JSNum.nan))
  | JSVal.inherited _ => true
  | JSVal.inheritedText _ _ => true

/-- The conversion `ToNumber`: a function, an object and a string that starts with the text of a
function or of an object convert to `NaN`. -/
def JSVal.toNumber : JSVal → JSNum
  | JSVal.num x => x
  | _ => JSNum.nan

/-- A term vector: the own entries `word ↦ value` of a plain JS object, in key order. -/
abbrev TermVector := List (String × JSVal)

/-- The list `Object.keys(v)`. -/
def keys (v : TermVector) : List String := v.map Prod.fst

/-- The property read `v[word]` on a plain object: the own entry, else the property inherited
from `Object.prototype`, else `undefined`. -/
def getProp (v : TermVector) (word : String) : JSVal :=
  match v.lookup word with
  | some x => x
  | none => if word ∈ OBJECT_PROTOTYPE_KEYS then JSVal.inherited word else JSVal.undefined

/-- The expression `x || 0`. -/
def orZero (x : JSVal) : JSVal := if x.truthy then x else JSVal.num 0

/-- The expression `v[word] || 0`. -/
def valueOr0 (v : TermVector) (word : String) : JSVal := orZero (getProp v word)

/-- One `Set.prototype.add`: a value already present is not added again. -/
def setAdd (s : List String) (w : String) : List String := if w ∈ s then s else s ++ [w]

/-- The set `new Set([...Object.keys(v1), ...Object.keys(v2)])`, in insertion order. -/
def allWords (v1 v2 : TermVector) : List String := (keys v1 ++ keys v2).foldl setAdd []

/-! ## calculateSimilarity -/

/-- The three accumulators of the loop in `calculateSimilarity`. -/
structure Sums where
  dotProduct : JSNum
  magnitude1 : JSNum
  magnitude2 : JSNum
  deriving DecidableEq

/-- The body of `for (let word of allWords)`; the operator `*` converts its operands to
numbers. -/
def accumulate (v1 v2 : TermVector) (s : Sums) (word : String) : Sums :=
  let val1 := (valueOr0 v1 word).toNumber
  let val2 := (valueOr0 v2 word).toNumber
  { dotProduct := s.dotProduct.add (val1.mul val2)
    magnitude1 := s.magnitude1.add (val1.mul val1)
    magnitude2 := s.magnitude2.add (val2.mul val2) }

/-- The accumulators after the loop. -/
def similaritySums (v1 v2 : TermVector) : Sums :=
  (allWords v1 v2).foldl (accumulate v1 v2) ⟨0, 0, 0⟩

/-- The value `Math.sqrt(magnitude1) * Math.sqrt(magnitude2)`. -/
def denominator (v1 v2 : TermVector) : JSNum :=
  (similaritySums v1 v2).magnitude1.sqrt.mul (similaritySums v1 v2).magnitude2.sqrt

/-- The function `calculateSimilarity(v1, v2)`. -/
def calculateSimilarity (v1 v2 : TermVector) : JSNum :=
  if (denominator v1 v2).isZero then 0
  else (similaritySums v1 v2).dotProduct.div (denominator v1 v2)

/-- The constant `SIMILARITY_THRESHOLD = 0.25`. -/
def SIMILARITY_THRESHOLD : JSNum := JSNum.fin (1 / 4)

/-! ## Strings -/

/-- The constant `STOP_WORDS`. -/
def STOP_WORDS : List String :=
  ["home", "page", "login", "search", "google", "index", "dashboard",
   "welcome", "portal", "navigation", "html", "php", "youtube", "video",
   "watch", "https", "http", "www", "com", "org", "net", "query", "results",
   "view", "brave", "bing", "yahoo", "duckduckgo", "tab", "browser"]

/-- The property `length` of a JS string: the number of UTF-16 code units. -/
def jsLength (s : String) : Nat :=
  (s.data.map (fun c => if 65536 ≤ c.toNat then 2 else 1)).sum

/-- The regex class `\s`, which is also the white space trimmed by `Number(string)`. -/
def isJsSpace (c : Char) : Bool :=
  let n := c.toNat
  n == 9 || n == 10 || n == 11 || n == 12 || n == 13 || n == 32 || n == 160 || n == 5760 ||
  (8192 ≤ n && n ≤ 8202) || n == 8232 || n == 8233 || n == 8239 || n == 8287 || n == 12288 ||
  n == 65279

/-- The regex class `[a-z0-9]`. -/
def isLowerAlnum (c : Char) : Bool :=
  (97 ≤ c.toNat && c.toNat ≤ 122) || (48 ≤ c.toNat && c.toNat ≤ 57)

/-- One character under `replace(/[^a-z0-9\s]/g, " ")`; the regex has no `u` flag, so a character
outside the BMP is two code units and becomes two spaces. -/
def replaceChar (c : Char) : List Char :=
  if isLowerAlnum c || isJsSpace c then [c]
  else if 65536 ≤ c.toNat then [' ', ' '] else [' ']

/-- The call `s.replace(/[^a-z0-9\s]/g, " ")`. -/
def replaceNonAlnum (s : String) : List Char := s.data.flatMap replaceChar

/-- Worker of `split(/\s+/)`: `cur` is the token being read, reversed; `inSep` tells that the
previous character belonged to a run of white space. -/
def splitSpacesAux : List Char → List Char → Bool → List String
  | [], cur, _ => [String.mk cur.reverse]
  | c :: cs, cur, inSep =>
    if isJsSpace c then
      (if inSep then splitSpacesAux cs cur true
       else String.mk cur.reverse :: splitSpacesAux cs [] true)
    else splitSpacesAux cs (c :: cur) false

/-- The call `s.split(/\s+/)`. -/
def splitSpaces (s : List Char) : List String := splitSpacesAux s [] false

/-- The regex class `[\/\-\._\?&=]`. -/
def isUrlSep (c : Char) : Bool :=
  c == '/' || c == '-' || c == '.' || c == '_' || c == '?' || c == '&' || c == '='

/-- Worker of `split(/[\/\-\._\?&=]/)`: `cur` is the token being read, reversed. -/
def splitUrlAux : List Char → List Char → List String
  | [], cur => [String.mk cur.reverse]
  | c :: cs, cur =>
    if isUrlSep c then String.mk cur.reverse :: splitUrlAux cs []
    else splitUrlAux cs (c :: cur)

/-- The call `s.split(/[\/\-\._\?&=]/)`. -/
def splitUrl (s : String) : List String := splitUrlAux s.data []

/-! ### isNaN on strings

`isNaN(word)` is `Number(word)` being `NaN`, that is `word` not matching the grammar
`StringNumericLiteral` of the language standard. -/

/-- The string with leading and trailing white space removed. -/
def trimSpaces (l : List Char) : List Char :=
  ((l.dropWhile isJsSpace).reverse.dropWhile isJsSpace).reverse

/-- The production `DecimalDigits`: one or more decimal digits. -/
def isDecimalDigits (l : List Char) : Bool := !l.isEmpty && l.all Char.isDigit

/-- The production `SignedInteger`. -/
def isSignedInteger (l : List Char) : Bool :=
  match l with
  | [] => false
  | c :: r => if c == '+' || c == '-' then isDecimalDigits r else isDecimalDigits (c :: r)

/-- An optional `ExponentPart`. -/
def isExponentPartOpt (l : List Char) : Bool :=
  match l with
  | [] => true
  | c :: r => (c == 'e' || c == 'E') && isSignedInteger r

/-- The production `StrUnsignedDecimalLiteral`. -/
def isUnsignedDecimal (l : List Char) : Bool :=
  l == "Infinity".data ||
  (let intPart := l.takeWhile Char.isDigit
   match l.dropWhile Char.isDigit with
   | [] => !intPart.isEmpty
   | c :: r =>
     if c == '.' then
       (!intPart.isEmpty || !(r.takeWhile Char.isDigit).isEmpty) &&
         isExponentPartOpt (r.dropWhile Char.isDigit)
     else !intPart.isEmpty && isExponentPartOpt (c :: r))

/-- A hexadecimal digit. -/
def isHexDigit (c : Char) : Bool :=
  c.isDigit || (97 ≤ c.toNat && c.toNat ≤ 102) || (65 ≤ c.toNat && c.toNat ≤ 70)

/-- The production `NonDecimalIntegerLiteral`: `0x`, `0o` or `0b` and digits of that base. -/
def isNonDecimalInteger (l : List Char) : Bool :=
  match l with
  | c0 :: c1 :: r =>
    c0 == '0' && !r.isEmpty &&
      (((c1 == 'x' || c1 == 'X') && r.all isHexDigit) ||
       ((c1 == 'o' || c1 == 'O') && r.all (fun c => 48 ≤ c.toNat && c.toNat ≤ 55)) ||
       ((c1 == 'b' || c1 == 'B') && r.all (fun c => c == '0' || c == '1')))
  | _ => false

/-- The production `StrDecimalLiteral`: an optional sign and an unsigned decimal literal. -/
def isStrDecimal (l : List Char) : Bool :=
  match l with
  | [] => false
  | c :: r => if c == '+' || c == '-' then isUnsignedDecimal r else isUnsignedDecimal (c :: r)

/-- The string converts to a number other than `NaN`. -/
def isNumericString (s : String) : Bool :=
  let t := trimSpaces s.data
  t.isEmpty || isNonDecimalInteger t || isStrDecimal t

/-- The call `isNaN(word)` on a string. -/
def jsIsNaN (word : String) : Bool := !isNumericString word

/-- A purely numeric token: one or more decimal digits. -/
def isPurelyNumeric (w : String) : Prop := w.data ≠ [] ∧ ∀ c ∈ w.data, c.isDigit = true

/-- The call `hostname.replace('www.', '')`: the first occurrence of the pattern is removed. -/
def removeFirst (pat : List Char) : List Char → List Char
  | [] => []
  | c :: cs => if pat.isPrefixOf (c :: cs) then (c :: cs).drop pat.length
               else c :: removeFirst pat cs

/-- The expression `hostname.replace('www.', '').split('.')[0]`. -/
def domainRoot (hostname : String) : String :=
  String.mk ((removeFirst "www.".data hostname.data).takeWhile (fun c => c != '.'))

/-! ## getTabVector -/

/-- The fields of a tab descriptor that the scanner and the sweep read.  `title` and `url` may be
undefined. -/
structure Tab where
  id : Nat
  title : Option String
  url : Option String
  status : String

/-- What the scanner takes from the JS runtime and the browser. -/
structure ScanEnv where
  /-- The method `String.prototype.toLowerCase`. -/
  toLowerCase : String → String
  /-- The method `String.prototype.toUpperCase`. -/
  toUpperCase : String → String
  /-- The expression `new URL(url).hostname`; `none` when the constructor throws. -/
  hostname : String → Option String
  /-- The settled outcome of the race between the injected probe and the timeout: the probe's
  `result`, or `none` when the race rejects or the result is undefined. -/
  pageText : Tab → Option String

/-- The test `tab.url?.startsWith('http')`. -/
def startsWithHttp (url : Option String) : Bool :=
  match url with
  | some u => "http".data.isPrefixOf u.data
  | none => false

/-- The value of `bodyText` after the guarded scan. -/
def bodyTextOf (env : ScanEnv) (tab : Tab) : String :=
  if startsWithHttp tab.url && tab.status == "complete" then (env.pageText tab).getD "" else ""

/-- The list `titleWords`. -/
def titleWordsOf (env : ScanEnv) (tab : Tab) : List String :=
  splitSpaces (replaceNonAlnum (env.toLowerCase (tab.title.getD "")))

/-- The list `pageWords`. -/
def pageWordsOf (env : ScanEnv) (tab : Tab) : List String :=
  splitSpaces (replaceNonAlnum (bodyTextOf env tab))

/-- The list `urlPath`. -/
def urlPathOf (env : ScanEnv) (tab : Tab) : List String :=
  splitUrl (env.toLowerCase (tab.url.getD ""))

/-- The value of `domainName`: the domain root of the tab, or `""` when the URL does not parse. -/
def domainNameOf (env : ScanEnv) (tab : Tab) : String :=
  match tab.url.bind env.hostname with
  | some h => domainRoot h
  | none => ""

/-- The condition of `processWords`:
`word.length > 3 && !STOP_WORDS.has(word) && isNaN(word) && word !== domainName`. -/
def passesFilter (domainName word : String) : Bool :=
  decide (3 < jsLength word) && !STOP_WORDS.contains word && jsIsNaN word && word != domainName

/-- A weight of `processWords`: the number, and the string that `ToString` gives for it. -/
structure Weight where
  value : JSNum
  text : String

/-- The literal `5.0` of the title stream. -/
def titleWeight : Weight := ⟨5, "5"⟩

/-- The literal `1.5` of the URL stream. -/
def urlWeight : Weight := ⟨JSNum.fin (3 / 2), "1.5"⟩

/-- The literal `0.5` of the page-text stream. -/
def pageWeight : Weight := ⟨JSNum.fin (1 / 2), "0.5"⟩

/-- The expression `x + weight` for a value `x` read from a vector: the sum of two numbers; with
a function, an object or a string on the left, the concatenation of its text and the text of the
weight. -/
def jsPlus (x : JSVal) (weight : Weight) : JSVal :=
  match x with
  | JSVal.undefined => JSVal.num JSNum.nan
  | JSVal.num a => JSVal.num (a.add weight.value)
  | JSVal.inherited name => JSVal.inheritedText name weight.text
  | JSVal.inheritedText name suffix => JSVal.inheritedText name (suffix ++ weight.text)

/-- The own entry `word` replaced in place, or added at the end: a word that passes the filter
of `processWords` is not numeric, so it is not an array index and keeps its insertion place in
the key order. -/
def setOwn (vector : TermVector) (word : String) (x : JSVal) : TermVector :=
  match vector with
  | [] => [(word, x)]
  | (k, y) :: rest => if k = word then (k, x) :: rest else (k, y) :: setOwn rest word x

/-- The assignment `vector[word] = x` of a number or a string on a plain object: the own entry is
written, except under the name `__proto__`, whose inherited setter ignores such a value. -/
def setProp (vector : TermVector) (word : String) (x : JSVal) : TermVector :=
  if word = "__proto__" ∧ word ∉ keys vector then vector else setOwn vector word x

/-- The assignment `vector[word] = (vector[word] || 0) + weight`. -/
def addWeight (vector : TermVector) (word : String) (weight : Weight) : TermVector :=
  setProp vector word (jsPlus (valueOr0 vector word) weight)

/-- The closure `processWords(wordList, weight)` acting on `vector`. -/
def processWords (domainName : String) (vector : TermVector) (wordList : List String)
    (weight : Weight) : TermVector :=
  wordList.foldl
    (fun vec word => if passesFilter domainName word then addWeight vec word weight else vec)
    vector

/-- The function `getTabVector(tab)`. -/
def getTabVector (env : ScanEnv) (tab : Tab) : TermVector :=
  let domainName := domainNameOf env tab
  let v1 := processWords domainName [] (titleWordsOf env tab) titleWeight
  let v2 := processWords domainName v1 (urlPathOf env tab) urlWeight
  processWords domainName v2 (pageWordsOf env tab) pageWeight

/-- A URL parser for examples: the host of `scheme://host[:port][/...]`, lower-cased; `none`,
for a constructor that throws, on any other string. -/
def parseHostname (url : String) : Option String :=
  match url.data.dropWhile (fun c => c != ':') with
  | ':' :: '/' :: '/' :: r =>
    if (url.data.takeWhile (fun c => c != ':')).isEmpty then none
    else some (String.mk (((r.takeWhile (fun c => c != '/' && c != '?' && c != '#')).takeWhile
      (fun c => c != ':')).map Char.toLower))
  | _ => none

/-- A runtime for examples: ASCII case mapping, the URL parser `parseHostname`, and a probe that
always fails. -/
def exampleEnv : ScanEnv where
  toLowerCase := fun s => s.map Char.toLower
  toUpperCase := fun s => s.map Char.toUpper
  hostname := parseHostname
  pageText := fun _ => none

/-- The runtime `exampleEnv` with a probe that reads the page text "constructor pattern guide"
from every tab. -/
def probeEnv : ScanEnv :=
  { exampleEnv with pageText := fun _ => some "constructor pattern guide" }

/-! ## tidyTabs: the sweep -/

/-- An element of `tabData`: a scanned tab, by its id, and its vector. -/
structure TabEntry where
  tabId : Nat
  vector : TermVector

/-- An entry of the map `groupVectors`, in iteration order: the group id and the vector stored
for the group. -/
structure GroupData where
  groupId : Nat
  vector : TermVector

/-- The record stored under `lastAction` (its timestamp is left out). -/
inductive LastAction where
  | tabAdded (tabId groupId : Nat)
  | groupCreated (tabIds : List Nat) (groupName : String) (groupId : Nat)
  deriving DecidableEq, Repr

/-- How the host answers the calls of one sweep.  The argument is the index of the loop
iteration that makes the call: each iteration makes each call at most once. -/
structure HostOutcomes where
  /-- STEP 1, entry `i`: `chrome.tabs.group({ tabIds: [id], groupId })` resolves. -/
  assignOk : Nat → Bool
  /-- STEP 1, entry `i`: the `chrome.storage.local.set` that follows resolves. -/
  assignStoreOk : Nat → Bool
  /-- STEP 2, seed `i`: `chrome.tabs.group({ tabIds: cluster })` yields the new group id, or
  rejects (`none`). -/
  createGroup : Nat → Option Nat
  /-- STEP 2, seed `i`: `chrome.tabGroups.update` resolves. -/
  updateOk : Nat → Bool
  /-- STEP 2, seed `i`: the `chrome.storage.local.set` that follows resolves. -/
  createStoreOk : Nat → Bool

/-- A call that the host carried out. -/
inductive Mutation where
  | assigned (tabId groupId : Nat)
  | grouped (tabIds : List Nat) (newGroupId : Nat)
  | labelled (groupId : Nat) (title : String)
  | stored (action : LastAction)
  deriving DecidableEq, Repr

/-- A cluster as STEP 2 builds it, with the outcome of the iteration: `materialized` tells that
its ids were added to `processedIds`. -/
structure ClusterRecord where
  seedIndex : Nat
  cluster : List Nat
  sharedVectorPool : TermVector
  materialized : Bool
  deriving DecidableEq

/-- The variables of a sweep, the `lastAction` slot of the storage, and two logs that the code
does not keep: the calls the host carried out and the clusters STEP 2 built, both in order. -/
structure SweepState where
  processedIds : List Nat
  groupsCreated : Nat
  tabsAddedToExisting : Nat
  lastAction : Option LastAction
  mutations : List Mutation
  clusters : List ClusterRecord

/-- The state at `let processedIds = new Set()`. -/
def SweepState.init (lastAction : Option LastAction) : SweepState :=
  { processedIds := [], groupsCreated := 0, tabsAddedToExisting := 0, lastAction := lastAction,
    mutations := [], clusters := [] }

/-- The body of `for (const [groupId, groupData] of groupVectors)`, on the pair
`(bestMatch, bestScore)`. -/
def bestMatchStep (vector : TermVector) (acc : Option Nat × JSNum) (g : GroupData) :
    Option Nat × JSNum :=
  let score := calculateSimilarity vector g.vector
  if score.gt SIMILARITY_THRESHOLD && score.gt acc.2 then (some g.groupId, score) else acc

/-- The pair `(bestMatch, bestScore)` after the loop over `groupVectors`. -/
def findBestMatch (vector : TermVector) (groupVectors : List GroupData) : Option Nat × JSNum :=
  groupVectors.foldl (bestMatchStep vector) (none, 0)

/-- The body of the loop of STEP 1, for the entry at index `i`. -/
def assignStep (host : HostOutcomes) (groupVectors : List GroupData) (st : SweepState)
    (i : Nat) (entry : TabEntry) : SweepState :=
  if entry.tabId ∈ st.processedIds then st
  else
    match (findBestMatch entry.vector groupVectors).1 with
    | none => st
    | some bestMatch =>
      if host.assignOk i then
        let st1 := { st with
          processedIds := st.processedIds ++ [entry.tabId]
          tabsAddedToExisting := st.tabsAddedToExisting + 1
          mutations := st.mutations ++ [Mutation.assigned entry.tabId bestMatch] }
        if host.assignStoreOk i then
          { st1 with
            lastAction := some (LastAction.tabAdded entry.tabId bestMatch)
            mutations := st1.mutations ++
              [Mutation.stored (LastAction.tabAdded entry.tabId bestMatch)] }
        else st1
      else st

/-- The loop of STEP 1 from index `i` on. -/
def assignLoop (host : HostOutcomes) (groupVectors : List GroupData) :
    Nat → List TabEntry → SweepState → SweepState
  | _, [], st => st
  | i, entry :: rest, st =>
    assignLoop host groupVectors (i + 1) rest (assignStep host groupVectors st i entry)

/-- The body of the inner loop of STEP 2, on the pair `(cluster, sharedVectorPool)`. -/
def scanStep (processedIds : List Nat) (entryA : TabEntry) (acc : List Nat × TermVector)
    (entryB : TabEntry) : List Nat × TermVector :=
  if entryB.tabId ∈ processedIds then acc
  else if (calculateSimilarity entryA.vector entryB.vector).gt SIMILARITY_THRESHOLD then
    (acc.1 ++ [entryB.tabId], acc.2.filter (fun p => (getProp entryB.vector p.1).truthy))
  else acc

/-- The pair `(cluster, sharedVectorPool)` after the inner loop over the entries behind the
seed. -/
def buildCluster (processedIds : List Nat) (entryA : TabEntry) (rest : List TabEntry) :
    List Nat × TermVector :=
  rest.foldl (scanStep processedIds entryA) ([entryA.tabId], entryA.vector)

/-- The expression `sharedVectorPool[word] * word.length`. -/
def labelWeight (sharedVectorPool : TermVector) (word : String) : JSNum :=
  (getProp sharedVectorPool word).toNumber.mul (JSNum.fin (jsLength word))

/-- The comparator of the sort:
`(sharedVectorPool[b] * b.length) - (sharedVectorPool[a] * a.length)`. -/
def compareLabels (sharedVectorPool : TermVector) (a b : String) : JSNum :=
  (labelWeight sharedVectorPool b).sub (labelWeight sharedVectorPool a)

/-- The value of `bestLabel`: the head of the pool's keys outside the stop words after the
sort, which is stable and puts `b` before an earlier `a` only when the comparator is positive at
`(a, b)`; `none` for `undefined`. -/
def bestLabelOf (sharedVectorPool : TermVector) : Option String :=
  (((keys sharedVectorPool).filter (fun word => !STOP_WORDS.contains word)).insertionSort
    (fun a b => (compareLabels sharedVectorPool a b).gt 0 = false)).head?

/-- The expression `bestLabel.charAt(0).toUpperCase() + bestLabel.slice(1)`.  A first character
outside the BMP is two code units: `charAt(0)` is then a lone surrogate, which has no upper case,
and the string comes back as it was. -/
def capitalize (env : ScanEnv) (word : String) : String :=
  match word.data with
  | [] => ""
  | c :: cs =>
    if 65536 ≤ c.toNat then word else env.toUpperCase (String.singleton c) ++ String.mk cs

/-- The value of `label`. -/
def labelOf (env : ScanEnv) (sharedVectorPool : TermVector) : String :=
  match bestLabelOf sharedVectorPool with
  | some bestLabel =>
    if bestLabel ≠ "" ∧ 2 < jsLength bestLabel then capitalize env bestLabel else "Research"
  | none => "Research"

/-- The value of `settings.minGroupSize || 2`, for a setting that is a number or is missing. -/
def minGroupSizeOf (setting : Option ℚ) : ℚ :=
  match setting with
  | some n => if n = 0 then 2 else n
  | none => 2

/-- The body of the outer loop of STEP 2, for the seed at index `i` and the entries behind it. -/
def clusterStep (env : ScanEnv) (host : HostOutcomes) (minGroupSize : ℚ) (st : SweepState)
    (i : Nat) (entryA : TabEntry) (rest : List TabEntry) : SweepState :=
  if entryA.tabId ∈ st.processedIds then st
  else
    let built := buildCluster st.processedIds entryA rest
    let cluster := built.1
    let sharedVectorPool := built.2
    let skipped := { st with clusters := st.clusters ++ [⟨i, cluster, sharedVectorPool, false⟩] }
    if minGroupSize ≤ (cluster.length : ℚ) then
      let label := labelOf env sharedVectorPool
      match host.createGroup i with
      | none => skipped
      | some newGroupId =>
        if host.updateOk i then
          let st2 := { st with
            processedIds := st.processedIds ++ cluster
            groupsCreated := st.groupsCreated + 1
            mutations := st.mutations ++
              [Mutation.grouped cluster newGroupId, Mutation.labelled newGroupId label]
            clusters := st.clusters ++ [⟨i, cluster, sharedVectorPool, true⟩] }
          if host.createStoreOk i then
            { st2 with
              lastAction := some (LastAction.groupCreated cluster label newGroupId)
              mutations := st2.mutations ++
                [Mutation.stored (LastAction.groupCreated cluster label newGroupId)] }
          else st2
        else
          { skipped with mutations := st.mutations ++ [Mutation.grouped cluster newGroupId] }
    else skipped

/-- The outer loop of STEP 2 from index `i` on. -/
def clusterLoop (env : ScanEnv) (host : HostOutcomes) (minGroupSize : ℚ) :
    Nat → List TabEntry → SweepState → SweepState
  | _, [], st => st
  | i, entryA :: rest, st =>
    clusterLoop env host minGroupSize (i + 1) rest
      (clusterStep env host minGroupSize st i entryA rest)

/-- The list `remainingTabData`. -/
def remainingTabData (tabData : List TabEntry) (processedIds : List Nat) : List TabEntry :=
  tabData.filter (fun entry => !processedIds.contains entry.tabId)

/-- STEP 1 and STEP 2 of `tidyTabs`, from the scanned tabs, the group vectors, the stored
`minGroupSize` and the stored `lastAction`. -/
def tidySweep (env : ScanEnv) (host : HostOutcomes) (setting : Option ℚ)
    (groupVectors : List GroupData) (tabData : List TabEntry)
    (lastAction : Option LastAction) : SweepState :=
  let st1 := assignLoop host groupVectors 0 tabData (SweepState.init lastAction)
  clusterLoop env host (minGroupSizeOf setting) 0 (remainingTabData tabData st1.processedIds) st1

/-- A host on which every call succeeds; the group made for seed `i` gets the id `100 + i`. -/
def okHost : HostOutcomes where
  assignOk := fun _ => true
  assignStoreOk := fun _ => true
  createGroup := fun i => some (100 + i)
  updateOk := fun _ => true
  createStoreOk := fun _ => true

/-! ## Invariants of the sweep -/

/-- What STEP 1 and STEP 2 never do below the minimum size: every group made, every
`group_created` record stored and every cluster marked as materialized has at least `m`
members, and the `lastAction` slot holds the initial record or one that was stored. -/
def SizeInv (m : ℚ) (la : Option LastAction) (st : SweepState) : Prop :=
  (∀ ids gid, Mutation.grouped ids gid ∈ st.mutations → m ≤ (ids.length : ℚ)) ∧
  (∀ ids name gid, Mutation.stored (LastAction.groupCreated ids name gid) ∈ st.mutations →
    m ≤ (ids.length : ℚ)) ∧
  (∀ c ∈ st.clusters, c.materialized = true → m ≤ (c.cluster.length : ℚ)) ∧
  (st.lastAction = la ∨ ∃ a, st.lastAction = some a ∧ Mutation.stored a ∈ st.mutations)

/-- Materialized clusters are closed: their members are in `processedIds`, and no cluster built
after a materialized one shares a member with it. -/
def ExclInv (st : SweepState) : Prop :=
  (∀ c ∈ st.clusters, c.materialized = true → ∀ x ∈ c.cluster, x ∈ st.processedIds) ∧
  st.clusters.Pairwise (fun c1 c2 => c1.materialized = true → ∀ x ∈ c1.cluster, x ∉ c2.cluster)

/-! ## Reference descriptions for the clustering pass -/

/-- The tabs that join the cluster of the seed `entryA`: the entries behind the seed, in order,
that are not in `processedIds` and whose similarity with the seed is above the threshold. -/
def joinedOf (processedIds : List Nat) (entryA : TabEntry) (rest : List TabEntry) :
    List TabEntry :=
  rest.filter (fun entryB => decide (entryB.tabId ∉ processedIds) &&
    (calculateSimilarity entryA.vector entryB.vector).gt SIMILARITY_THRESHOLD)

/-- Every weight of the vector is a finite number. -/
def finiteWeights (v : TermVector) : Prop :=
  ∀ p ∈ v, ∃ q : ℚ, p.2 = JSVal.num (JSNum.fin q)

/-- Every weight of the vector is a finite number greater than 0. -/
def positiveWeights (v : TermVector) : Prop :=
  ∀ p ∈ v, ∃ q : ℚ, p.2 = JSVal.num (JSNum.fin q) ∧ 0 < q

/-- The entries of the seed's vector whose term is a key of the vector of every joined tab. -/
def sharedTermsOf (entryA : TabEntry) (joined : List TabEntry) : TermVector :=
  entryA.vector.filter (fun p => joined.all (fun entryB => decide (p.1 ∈ keys entryB.vector)))

/-- The tab `t` takes no part in a mutation, unless it is grouped alone: no assignment names it,
and a group that contains it has no other member. -/
def InertInv (t : Nat) (st : SweepState) : Prop :=
  (∀ g, Mutation.assigned t g ∉ st.mutations) ∧
  (∀ ids g, Mutation.grouped ids g ∈ st.mutations → t ∈ ids → ids = [t])

/-! ## undoLastAction -/

/-- How the host answers the calls of one `undoLastAction`. -/
structure UndoHost where
  /-- The call `chrome.storage.local.get("lastAction")` resolves. -/
  getOk : Bool
  /-- The call `chrome.tabs.query({ currentWindow: true })`: the ids of the tabs that exist, or
  `none` when it rejects. -/
  queryTabs : Option (List Nat)
  /-- The call `chrome.tabs.get(lastAction.tabId)` resolves. -/
  tabGetOk : Bool
  /-- The call `chrome.tabs.ungroup` resolves. -/
  ungroupOk : Bool
  /-- The `k`-th call `chrome.storage.local.set({ lastAction: null })` of the run resolves; a
  call that rejects leaves the slot as it is. -/
  setOk : Nat → Bool
  /-- The text `e.message` of the error that reaches the outer `catch`. -/
  errorMessage : String

/-- The object that `undoLastAction` returns. -/
structure UndoResult where
  success : Bool
  message : String
  deriving DecidableEq, Repr

/-- The outer `catch` block, whose write is the `k`-th of the run: the slot is cleared and a
failure is returned, or the write rejects and so does the function (`none`). -/
def undoCatch (host : UndoHost) (k : Nat) (slot : Option LastAction) :
    Option UndoResult × Option LastAction :=
  if host.setOk k then (some ⟨false, "Undo failed: " ++ host.errorMessage⟩, none)
  else (none, slot)

/-- The function `undoLastAction()` on the stored `lastAction`: the returned object (`none` when
the promise rejects) and the slot afterwards. -/
def undoLastAction (host : UndoHost) (slot : Option LastAction) :
    Option UndoResult × Option LastAction :=
  if host.getOk then
    match slot with
    | none => (some ⟨false, "No action to undo"⟩, slot)
    | some (LastAction.groupCreated tabIds groupName _) =>
      match host.queryTabs with
      | none => undoCatch host 0 slot
      | some existingTabIds =>
        let validTabIds := tabIds.filter (fun id => existingTabIds.contains id)
        if validTabIds.length = 0 then
          (if host.setOk 0 then (some ⟨false, "Tabs no longer exist"⟩, none)
           else undoCatch host 1 slot)
        else if host.ungroupOk then
          (if host.setOk 0 then (some ⟨true, "Ungrouped " ++ groupName⟩, none)
           else undoCatch host 1 slot)
        else undoCatch host 0 slot
    | some (LastAction.tabAdded _ _) =>
      if host.tabGetOk && host.ungroupOk then
        (if host.setOk 0 then (some ⟨true, "Tab removed from group"⟩, none)
         else if host.setOk 1 then (some ⟨false, "Tab no longer exists"⟩, none)
         else undoCatch host 2 slot)
      else if host.setOk 0 then (some ⟨false, "Tab no longer exists"⟩, none)
      else undoCatch host 1 slot
  else undoCatch host 0 slot

/-- A host for examples on which the label update of the first seed is rejected after its group
was made; every other call succeeds. -/
def updateFailsOnceHost : HostOutcomes :=
  { okHost with updateOk := fun i => decide (i ≠ 0) }

/-- Every tab that a mutation touched is in `processedIds`, the groups made are pairwise
disjoint, and no assigned tab is in a group made. -/
def CommitInv (st : SweepState) : Prop :=
  (∀ t g, Mutation.assigned t g ∈ st.mutations → t ∈ st.processedIds) ∧
  (∀ ids g, Mutation.grouped ids g ∈ st.mutations → ∀ x ∈ ids, x ∈ st.processedIds) ∧
  st.mutations.Pairwise (fun m1 m2 => ∀ ids1 g1 ids2 g2,
    m1 = Mutation.grouped ids1 g1 → m2 = Mutation.grouped ids2 g2 → ∀ x ∈ ids1, x ∉ ids2) ∧
  (∀ t g ids g2, Mutation.assigned t g ∈ st.mutations →
    Mutation.grouped ids g2 ∈ st.mutations → t ∉ ids)



/-! ## Lemmas: sets and sums -/

theorem mem_foldl_setAdd (l : List String) : ∀ (s : List String) (w : String),
    w ∈ l.foldl setAdd s ↔ w ∈ s ∨ w ∈ l := by
  induction l with
  | nil => intro s w; simp
  | cons a l ih =>
    intro s w
    simp only [List.foldl_cons, ih, List.mem_cons]
    unfold setAdd
    by_cases h : a ∈ s
    · simp only [h, if_true]
      constructor
      · rintro (h1 | h1)
        · exact Or.inl h1
        · exact Or.inr (Or.inr h1)
      · rintro (h1 | h1 | h1)
        · exact Or.inl h1
        · exact Or.inl (h1 ▸ h)
        · exact Or.inr h1
    · simp only [h, if_false, List.mem_append, List.mem_singleton]
      tauto

theorem nodup_foldl_setAdd (l : List String) : ∀ (s : List String),
    s.Nodup → (l.foldl setAdd s).Nodup := by
  induction l with
  | nil => intro s hs; simpa using hs
  | cons a l ih =>
    intro s hs
    simp only [List.foldl_cons]
    apply ih
    unfold setAdd
    by_cases h : a ∈ s
    · simpa [h] using hs
    · simp only [h, if_false]
      rw [List.nodup_append]
      refine ⟨hs, List.nodup_singleton a, ?_⟩
      intro x hx hx2
      simp only [List.mem_singleton] at hx2
      exact h (hx2 ▸ hx)

theorem mem_allWords (v1 v2 : TermVector) (w : String) :
    w ∈ allWords v1 v2 ↔ w ∈ keys v1 ∨ w ∈ keys v2 := by
  unfold allWords
  rw [mem_foldl_setAdd]
  simp

theorem nodup_allWords (v1 v2 : TermVector) : (allWords v1 v2).Nodup :=
  nodup_foldl_setAdd _ _ List.nodup_nil


/-! ## Lemmas: numbers -/

theorem roundToDouble_zero : roundToDouble 0 = JSNum.fin 0 := by
  simp [roundToDouble]

theorem JSNum.add_nan_left (x : JSNum) : JSNum.add JSNum.nan x = JSNum.nan := by
  cases x <;> rfl

theorem JSNum.add_nan_right (x : JSNum) : JSNum.add x JSNum.nan = JSNum.nan := by
  cases x <;> rfl

theorem JSNum.mul_nan_left (x : JSNum) : JSNum.mul JSNum.nan x = JSNum.nan := by
  cases x <;> rfl

theorem JSNum.mul_nan_right (x : JSNum) : JSNum.mul x JSNum.nan = JSNum.nan := by
  cases x <;> rfl

theorem JSNum.div_nan_right (x : JSNum) : JSNum.div x JSNum.nan = JSNum.nan := by
  cases x <;> rfl

theorem JSNum.gt_nan_left (x : JSNum) : JSNum.gt JSNum.nan x = false := by
  cases x <;> rfl

theorem JSNum.gt_nan_right (x : JSNum) : JSNum.gt x JSNum.nan = false := by
  cases x <;> rfl

theorem JSNum.gt_irrefl (x : JSNum) : JSNum.gt x x = false := by
  cases x <;> simp [JSNum.gt]

theorem JSNum.gt_trans (x y z : JSNum) (h1 : x.gt y = true) (h2 : y.gt z = true) :
    x.gt z = true := by
  cases x <;> cases y <;> cases z <;> simp_all [JSNum.gt]
  exact lt_trans h2 h1

/-- A number that is not `NaN` and is not above `y` is below everything that is above `y`. -/
theorem JSNum.gt_of_gt_of_not_gt (x y z : JSNum) (h1 : x.gt y = true) (h2 : z.gt y = false)
    (hz : z ≠ JSNum.nan) : x.gt z = true := by
  cases x <;> cases y <;> cases z <;> simp_all [JSNum.gt]
  exact lt_of_le_of_lt h2 h1

theorem jsMul_comm (x y : JSNum) : x.mul y = y.mul x := by
  cases x <;> cases y <;> simp [JSNum.mul, mul_comm]

theorem JSNum.zero_gt_threshold : JSNum.gt 0 SIMILARITY_THRESHOLD = false := by decide!

theorem JSNum.threshold_gt_zero : SIMILARITY_THRESHOLD.gt 0 = true := by decide!

/-! ## Lemmas: rounding to binary64 -/

theorem pow2_eq_zpow (z : ℤ) : pow2 z = (2 : ℚ) ^ z := by
  unfold pow2
  split_ifs with h
  · have hz : z = (z.toNat : ℤ) := (Int.toNat_of_nonneg h).symm
    conv_rhs => rw [hz]
    rw [zpow_natCast]
    push_cast
    rfl
  · have hz : 0 ≤ -z := by omega
    have hz2 : z = -((-z).toNat : ℤ) := by rw [Int.toNat_of_nonneg hz]; ring
    conv_rhs => rw [hz2]
    rw [zpow_neg, zpow_natCast]
    push_cast
    rw [one_div]

theorem pow2_pos (z : ℤ) : 0 < pow2 z := by
  rw [pow2_eq_zpow]
  positivity

theorem pow2_add (x y : ℤ) : pow2 (x + y) = pow2 x * pow2 y := by
  simp only [pow2_eq_zpow]
  exact zpow_add₀ (by norm_num) x y

theorem pow2_sub (x y : ℤ) : pow2 (x - y) = pow2 x / pow2 y := by
  simp only [pow2_eq_zpow]
  exact zpow_sub₀ (by norm_num) x y

theorem pow2_le_pow2 (x y : ℤ) (h : x ≤ y) : pow2 x ≤ pow2 y := by
  simp only [pow2_eq_zpow]
  exact zpow_le_zpow_right₀ (by norm_num) h

theorem pow2_lt_pow2 (x y : ℤ) (h : x < y) : pow2 x < pow2 y := by
  simp only [pow2_eq_zpow]
  exact zpow_lt_zpow_right₀ (by norm_num) h

theorem pow2_natCast (n : ℕ) : pow2 (n : ℤ) = ((2 ^ n : ℕ) : ℚ) := by
  rw [pow2_eq_zpow, zpow_natCast]
  push_cast
  rfl

theorem log2Go_spec (n : ℕ) : ∀ (k e : ℕ), 2 ^ e ≤ n → n < 2 ^ (e + 2 ^ k) →
    2 ^ log2Go n k e ≤ n ∧ n < 2 ^ (log2Go n k e + 1) := by
  intro k
  induction k with
  | zero =>
    intro e h1 h2
    simpa [log2Go] using ⟨h1, h2⟩
  | succ k ih =>
    intro e h1 h2
    unfold log2Go
    split_ifs with h
    · apply ih _ h
      have : e + 2 ^ k + 2 ^ k = e + 2 ^ (k + 1) := by rw [pow_succ]; ring
      rw [this]
      exact h2
    · exact ih _ h1 (not_le.mp h)

theorem bitLog2_spec (n : ℕ) (hn : n ≠ 0) : 2 ^ bitLog2 n ≤ n ∧ n < 2 ^ (bitLog2 n + 1) := by
  unfold bitLog2
  split_ifs with h
  · apply log2Go_spec
    · rw [pow_zero]
      exact Nat.pos_of_ne_zero hn
    · rw [Nat.zero_add]
      exact h
  · exact ⟨Nat.log2_self_le hn, Nat.lt_log2_self⟩

theorem floorLog2_spec (a : ℚ) (ha : 0 < a) :
    pow2 (floorLog2 a) ≤ a ∧ a < pow2 (floorLog2 a + 1) := by
  have hnum : 0 < a.num := Rat.num_pos.mpr ha
  have hnat : ((a.num.natAbs : ℕ) : ℚ) = (a.num : ℚ) := by
    have : ((a.num.natAbs : ℕ) : ℤ) = a.num := Int.natAbs_of_nonneg hnum.le
    rw [← Int.cast_natCast, this]
  have hn0 : a.num.natAbs ≠ 0 := by
    intro h0
    have := Int.natAbs_eq_zero.mp h0
    omega
  obtain ⟨hx1, hx2⟩ := bitLog2_spec a.num.natAbs hn0
  obtain ⟨hy1, hy2⟩ := bitLog2_spec a.den a.den_nz
  have hden : (0 : ℚ) < (a.den : ℚ) := by exact_mod_cast a.den_pos
  have ha_eq : a = (a.num.natAbs : ℚ) / (a.den : ℚ) := by
    rw [hnat]
    exact (Rat.num_div_den a).symm
  have hx1q : pow2 (bitLog2 a.num.natAbs : ℤ) ≤ (a.num.natAbs : ℚ) := by
    rw [pow2_natCast]; exact_mod_cast hx1
  have hx2q : (a.num.natAbs : ℚ) < pow2 ((bitLog2 a.num.natAbs : ℤ) + 1) := by
    have : ((bitLog2 a.num.natAbs : ℤ) + 1) = ((bitLog2 a.num.natAbs + 1 : ℕ) : ℤ) := by
      push_cast; ring
    rw [this, pow2_natCast]; exact_mod_cast hx2
  have hy1q : pow2 (bitLog2 a.den : ℤ) ≤ (a.den : ℚ) := by
    rw [pow2_natCast]; exact_mod_cast hy1
  have hy2q : (a.den : ℚ) < pow2 ((bitLog2 a.den : ℤ) + 1) := by
    have : ((bitLog2 a.den : ℤ) + 1) = ((bitLog2 a.den + 1 : ℕ) : ℤ) := by
      push_cast; ring
    rw [this, pow2_natCast]; exact_mod_cast hy2
  unfold floorLog2
  simp only
  split_ifs with h
  · refine ⟨h, ?_⟩
    have e1 : (bitLog2 a.num.natAbs : ℤ) - (bitLog2 a.den : ℤ) + 1 =
        ((bitLog2 a.num.natAbs : ℤ) + 1) - (bitLog2 a.den : ℤ) := by ring
    rw [e1, pow2_sub]
    conv_lhs => rw [ha_eq]
    have hp := pow2_pos (bitLog2 a.den : ℤ)
    calc (a.num.natAbs : ℚ) / (a.den : ℚ)
        ≤ (a.num.natAbs : ℚ) / pow2 (bitLog2 a.den : ℤ) :=
          div_le_div_of_nonneg_left (by positivity) hp hy1q
      _ < pow2 ((bitLog2 a.num.natAbs : ℤ) + 1) / pow2 (bitLog2 a.den : ℤ) :=
          div_lt_div_of_pos_right hx2q hp
  · refine ⟨?_, ?_⟩
    · have e1 : (bitLog2 a.num.natAbs : ℤ) - (bitLog2 a.den : ℤ) - 1 =
          (bitLog2 a.num.natAbs : ℤ) - ((bitLog2 a.den : ℤ) + 1) := by ring
      rw [e1, pow2_sub]
      conv_rhs => rw [ha_eq]
      have hp := pow2_pos ((bitLog2 a.den : ℤ) + 1)
      calc pow2 (bitLog2 a.num.natAbs : ℤ) / pow2 ((bitLog2 a.den : ℤ) + 1)
          ≤ (a.num.natAbs : ℚ) / pow2 ((bitLog2 a.den : ℤ) + 1) :=
            div_le_div_of_nonneg_right hx1q hp.le
        _ ≤ (a.num.natAbs : ℚ) / (a.den : ℚ) :=
            div_le_div_of_nonneg_left (by positivity) hden hy2q.le
    · have e1 : (bitLog2 a.num.natAbs : ℤ) - (bitLog2 a.den : ℤ) - 1 + 1 =
          (bitLog2 a.num.natAbs : ℤ) - (bitLog2 a.den : ℤ) := by ring
      rw [e1]
      exact not_le.mp h

/-- The distance from `t ≥ 0` to its rounding is at most one half. -/
theorem roundHalfEven_spec (t : ℚ) (ht : 0 ≤ t) :
    (roundHalfEven t : ℚ) - 1 / 2 ≤ t ∧ t ≤ (roundHalfEven t : ℚ) + 1 / 2 := by
  have hnum : 0 ≤ t.num := Rat.num_nonneg.mpr ht
  have hnat : ((t.num.natAbs : ℕ) : ℚ) = (t.num : ℚ) := by
    have : ((t.num.natAbs : ℕ) : ℤ) = t.num := Int.natAbs_of_nonneg hnum
    rw [← Int.cast_natCast, this]
  have hden : (0 : ℚ) < (t.den : ℚ) := by exact_mod_cast t.den_pos
  have ht_eq : t = (t.num.natAbs : ℚ) / (t.den : ℚ) := by
    rw [hnat]
    exact (Rat.num_div_den t).symm
  have hdm : t.den * (t.num.natAbs / t.den) + t.num.natAbs % t.den = t.num.natAbs :=
    Nat.div_add_mod _ _
  have hr : t.num.natAbs % t.den < t.den := Nat.mod_lt _ t.den_pos
  have hdmq : (t.den : ℚ) * ((t.num.natAbs / t.den : ℕ) : ℚ) + ((t.num.natAbs % t.den : ℕ) : ℚ) =
      (t.num.natAbs : ℚ) := by exact_mod_cast hdm
  have ht2 : t * (t.den : ℚ) = (t.num.natAbs : ℚ) := by
    rw [hnat]
    exact Rat.mul_den_eq_num t
  have key : ∀ m : ℚ, (m - 1 / 2 ≤ t ↔ (m - 1 / 2) * (t.den : ℚ) ≤ (t.num.natAbs : ℚ)) ∧
      (t ≤ m + 1 / 2 ↔ (t.num.natAbs : ℚ) ≤ (m + 1 / 2) * (t.den : ℚ)) := by
    intro m
    rw [← ht2]
    constructor
    · exact (mul_le_mul_right hden).symm
    · exact (mul_le_mul_right hden).symm
  unfold roundHalfEven
  simp only
  have hrq : ((t.num.natAbs % t.den : ℕ) : ℚ) < (t.den : ℚ) := by exact_mod_cast hr
  have hr0 : (0 : ℚ) ≤ ((t.num.natAbs % t.den : ℕ) : ℚ) := by positivity
  split_ifs with h1 h2 h3
  · have h1q : (2 : ℚ) * ((t.num.natAbs % t.den : ℕ) : ℚ) < (t.den : ℚ) := by exact_mod_cast h1
    rw [(key _).1, (key _).2]
    constructor <;> nlinarith
  · have h2q : (t.den : ℚ) < 2 * ((t.num.natAbs % t.den : ℕ) : ℚ) := by exact_mod_cast h2
    rw [(key _).1, (key _).2]
    push_cast
    constructor <;> nlinarith
  · have h1q : (t.den : ℚ) ≤ (2 : ℚ) * ((t.num.natAbs % t.den : ℕ) : ℚ) := by
      exact_mod_cast not_lt.mp h1
    have h2q : 2 * ((t.num.natAbs % t.den : ℕ) : ℚ) ≤ (t.den : ℚ) := by
      exact_mod_cast not_lt.mp h2
    rw [(key _).1, (key _).2]
    constructor <;> nlinarith
  · have h1q : (t.den : ℚ) ≤ (2 : ℚ) * ((t.num.natAbs % t.den : ℕ) : ℚ) := by
      exact_mod_cast not_lt.mp h1
    have h2q : 2 * ((t.num.natAbs % t.den : ℕ) : ℚ) ≤ (t.den : ℚ) := by
      exact_mod_cast not_lt.mp h2
    rw [(key _).1, (key _).2]
    push_cast
    constructor <;> nlinarith

/-! ## Lemmas: the sign of a rounded difference -/

theorem roundPos_nonneg (a r : ℚ) (h : roundPos a = some r) : 0 ≤ r := by
  unfold roundPos at h
  simp only at h
  split_ifs at h
  rw [← Option.some.inj h]
  exact mul_nonneg (Nat.cast_nonneg _) (pow2_pos _).le

theorem roundHalfEven_pos (t : ℚ) (ht : 1 ≤ t) : 1 ≤ roundHalfEven t := by
  have h := (roundHalfEven_spec t (by linarith)).2
  have : (0 : ℚ) < (roundHalfEven t : ℚ) := by linarith
  exact_mod_cast this

/-- A positive number that is at least the smallest positive binary64 value does not round to
zero. -/
theorem roundPos_pos (a r : ℚ) (ha : pow2 (-1074) ≤ a) (h : roundPos a = some r) : 0 < r := by
  have ha0 : 0 < a := lt_of_lt_of_le (pow2_pos _) ha
  unfold roundPos at h
  simp only at h
  split_ifs at h
  rw [← Option.some.inj h]
  apply mul_pos _ (pow2_pos _)
  have hu := pow2_pos (max (floorLog2 a) (-1022) - 52)
  have ht : 1 ≤ a / pow2 (max (floorLog2 a) (-1022) - 52) := by
    rw [le_div_iff₀ hu, one_mul]
    rcases le_total (floorLog2 a) (-1022) with hle | hle
    · rw [max_eq_right hle]
      exact ha
    · rw [max_eq_left hle]
      exact le_trans (pow2_le_pow2 _ _ (by omega)) (floorLog2_spec a ha0).1
  have := roundHalfEven_pos _ ht
  exact_mod_cast this

theorem roundPos_onGrid (a r : ℚ) (h : roundPos a = some r) : onGrid r := by
  unfold roundPos at h
  simp only at h
  split_ifs at h
  rw [← Option.some.inj h]
  have he : -1022 ≤ max (floorLog2 a) (-1022) := le_max_right _ _
  have e1 : max (floorLog2 a) (-1022) - 52 = (max (floorLog2 a) (-1022) + 1022) + (-1074) := by
    ring
  have e2 : pow2 (max (floorLog2 a) (-1022) + 1022) =
      ((2 ^ (max (floorLog2 a) (-1022) + 1022).toNat : ℕ) : ℚ) := by
    unfold pow2
    rw [if_pos (by omega)]
  refine ⟨(roundHalfEven (a / pow2 (max (floorLog2 a) (-1022) - 52)) : ℤ) *
    ((2 ^ (max (floorLog2 a) (-1022) + 1022).toNat : ℕ) : ℤ), ?_⟩
  rw [e1, pow2_add, e2]
  push_cast
  ring

theorem roundToDouble_onGrid (q r : ℚ) (h : roundToDouble q = JSNum.fin r) : onGrid r := by
  unfold roundToDouble at h
  split_ifs at h with h0 hpos
  · rw [← JSNum.fin.inj h]
    exact ⟨0, by simp⟩
  · cases hr : roundPos q with
    | none => rw [hr] at h; cases h
    | some x =>
      rw [hr] at h
      rw [← JSNum.fin.inj h]
      exact roundPos_onGrid q x hr
  · cases hr : roundPos (-q) with
    | none => rw [hr] at h; cases h
    | some x =>
      rw [hr] at h
      rw [← JSNum.fin.inj h]
      obtain ⟨z, hz⟩ := roundPos_onGrid (-q) x hr
      exact ⟨-z, by rw [hz]; push_cast; ring⟩

theorem roundToDouble_ne_nan (q : ℚ) : roundToDouble q ≠ JSNum.nan := by
  unfold roundToDouble
  split_ifs
  · simp
  · cases roundPos q <;> simp
  · cases roundPos (-q) <;> simp

theorem roundToDouble_gt_zero_of_ge (a : ℚ) (ha : pow2 (-1074) ≤ a) :
    (roundToDouble a).gt 0 = true := by
  have ha0 : 0 < a := lt_of_lt_of_le (pow2_pos _) ha
  unfold roundToDouble
  rw [if_neg (ne_of_gt ha0), if_pos ha0]
  cases hr : roundPos a with
  | none => rfl
  | some r =>
    have := roundPos_pos a r ha hr
    show JSNum.gt (JSNum.fin r) (JSNum.fin ((0 : ℕ) : ℚ)) = true
    simpa [JSNum.gt] using this

theorem roundToDouble_not_gt_zero_of_nonpos (a : ℚ) (ha : a ≤ 0) :
    (roundToDouble a).gt 0 = false := by
  unfold roundToDouble
  split_ifs with h0 hpos
  · show JSNum.gt (JSNum.fin 0) (JSNum.fin ((0 : ℕ) : ℚ)) = false
    simp [JSNum.gt]
  · exact absurd hpos (not_lt.mpr ha)
  · cases hr : roundPos (-a) with
    | none => rfl
    | some r =>
      have := roundPos_nonneg (-a) r hr
      show JSNum.gt (JSNum.fin (-r)) (JSNum.fin ((0 : ℕ) : ℚ)) = false
      simpa [JSNum.gt] using this

theorem grid_sub_ge (x y : ℚ) (hx : onGrid x) (hy : onGrid y) (h : y < x) :
    pow2 (-1074) ≤ x - y := by
  obtain ⟨zx, rfl⟩ := hx
  obtain ⟨zy, rfl⟩ := hy
  have hp := pow2_pos (-1074)
  have hz : zy < zx := by
    by_contra hcon
    have : (zx : ℚ) ≤ (zy : ℚ) := by exact_mod_cast not_lt.mp hcon
    nlinarith
  have hz1 : (zy : ℚ) + 1 ≤ (zx : ℚ) := by exact_mod_cast hz
  nlinarith

/-- A rounded result is not `NaN`, and when finite it is an integer multiple of
`2 ^ (-1074)`. -/
theorem isDouble_roundToDouble (q : ℚ) : isDouble (roundToDouble q) := by
  cases h : roundToDouble q with
  | nan => exact absurd h (roundToDouble_ne_nan q)
  | posInf => trivial
  | negInf => trivial
  | fin r => exact roundToDouble_onGrid q r h

/-- For two binary64 values other than `NaN`, the difference `x - y` is positive exactly when
`x > y`: a difference of two distinct values does not round to zero. -/
theorem sub_gt_zero_iff (x y : JSNum) (hx : isDouble x) (hy : isDouble y) :
    (x.sub y).gt 0 = x.gt y := by
  cases x with
  | nan => exact absurd hx id
  | posInf => cases y <;> first | exact absurd hy id | rfl
  | negInf => cases y <;> first | exact absurd hy id | rfl
  | fin a =>
    cases y with
    | nan => exact absurd hy id
    | posInf => rfl
    | negInf => rfl
    | fin b =>
      show (roundToDouble (a + -b)).gt 0 = decide (b < a)
      by_cases hlt : b < a
      · rw [decide_eq_true hlt]
        apply roundToDouble_gt_zero_of_ge
        have := grid_sub_ge a b hx hy hlt
        linarith
      · rw [decide_eq_false hlt]
        apply roundToDouble_not_gt_zero_of_nonpos
        linarith [not_lt.mp hlt]

/-! ## Lemmas: the rounding error of one operation -/

/-- A result in the normal range is rounded with a relative error of at most `2 ^ (-53)`. -/
theorem roundToDouble_error (a : ℚ) (hlo : pow2 (-1022) ≤ a) (hhi : a < pow2 1023) :
    ∃ r, roundToDouble a = JSNum.fin r ∧
      a * (1 - 1 / 2 ^ 53) ≤ r ∧ r ≤ a * (1 + 1 / 2 ^ 53) := by
  have ha0 : 0 < a := lt_of_lt_of_le (pow2_pos _) hlo
  obtain ⟨he1, he2⟩ := floorLog2_spec a ha0
  have he : -1022 ≤ floorLog2 a := by
    by_contra hcon
    have h1 : floorLog2 a + 1 ≤ -1022 := by omega
    have := pow2_le_pow2 _ _ h1
    linarith
  have hu := pow2_pos (floorLog2 a - 52)
  have hsplit : pow2 (floorLog2 a) = pow2 (floorLog2 a - 52) * 2 ^ 52 := by
    have : floorLog2 a = (floorLog2 a - 52) + 52 := by ring
    conv_lhs => rw [this]
    rw [pow2_add]
    congr 1
  have ht0 : 0 ≤ a / pow2 (floorLog2 a - 52) := div_nonneg ha0.le hu.le
  obtain ⟨hr1, hr2⟩ := roundHalfEven_spec _ ht0
  rw [le_div_iff₀ hu] at hr1
  rw [div_le_iff₀ hu] at hr2
  have h1024 : pow2 1024 = pow2 1023 * 2 := by
    have : (1024 : ℤ) = 1023 + 1 := by norm_num
    rw [this, pow2_add]
    congr 1
  have hN : a * (1 - 1 / 2 ^ 53) ≤
      (roundHalfEven (a / pow2 (floorLog2 a - 52)) : ℚ) * pow2 (floorLog2 a - 52) ∧
      (roundHalfEven (a / pow2 (floorLog2 a - 52)) : ℚ) * pow2 (floorLog2 a - 52) ≤
        a * (1 + 1 / 2 ^ 53) := by
    constructor <;> nlinarith
  refine ⟨(roundHalfEven (a / pow2 (floorLog2 a - 52)) : ℚ) * pow2 (floorLog2 a - 52),
    ?_, hN.1, hN.2⟩
  unfold roundToDouble
  rw [if_neg (ne_of_gt ha0), if_pos ha0]
  have hrp : roundPos a =
      some ((roundHalfEven (a / pow2 (floorLog2 a - 52)) : ℚ) * pow2 (floorLog2 a - 52)) := by
    unfold roundPos
    simp only [max_eq_left he]
    rw [if_neg]
    rw [not_le, h1024]
    have : a * (1 + 1 / 2 ^ 53) < pow2 1023 * 2 := by nlinarith
    linarith [hN.2]
  rw [hrp]

theorem isqrt_go_spec (n : ℕ) : ∀ (B r : ℕ), r * r ≤ n → n < (r + 2 ^ B) * (r + 2 ^ B) →
    ((List.range B).reverse.foldl
        (fun r b => if (r + 2 ^ b) * (r + 2 ^ b) ≤ n then r + 2 ^ b else r) r) *
      ((List.range B).reverse.foldl
        (fun r b => if (r + 2 ^ b) * (r + 2 ^ b) ≤ n then r + 2 ^ b else r) r) ≤ n ∧
    n < ((List.range B).reverse.foldl
        (fun r b => if (r + 2 ^ b) * (r + 2 ^ b) ≤ n then r + 2 ^ b else r) r + 1) *
      ((List.range B).reverse.foldl
        (fun r b => if (r + 2 ^ b) * (r + 2 ^ b) ≤ n then r + 2 ^ b else r) r + 1) := by
  intro B
  induction B with
  | zero =>
    intro r h1 h2
    simpa using ⟨h1, h2⟩
  | succ B ih =>
    intro r h1 h2
    rw [List.range_succ, List.reverse_append, List.reverse_singleton, List.singleton_append,
      List.foldl_cons]
    split_ifs with h
    · apply ih _ h
      have : r + 2 ^ B + 2 ^ B = r + 2 ^ (B + 1) := by rw [pow_succ]; ring
      rw [this]
      exact h2
    · exact ih _ h1 (not_le.mp h)

theorem isqrt_spec (n : ℕ) : isqrt n * isqrt n ≤ n ∧ n < (isqrt n + 1) * (isqrt n + 1) := by
  unfold isqrt
  apply isqrt_go_spec
  · simp
  · rw [Nat.zero_add, ← pow_add]
    have h1 : n < 2 ^ (bitLog2 n + 1) := by
      by_cases hn : n = 0
      · rw [hn]; positivity
      · exact (bitLog2_spec n hn).2
    refine lt_of_lt_of_le h1 (Nat.pow_le_pow_right (by norm_num) ?_)
    omega

theorem sq_le_of_half_below (m t : ℚ) (hm : 2 ^ 52 ≤ m) (h1 : (m - 1 / 2) * (m - 1 / 2) ≤ t) :
    m * m ≤ t * (1 + 1 / 2 ^ 51) := by
  have h2 : m * m ≤ (m - 1 / 2) * (m - 1 / 2) * (1 + 1 / 2 ^ 51) := by
    nlinarith [mul_nonneg (sub_nonneg.mpr hm) (by linarith : (0 : ℚ) ≤ m)]
  have h3 : (m - 1 / 2) * (m - 1 / 2) * (1 + 1 / 2 ^ 51) ≤ t * (1 + 1 / 2 ^ 51) :=
    mul_le_mul_of_nonneg_right h1 (by norm_num)
  linarith

theorem sq_ge_of_half_above (m t : ℚ) (hm : 2 ^ 52 ≤ m) (h1 : t ≤ (m + 1 / 2) * (m + 1 / 2)) :
    t * (1 - 1 / 2 ^ 51) ≤ m * m := by
  have h2 : (m + 1 / 2) * (m + 1 / 2) * (1 - 1 / 2 ^ 51) ≤ m * m := by
    nlinarith [mul_nonneg (sub_nonneg.mpr hm) (by linarith : (0 : ℚ) ≤ m)]
  have h3 : t * (1 - 1 / 2 ^ 51) ≤ (m + 1 / 2) * (m + 1 / 2) * (1 - 1 / 2 ^ 51) :=
    mul_le_mul_of_nonneg_right h1 (by norm_num)
  linarith

/-! ## Lemmas: the error of the square root -/

theorem natFloor_spec (t : ℚ) (ht : 0 ≤ t) :
    ((t.num.natAbs / t.den : ℕ) : ℚ) ≤ t ∧ t < ((t.num.natAbs / t.den : ℕ) : ℚ) + 1 := by
  have hnum : 0 ≤ t.num := Rat.num_nonneg.mpr ht
  have hnat : ((t.num.natAbs : ℕ) : ℚ) = (t.num : ℚ) := by
    have : ((t.num.natAbs : ℕ) : ℤ) = t.num := Int.natAbs_of_nonneg hnum
    rw [← Int.cast_natCast, this]
  have hden : (0 : ℚ) < (t.den : ℚ) := by exact_mod_cast t.den_pos
  have hdm : t.den * (t.num.natAbs / t.den) + t.num.natAbs % t.den = t.num.natAbs :=
    Nat.div_add_mod _ _
  have hr : t.num.natAbs % t.den < t.den := Nat.mod_lt _ t.den_pos
  have hdmq : (t.den : ℚ) * ((t.num.natAbs / t.den : ℕ) : ℚ) + ((t.num.natAbs % t.den : ℕ) : ℚ) =
      (t.num.natAbs : ℚ) := by exact_mod_cast hdm
  have ht2 : t * (t.den : ℚ) = (t.num.natAbs : ℚ) := by
    rw [hnat]
    exact Rat.mul_den_eq_num t
  have hrq : ((t.num.natAbs % t.den : ℕ) : ℚ) < (t.den : ℚ) := by exact_mod_cast hr
  have hr0 : (0 : ℚ) ≤ ((t.num.natAbs % t.den : ℕ) : ℚ) := by positivity
  constructor
  · rw [← mul_le_mul_right hden, ht2]
    nlinarith
  · rw [← mul_lt_mul_right hden, ht2]
    nlinarith

theorem sqrt_core (q u t : ℚ) (m : ℕ) (hu : 0 < u) (ht : t = q / (u * u))
    (hm : (2 : ℚ) ^ 52 ≤ (m : ℚ))
    (h1 : ((m : ℚ) - 1 / 2) * ((m : ℚ) - 1 / 2) ≤ t)
    (h2 : t ≤ ((m : ℚ) + 1 / 2) * ((m : ℚ) + 1 / 2)) :
    0 < (m : ℚ) * u ∧ q * (1 - 1 / 2 ^ 51) ≤ (m : ℚ) * u * ((m : ℚ) * u) ∧
      (m : ℚ) * u * ((m : ℚ) * u) ≤ q * (1 + 1 / 2 ^ 51) := by
  have huu : 0 < u * u := mul_pos hu hu
  have hq : q = t * (u * u) := by
    rw [ht]
    field_simp
  have hm0 : (0 : ℚ) < (m : ℚ) := lt_of_lt_of_le (by norm_num) hm
  have e1 : (m : ℚ) * u * ((m : ℚ) * u) = (m : ℚ) * (m : ℚ) * (u * u) := by ring
  refine ⟨mul_pos hm0 hu, ?_, ?_⟩
  · rw [e1, hq]
    have := sq_ge_of_half_above (m : ℚ) t hm h2
    calc t * (u * u) * (1 - 1 / 2 ^ 51) = t * (1 - 1 / 2 ^ 51) * (u * u) := by ring
      _ ≤ (m : ℚ) * (m : ℚ) * (u * u) := mul_le_mul_of_nonneg_right this huu.le
  · rw [e1, hq]
    have := sq_le_of_half_below (m : ℚ) t hm h1
    calc (m : ℚ) * (m : ℚ) * (u * u) ≤ t * (1 + 1 / 2 ^ 51) * (u * u) :=
          mul_le_mul_of_nonneg_right this huu.le
      _ = t * (u * u) * (1 + 1 / 2 ^ 51) := by ring

theorem half_below (m t : ℚ) (hm : 1 ≤ m) (h : m * m ≤ t) :
    (m - 1 / 2) * (m - 1 / 2) ≤ t := by
  nlinarith

theorem half_above (m t : ℚ) (hm : 0 ≤ m) (h : t < (m + 1) * (m + 1)) :
    t ≤ (m + 1 + 1 / 2) * (m + 1 + 1 / 2) := by
  nlinarith

theorem pow2_104 : pow2 104 = 2 ^ 104 := by
  rw [pow2_eq_zpow]
  norm_num

theorem pow2_106 : pow2 106 = 2 ^ 106 := by
  rw [pow2_eq_zpow]
  norm_num

/-- The computed square root of `q > 0` is positive and its square is within a relative
`2 ^ (-51)` of `q`. -/
theorem sqrtPos_spec (q : ℚ) (hq : 0 < q) :
    0 < sqrtPos q ∧ q * (1 - 1 / 2 ^ 51) ≤ sqrtPos q * sqrtPos q ∧
      sqrtPos q * sqrtPos q ≤ q * (1 + 1 / 2 ^ 51) := by
  obtain ⟨he1, he2⟩ := floorLog2_spec q hq
  have hk : 2 * (floorLog2 q / 2) ≤ floorLog2 q ∧ floorLog2 q + 1 ≤ 2 * (floorLog2 q / 2) + 2 := by
    omega
  have hu := pow2_pos (floorLog2 q / 2 - 52)
  have huu : pow2 (floorLog2 q / 2 - 52) * pow2 (floorLog2 q / 2 - 52) =
      pow2 (2 * (floorLog2 q / 2) - 104) := by
    rw [← pow2_add]
    congr 1
    ring
  have huupos : 0 < pow2 (floorLog2 q / 2 - 52) * pow2 (floorLog2 q / 2 - 52) := mul_pos hu hu
  have hlo : pow2 (2 * (floorLog2 q / 2)) =
      pow2 (2 * (floorLog2 q / 2) - 104) * 2 ^ 104 := by
    have : 2 * (floorLog2 q / 2) = (2 * (floorLog2 q / 2) - 104) + 104 := by ring
    conv_lhs => rw [this]
    rw [pow2_add, pow2_104]
  have hhi : pow2 (2 * (floorLog2 q / 2) + 2) =
      pow2 (2 * (floorLog2 q / 2) - 104) * 2 ^ 106 := by
    have : 2 * (floorLog2 q / 2) + 2 = (2 * (floorLog2 q / 2) - 104) + 106 := by ring
    conv_lhs => rw [this]
    rw [pow2_add, pow2_106]
  have ht_lo : (2 : ℚ) ^ 104 ≤
      q / (pow2 (floorLog2 q / 2 - 52) * pow2 (floorLog2 q / 2 - 52)) := by
    rw [le_div_iff₀ huupos, huu, mul_comm, ← hlo]
    exact le_trans (pow2_le_pow2 _ _ hk.1) he1
  have ht0 : 0 ≤ q / (pow2 (floorLog2 q / 2 - 52) * pow2 (floorLog2 q / 2 - 52)) :=
    le_trans (by norm_num) ht_lo
  obtain ⟨hf1, hf2⟩ := natFloor_spec _ ht0
  obtain ⟨hs1, hs2⟩ := isqrt_spec
    ((q / (pow2 (floorLog2 q / 2 - 52) * pow2 (floorLog2 q / 2 - 52))).num.natAbs /
      (q / (pow2 (floorLog2 q / 2 - 52) * pow2 (floorLog2 q / 2 - 52))).den)
  generalize hn : (q / (pow2 (floorLog2 q / 2 - 52) * pow2 (floorLog2 q / 2 - 52))).num.natAbs /
      (q / (pow2 (floorLog2 q / 2 - 52) * pow2 (floorLog2 q / 2 - 52))).den = n at hf1 hf2 hs1 hs2
  have hn104 : 2 ^ 104 ≤ n := by
    have : ((2 ^ 104 : ℕ) : ℚ) < ((n + 1 : ℕ) : ℚ) := by
      push_cast
      linarith
    have := Nat.cast_lt.mp this
    omega
  have hm0 : 2 ^ 52 ≤ isqrt n := by
    by_contra hcon
    have h1 : isqrt n + 1 ≤ 2 ^ 52 := by omega
    have h2 : (isqrt n + 1) * (isqrt n + 1) ≤ 2 ^ 52 * 2 ^ 52 := Nat.mul_le_mul h1 h1
    have h3 : (2 : ℕ) ^ 52 * 2 ^ 52 = 2 ^ 104 := by norm_num
    omega
  have hm0q : (2 : ℚ) ^ 52 ≤ (isqrt n : ℚ) := by exact_mod_cast hm0
  have hs1q : (isqrt n : ℚ) * (isqrt n : ℚ) ≤
      q / (pow2 (floorLog2 q / 2 - 52) * pow2 (floorLog2 q / 2 - 52)) := by
    have : ((isqrt n * isqrt n : ℕ) : ℚ) ≤ (n : ℚ) := Nat.cast_le.mpr hs1
    push_cast at this
    linarith
  have hs2q : q / (pow2 (floorLog2 q / 2 - 52) * pow2 (floorLog2 q / 2 - 52)) <
      ((isqrt n : ℚ) + 1) * ((isqrt n : ℚ) + 1) := by
    have : ((n + 1 : ℕ) : ℚ) ≤ (((isqrt n + 1) * (isqrt n + 1) : ℕ) : ℚ) :=
      Nat.cast_le.mpr hs2
    push_cast at this
    linarith
  have hm1 : (1 : ℚ) ≤ (isqrt n : ℚ) := le_trans (by norm_num) hm0q
  have hb := half_below _ _ hm1 hs1q
  have ha := half_above _ _ (le_trans (by norm_num) hm1) hs2q
  unfold sqrtPos
  simp only [hn]
  split_ifs with h1 h2 h3
  · exact sqrt_core q _ _ (isqrt n) hu rfl hm0q hb h1.le
  · refine sqrt_core q _ _ (isqrt n + 1) hu rfl ?_ ?_ ?_
    · push_cast; linarith
    · push_cast
      have : ((isqrt n : ℚ) + 1 - 1 / 2) = (isqrt n : ℚ) + 1 / 2 := by ring
      rw [this]
      exact h2.le
    · push_cast
      exact ha
  · exact sqrt_core q _ _ (isqrt n) hu rfl hm0q hb (not_lt.mp h2)
  · refine sqrt_core q _ _ (isqrt n + 1) hu rfl ?_ ?_ ?_
    · push_cast; linarith
    · push_cast
      have : ((isqrt n : ℚ) + 1 - 1 / 2) = (isqrt n : ℚ) + 1 / 2 := by ring
      rw [this]
      exact not_lt.mp h1
    · push_cast
      exact ha

/-! ## Lemmas: the quotient of a number by the square of its square root -/

theorem pow2_neg1022_le_half : pow2 (-1022) ≤ 1 / 2 := by
  have h := pow2_le_pow2 (-1022) (-1) (by norm_num)
  have h1 : pow2 (-1) = 1 / 2 := by
    rw [pow2_eq_zpow]
    norm_num
  rw [h1] at h
  exact h

theorem two_lt_pow2_1023 : 2 < pow2 1023 := by
  have h := pow2_lt_pow2 1 1023 (by norm_num)
  have h1 : pow2 1 = 2 := by
    rw [pow2_eq_zpow]
    norm_num
  rw [h1] at h
  exact h

theorem pow2_neg1022_le (q : ℚ) (h : pow2 (-1000) ≤ q) : pow2 (-1022) ≤ q / 2 := by
  have h1 := pow2_le_pow2 (-1021) (-1000) (by norm_num)
  have h2 : pow2 (-1021) = pow2 (-1022) * 2 := by
    have : (-1021 : ℤ) = -1022 + 1 := by norm_num
    rw [this, pow2_add]
    congr 1
  linarith

theorem lt_pow2_1023 (q : ℚ) (h : q ≤ pow2 1000) : q * 2 < pow2 1023 := by
  have h1 := pow2_lt_pow2 1001 1023 (by norm_num)
  have h2 : pow2 1001 = pow2 1000 * 2 := by
    have : (1001 : ℤ) = 1000 + 1 := by norm_num
    rw [this, pow2_add]
    congr 1
  linarith

/-- For a finite `q` between `2 ^ (-1000)` and `2 ^ 1000`, the computed
`q / (Math.sqrt(q) * Math.sqrt(q))` is a finite number within `2 ^ (-50)` of 1, and the
computed divisor is not zero. -/
theorem self_quotient_bound (q : ℚ) (hlo : pow2 (-1000) ≤ q) (hhi : q ≤ pow2 1000) :
    ((JSNum.fin q).sqrt.mul (JSNum.fin q).sqrt).isZero = false ∧
    ∃ r, (JSNum.fin q).div ((JSNum.fin q).sqrt.mul (JSNum.fin q).sqrt) = JSNum.fin r ∧
      1 - 1 / 2 ^ 50 ≤ r ∧ r ≤ 1 + 1 / 2 ^ 50 := by
  have hq : 0 < q := lt_of_lt_of_le (pow2_pos _) hlo
  obtain ⟨hs0, hs1, hs2⟩ := sqrtPos_spec q hq
  have hsqrt : (JSNum.fin q).sqrt = JSNum.fin (sqrtPos q) := by
    show (if q < 0 then JSNum.nan else if q = 0 then JSNum.fin 0 else JSNum.fin (sqrtPos q)) =
      JSNum.fin (sqrtPos q)
    rw [if_neg (not_lt.mpr hq.le), if_neg (ne_of_gt hq)]
  have hlo2 := pow2_neg1022_le q hlo
  have hhi2 := lt_pow2_1023 q hhi
  have hss_lo : pow2 (-1022) ≤ sqrtPos q * sqrtPos q := by nlinarith
  have hss_hi : sqrtPos q * sqrtPos q < pow2 1023 := by nlinarith
  obtain ⟨d, hd, hd1, hd2⟩ := roundToDouble_error _ hss_lo hss_hi
  have hmul : (JSNum.fin q).sqrt.mul (JSNum.fin q).sqrt = JSNum.fin d := by
    rw [hsqrt]
    exact hd
  have hdA : q * ((1 - 1 / 2 ^ 51) * (1 - 1 / 2 ^ 53)) ≤ d := by
    have : q * (1 - 1 / 2 ^ 51) * (1 - 1 / 2 ^ 53) ≤ sqrtPos q * sqrtPos q * (1 - 1 / 2 ^ 53) :=
      mul_le_mul_of_nonneg_right hs1 (by norm_num)
    linarith
  have hdB : d ≤ q * ((1 + 1 / 2 ^ 51) * (1 + 1 / 2 ^ 53)) := by
    have : sqrtPos q * sqrtPos q * (1 + 1 / 2 ^ 53) ≤ q * (1 + 1 / 2 ^ 51) * (1 + 1 / 2 ^ 53) :=
      mul_le_mul_of_nonneg_right hs2 (by norm_num)
    linarith
  have hd0 : 0 < d := by
    have : 0 < q * ((1 - 1 / 2 ^ 51) * (1 - 1 / 2 ^ 53)) := mul_pos hq (by norm_num)
    linarith
  have hxA : q / d * ((1 - 1 / 2 ^ 51) * (1 - 1 / 2 ^ 53)) ≤ 1 := by
    rw [div_mul_eq_mul_div, div_le_one hd0]
    exact hdA
  have hxB : 1 ≤ q / d * ((1 + 1 / 2 ^ 51) * (1 + 1 / 2 ^ 53)) := by
    rw [div_mul_eq_mul_div, one_le_div hd0]
    exact hdB
  have hx0 : 0 < q / d := div_pos hq hd0
  have hx_lo : pow2 (-1022) ≤ q / d := by
    have := pow2_neg1022_le_half
    have h2 : q / d * ((1 + 1 / 2 ^ 51) * (1 + 1 / 2 ^ 53)) ≤ q / d * 2 :=
      mul_le_mul_of_nonneg_left (by norm_num) hx0.le
    linarith
  have hx_hi : q / d < pow2 1023 := by
    have := two_lt_pow2_1023
    have h2 : q / d * (1 / 2) ≤ q / d * ((1 - 1 / 2 ^ 51) * (1 - 1 / 2 ^ 53)) :=
      mul_le_mul_of_nonneg_left (by norm_num) hx0.le
    linarith
  obtain ⟨r, hr, hr1, hr2⟩ := roundToDouble_error _ hx_lo hx_hi
  refine ⟨?_, r, ?_, ?_, ?_⟩
  · rw [hmul]
    simp [JSNum.isZero, (ne_of_gt hd0)]
  · rw [hmul]
    show (if d = 0 then _ else roundToDouble (q / d)) = JSNum.fin r
    rw [if_neg (ne_of_gt hd0)]
    exact hr
  · have h3 : (1 - 1 / 2 ^ 50) * ((1 + 1 / 2 ^ 51) * (1 + 1 / 2 ^ 53)) ≤
        q / d * ((1 + 1 / 2 ^ 51) * (1 + 1 / 2 ^ 53)) * (1 - 1 / 2 ^ 53) := by
      have h4 : (1 - 1 / 2 ^ 50) * ((1 + 1 / 2 ^ 51) * (1 + 1 / 2 ^ 53)) ≤
          1 * (1 - 1 / 2 ^ 53) := by norm_num
      have h5 : 1 * (1 - 1 / 2 ^ 53) ≤
          q / d * ((1 + 1 / 2 ^ 51) * (1 + 1 / 2 ^ 53)) * (1 - 1 / 2 ^ 53) :=
        mul_le_mul_of_nonneg_right hxB (by norm_num)
      linarith
    have h6 : (1 - 1 / 2 ^ 50) * ((1 + 1 / 2 ^ 51) * (1 + 1 / 2 ^ 53)) ≤
        r * ((1 + 1 / 2 ^ 51) * (1 + 1 / 2 ^ 53)) := by
      have : q / d * ((1 + 1 / 2 ^ 51) * (1 + 1 / 2 ^ 53)) * (1 - 1 / 2 ^ 53) =
          q / d * (1 - 1 / 2 ^ 53) * ((1 + 1 / 2 ^ 51) * (1 + 1 / 2 ^ 53)) := by ring
      rw [this] at h3
      exact le_trans h3 (mul_le_mul_of_nonneg_right hr1 (by norm_num))
    exact le_of_mul_le_mul_right h6 (by norm_num)
  · have h3 : q / d * ((1 - 1 / 2 ^ 51) * (1 - 1 / 2 ^ 53)) * (1 + 1 / 2 ^ 53) ≤
        (1 + 1 / 2 ^ 50) * ((1 - 1 / 2 ^ 51) * (1 - 1 / 2 ^ 53)) := by
      have h4 : 1 * (1 + 1 / 2 ^ 53) ≤
          (1 + 1 / 2 ^ 50) * ((1 - 1 / 2 ^ 51) * (1 - 1 / 2 ^ 53)) := by norm_num
      have h5 : q / d * ((1 - 1 / 2 ^ 51) * (1 - 1 / 2 ^ 53)) * (1 + 1 / 2 ^ 53) ≤
          1 * (1 + 1 / 2 ^ 53) :=
        mul_le_mul_of_nonneg_right hxA (by norm_num)
      linarith
    have h6 : r * ((1 - 1 / 2 ^ 51) * (1 - 1 / 2 ^ 53)) ≤
        (1 + 1 / 2 ^ 50) * ((1 - 1 / 2 ^ 51) * (1 - 1 / 2 ^ 53)) := by
      have : q / d * ((1 - 1 / 2 ^ 51) * (1 - 1 / 2 ^ 53)) * (1 + 1 / 2 ^ 53) =
          q / d * (1 + 1 / 2 ^ 53) * ((1 - 1 / 2 ^ 51) * (1 - 1 / 2 ^ 53)) := by ring
      rw [this] at h3
      exact le_trans (mul_le_mul_of_nonneg_right hr2 (by norm_num)) h3
    exact le_of_mul_le_mul_right h6 (by norm_num)

/-! ## Lemmas: calculateSimilarity -/

theorem perm_allWords (a b : TermVector) : (allWords a b).Perm (allWords b a) := by
  rw [List.perm_ext_iff_of_nodup (nodup_allWords a b) (nodup_allWords b a)]
  intro w
  rw [mem_allWords, mem_allWords]
  exact Or.comm

theorem foldl_accumulate_swap (a b : TermVector) (l : List String) : ∀ (d m1 m2 : JSNum),
    l.foldl (accumulate b a) ⟨d, m2, m1⟩ =
      ⟨(l.foldl (accumulate a b) ⟨d, m1, m2⟩).dotProduct,
        (l.foldl (accumulate a b) ⟨d, m1, m2⟩).magnitude2,
        (l.foldl (accumulate a b) ⟨d, m1, m2⟩).magnitude1⟩ := by
  induction l with
  | nil => intro d m1 m2; rfl
  | cons w l ih =>
    intro d m1 m2
    simp only [List.foldl_cons]
    have h1 : accumulate b a ⟨d, m2, m1⟩ w =
        ⟨(accumulate a b ⟨d, m1, m2⟩ w).dotProduct, (accumulate a b ⟨d, m1, m2⟩ w).magnitude2,
          (accumulate a b ⟨d, m1, m2⟩ w).magnitude1⟩ := by
      simp only [accumulate]
      rw [jsMul_comm (valueOr0 b w).toNumber (valueOr0 a w).toNumber]
    rw [h1, ih]

theorem similaritySums_swap (a b : TermVector) (h : allWords a b = allWords b a) :
    similaritySums b a =
      ⟨(similaritySums a b).dotProduct, (similaritySums a b).magnitude2,
        (similaritySums a b).magnitude1⟩ := by
  unfold similaritySums
  rw [← h]
  exact foldl_accumulate_swap a b _ 0 0 0

theorem foldl_accumulate_self (v : TermVector) (l : List String) : ∀ (m : JSNum),
    l.foldl (accumulate v v) ⟨m, m, m⟩ =
      ⟨(l.foldl (accumulate v v) ⟨m, m, m⟩).magnitude1,
        (l.foldl (accumulate v v) ⟨m, m, m⟩).magnitude1,
        (l.foldl (accumulate v v) ⟨m, m, m⟩).magnitude1⟩ := by
  induction l with
  | nil => intro m; rfl
  | cons w l ih =>
    intro m
    simp only [List.foldl_cons]
    have h1 : accumulate v v ⟨m, m, m⟩ w =
        ⟨m.add ((valueOr0 v w).toNumber.mul (valueOr0 v w).toNumber),
          m.add ((valueOr0 v w).toNumber.mul (valueOr0 v w).toNumber),
          m.add ((valueOr0 v w).toNumber.mul (valueOr0 v w).toNumber)⟩ := rfl
    rw [h1]
    exact ih _

theorem similaritySums_self (v : TermVector) :
    (similaritySums v v).dotProduct = (similaritySums v v).magnitude1 ∧
    (similaritySums v v).magnitude2 = (similaritySums v v).magnitude1 := by
  have h := foldl_accumulate_self v (allWords v v) 0
  unfold similaritySums
  constructor
  · exact congrArg Sums.dotProduct h
  · exact congrArg Sums.magnitude2 h

/-- A word whose value in one of the vectors converts to `NaN` makes the magnitude of that
vector `NaN`. -/
theorem foldl_accumulate_nan1 (v1 v2 : TermVector) (l : List String) : ∀ (s : Sums),
    (s.magnitude1 = JSNum.nan ∨ ∃ w ∈ l, (valueOr0 v1 w).toNumber = JSNum.nan) →
    (l.foldl (accumulate v1 v2) s).magnitude1 = JSNum.nan := by
  induction l with
  | nil =>
    intro s h
    rcases h with h | ⟨w, hw, _⟩
    · exact h
    · cases hw
  | cons a l ih =>
    intro s h
    simp only [List.foldl_cons]
    apply ih
    rcases h with h | ⟨w, hw, hn⟩
    · left
      simp only [accumulate, h, JSNum.add_nan_left]
    · rcases List.mem_cons.mp hw with rfl | hw
      · left
        simp only [accumulate, hn, JSNum.mul_nan_left, JSNum.add_nan_right]
      · right
        exact ⟨w, hw, hn⟩

theorem foldl_accumulate_nan2 (v1 v2 : TermVector) (l : List String) : ∀ (s : Sums),
    (s.magnitude2 = JSNum.nan ∨ ∃ w ∈ l, (valueOr0 v2 w).toNumber = JSNum.nan) →
    (l.foldl (accumulate v1 v2) s).magnitude2 = JSNum.nan := by
  induction l with
  | nil =>
    intro s h
    rcases h with h | ⟨w, hw, _⟩
    · exact h
    · cases hw
  | cons a l ih =>
    intro s h
    simp only [List.foldl_cons]
    apply ih
    rcases h with h | ⟨w, hw, hn⟩
    · left
      simp only [accumulate, h, JSNum.add_nan_left]
    · rcases List.mem_cons.mp hw with rfl | hw
      · left
        simp only [accumulate, hn, JSNum.mul_nan_left, JSNum.add_nan_right]
      · right
        exact ⟨w, hw, hn⟩

theorem calculateSimilarity_of_magnitude1_nan (v1 v2 : TermVector)
    (h : (similaritySums v1 v2).magnitude1 = JSNum.nan) :
    calculateSimilarity v1 v2 = JSNum.nan := by
  have hd : denominator v1 v2 = JSNum.nan := by
    unfold denominator
    rw [h]
    exact JSNum.mul_nan_left _
  unfold calculateSimilarity
  rw [hd]
  simp [JSNum.isZero, JSNum.div_nan_right]

theorem calculateSimilarity_of_magnitude2_nan (v1 v2 : TermVector)
    (h : (similaritySums v1 v2).magnitude2 = JSNum.nan) :
    calculateSimilarity v1 v2 = JSNum.nan := by
  have hd : denominator v1 v2 = JSNum.nan := by
    unfold denominator
    rw [h]
    exact JSNum.mul_nan_right _
  unfold calculateSimilarity
  rw [hd]
  simp [JSNum.isZero, JSNum.div_nan_right]

/-- A word of the union of keys that one of the vectors reads as a value converting to `NaN`
(a string, or a property inherited from `Object.prototype`) makes the similarity `NaN`. -/
theorem calculateSimilarity_nan_of_word (v1 v2 : TermVector) (w : String)
    (hw : w ∈ allWords v1 v2)
    (h : (valueOr0 v1 w).toNumber = JSNum.nan ∨ (valueOr0 v2 w).toNumber = JSNum.nan) :
    calculateSimilarity v1 v2 = JSNum.nan := by
  rcases h with h | h
  · exact calculateSimilarity_of_magnitude1_nan v1 v2
      (foldl_accumulate_nan1 v1 v2 _ _ (Or.inr ⟨w, hw, h⟩))
  · exact calculateSimilarity_of_magnitude2_nan v1 v2
      (foldl_accumulate_nan2 v1 v2 _ _ (Or.inr ⟨w, hw, h⟩))

/-- The similarity of a vector with itself, by the squared magnitude `M` that the loop
accumulates: 0 when `M` is 0, and within `2 ^ (-50)` of 1 when `M` lies between `2 ^ (-1000)`
and `2 ^ 1000`. -/
theorem self_similarity_bound (v : TermVector) (q : ℚ)
    (hM : (similaritySums v v).magnitude1 = JSNum.fin q) :
    (q = 0 → calculateSimilarity v v = 0) ∧
    (pow2 (-1000) ≤ q → q ≤ pow2 1000 →
      ∃ r, calculateSimilarity v v = JSNum.fin r ∧ 1 - 1 / 2 ^ 50 ≤ r ∧ r ≤ 1 + 1 / 2 ^ 50) := by
  obtain ⟨h1, h2⟩ := similaritySums_self v
  have hden : denominator v v = (JSNum.fin q).sqrt.mul (JSNum.fin q).sqrt := by
    unfold denominator
    rw [h2, hM]
  constructor
  · intro h0
    unfold calculateSimilarity
    have hz : ((JSNum.fin 0).sqrt.mul (JSNum.fin 0).sqrt).isZero = true := by decide!
    rw [hden, h0, if_pos hz]
  · intro hlo hhi
    obtain ⟨hz, r, hr, hr1, hr2⟩ := self_quotient_bound q hlo hhi
    refine ⟨r, ?_, hr1, hr2⟩
    unfold calculateSimilarity
    rw [hden, hz, h1, hM]
    exact hr


/-! ## Theorems: calculateSimilarity -/

/-- C1 at its failing input: for `a = {dog: 5}` and `b = {dog: 5, constructor: 5}`, both with
non-negative weights, `a["constructor"] || 0` is the function inherited from
`Object.prototype`, and `calculateSimilarity(a, b)` is `NaN`, which is not in `[0, 1]`.  The
same happens between the vectors that the scanner builds for a tab titled "Alpha" and a tab
titled "Constructor". -/
theorem calculateSimilarity_nan_on_inherited_key :
    valueOr0 [("dog", 5)] "constructor" = JSVal.inherited "constructor" ∧
    calculateSimilarity [("dog", 5)] [("dog", 5), ("constructor", 5)] = JSNum.nan ∧
    calculateSimilarity
      (getTabVector exampleEnv ⟨1, some "Alpha", some "https://example.com/", "complete"⟩)
      (getTabVector exampleEnv ⟨2, some "Constructor", some "https://example.com/", "complete"⟩)
      = JSNum.nan := by
  decide!

/-- C2 fails as stated: the two calls add the same products in different orders, and binary64
addition is not associative.  For `a = {x: 0.1, y: 0.1, z: 0.1}` and
`b = {z: 0.3, y: 0.1, x: 0.1}` the results are 0.8703882797784891 and 0.870388279778489. -/
theorem calculateSimilarity_symm_counterexample :
    calculateSimilarity [("x", 0.1), ("y", 0.1), ("z", 0.1)] [("z", 0.3), ("y", 0.1), ("x", 0.1)]
      = JSNum.fin (7839760664956101 / 9007199254740992) ∧
    calculateSimilarity [("z", 0.3), ("y", 0.1), ("x", 0.1)] [("x", 0.1), ("y", 0.1), ("z", 0.1)]
      = JSNum.fin (1959940166239025 / 2251799813685248) ∧
    calculateSimilarity [("x", 0.1), ("y", 0.1), ("z", 0.1)] [("z", 0.3), ("y", 0.1), ("x", 0.1)]
      ≠ calculateSimilarity [("z", 0.3), ("y", 0.1), ("x", 0.1)]
          [("x", 0.1), ("y", 0.1), ("z", 0.1)] ∧
    (calculateSimilarity [("x", 0.1), ("y", 0.1), ("z", 0.1)]
        [("z", 0.3), ("y", 0.1), ("x", 0.1)]).strictEq
      (calculateSimilarity [("z", 0.3), ("y", 0.1), ("x", 0.1)]
        [("x", 0.1), ("y", 0.1), ("z", 0.1)]) = false := by
  decide!

/-- C2, amended: the two calls go through the same words, in orders that are permutations of
each other; when the two orders agree, `calculateSimilarity(a, b)` and
`calculateSimilarity(b, a)` are the same value, and equal under `===` unless they are `NaN`. -/
theorem calculateSimilarity_symm (a b : TermVector) :
    (allWords a b).Perm (allWords b a) ∧
    (allWords a b = allWords b a →
      calculateSimilarity a b = calculateSimilarity b a ∧
      (calculateSimilarity a b ≠ JSNum.nan →
        (calculateSimilarity a b).strictEq (calculateSimilarity b a) = true)) := by
  refine ⟨perm_allWords a b, ?_⟩
  intro h
  have hs := similaritySums_swap a b h
  have hd : denominator b a = denominator a b := by
    unfold denominator
    rw [hs]
    exact jsMul_comm _ _
  have heq : calculateSimilarity a b = calculateSimilarity b a := by
    unfold calculateSimilarity
    rw [hd, hs]
  refine ⟨heq, ?_⟩
  intro hn
  unfold JSNum.strictEq
  rw [decide_eq_true_eq]
  exact ⟨hn, heq ▸ hn, heq⟩

/-- C2 amended, at `a = {dog: 5}` and `b = {dog: 5, cats: 1.5}`, whose words come in the order
`dog`, `cats` in both calls. -/
theorem calculateSimilarity_symm_witness :
    allWords [("dog", 5)] [("dog", 5), ("cats", 1.5)] =
      allWords [("dog", 5), ("cats", 1.5)] [("dog", 5)] ∧
    calculateSimilarity [("dog", 5)] [("dog", 5), ("cats", 1.5)] =
      calculateSimilarity [("dog", 5), ("cats", 1.5)] [("dog", 5)] ∧
    (calculateSimilarity [("dog", 5)] [("dog", 5), ("cats", 1.5)]).strictEq
      (calculateSimilarity [("dog", 5), ("cats", 1.5)] [("dog", 5)]) = true :=
  ⟨by decide,
    ((calculateSimilarity_symm [("dog", 5)] [("dog", 5), ("cats", 1.5)]).2 (by decide)).1,
    ((calculateSimilarity_symm [("dog", 5)] [("dog", 5), ("cats", 1.5)]).2 (by decide)).2
      (by decide!)⟩

/-- C3 at its failing inputs: `calculateSimilarity({}, {constructor: 5})` is `NaN` in either
order, because `{}["constructor"] || 0` is an inherited function; and
`calculateSimilarity({}, {a: 1e200})` is `NaN` in either order, because the squared magnitude
overflows to `Infinity`, the denominator `0 * Infinity` is `NaN`, and the guard
`denominator === 0` does not catch it. -/
theorem calculateSimilarity_zero_vector_nan :
    calculateSimilarity [] [("constructor", 5)] = JSNum.nan ∧
    calculateSimilarity [("constructor", 5)] [] = JSNum.nan ∧
    (similaritySums [] [("a", 1e200)]).magnitude1 = 0 ∧
    (similaritySums [] [("a", 1e200)]).magnitude2 = JSNum.posInf ∧
    denominator [] [("a", 1e200)] = JSNum.nan ∧
    calculateSimilarity [] [("a", 1e200)] = JSNum.nan ∧
    calculateSimilarity [("a", 1e200)] [] = JSNum.nan := by
  decide!

/-- C4 fails as stated: the vector `{alpha: 5, "https:": 1.5}`, which the scanner builds for a
tab titled "Alpha" at `https://example.com/`, has similarity 0.9999999999999999 with itself;
`{a: 0.5, b: 0.5, c: 0.5}` has 1.0000000000000002; and `{a: 2 ^ (-600)}`, whose square
underflows to 0, has 0. -/
theorem calculateSimilarity_self_counterexample :
    getTabVector exampleEnv ⟨1, some "Alpha", some "https://example.com/", "complete"⟩ =
      [("alpha", 5), ("https:", 1.5)] ∧
    calculateSimilarity [("alpha", 5), ("https:", 1.5)] [("alpha", 5), ("https:", 1.5)] =
      JSNum.fin (1 - 1 / 2 ^ 53) ∧
    calculateSimilarity [("alpha", 5), ("https:", 1.5)] [("alpha", 5), ("https:", 1.5)] ≠ 1 ∧
    calculateSimilarity [("a", 0.5), ("b", 0.5), ("c", 0.5)] [("a", 0.5), ("b", 0.5), ("c", 0.5)] =
      JSNum.fin (1 + 1 / 2 ^ 52) ∧
    calculateSimilarity [("a", JSVal.num (JSNum.fin (pow2 (-600))))]
      [("a", JSVal.num (JSNum.fin (pow2 (-600))))] = 0 := by
  decide!

/-- C4, amended: let `M` be the squared magnitude that `calculateSimilarity(v, v)` accumulates,
a finite number.  When `M` is 0 the result is 0.  When `M` lies between `2 ^ (-1000)` and
`2 ^ 1000` the result is a finite number within `2 ^ (-50)` of 1. -/
theorem calculateSimilarity_self (v : TermVector) (q : ℚ)
    (hM : (similaritySums v v).magnitude1 = JSNum.fin q) :
    (q = 0 → calculateSimilarity v v = 0) ∧
    (pow2 (-1000) ≤ q → q ≤ pow2 1000 →
      ∃ r, calculateSimilarity v v = JSNum.fin r ∧ 1 - 1 / 2 ^ 50 ≤ r ∧ r ≤ 1 + 1 / 2 ^ 50) :=
  self_similarity_bound v q hM

/-- C4 amended, at the vector `{alpha: 5, "https:": 1.5}`, whose squared magnitude is 27.25. -/
theorem calculateSimilarity_self_witness :
    ∃ r, calculateSimilarity [("alpha", 5), ("https:", 1.5)] [("alpha", 5), ("https:", 1.5)] =
      JSNum.fin r ∧ 1 - 1 / 2 ^ 50 ≤ r ∧ r ≤ 1 + 1 / 2 ^ 50 :=
  (calculateSimilarity_self [("alpha", 5), ("https:", 1.5)] (109 / 4) (by decide!)).2
    (by decide!) (by decide!)

/-! ## Lemmas: numeric strings -/

theorem isDigit_toNat (c : Char) (h : c.isDigit = true) : 48 ≤ c.toNat ∧ c.toNat ≤ 57 := by
  unfold Char.isDigit at h
  simp only [ge_iff_le, Bool.and_eq_true, decide_eq_true_eq] at h
  obtain ⟨h1, h2⟩ := h
  rw [UInt32.le_def] at h1 h2
  exact ⟨h1, h2⟩

theorem isJsSpace_of_isDigit (c : Char) (h : c.isDigit = true) : isJsSpace c = false := by
  obtain ⟨h1, h2⟩ := isDigit_toNat c h
  unfold isJsSpace
  simp only [Bool.or_eq_false_iff, Bool.and_eq_false_iff, beq_eq_false_iff_ne,
    decide_eq_false_iff_not]
  omega

theorem not_sign_of_isDigit (c : Char) (h : c.isDigit = true) :
    (c == '+' || c == '-') = false := by
  obtain ⟨h1, h2⟩ := isDigit_toNat c h
  simp only [Bool.or_eq_false_iff, beq_eq_false_iff_ne]
  constructor
  · rintro rfl
    revert h1; decide
  · rintro rfl
    revert h1; decide

theorem dropWhile_space_of_digits (l : List Char) (h : ∀ c ∈ l, c.isDigit = true) :
    l.dropWhile isJsSpace = l := by
  cases l with
  | nil => rfl
  | cons c r =>
    have hc := isJsSpace_of_isDigit c (h c (List.mem_cons_self _ _))
    simp [List.dropWhile_cons, hc]

theorem trimSpaces_of_digits (l : List Char) (h : ∀ c ∈ l, c.isDigit = true) :
    trimSpaces l = l := by
  unfold trimSpaces
  rw [dropWhile_space_of_digits l h,
    dropWhile_space_of_digits l.reverse (fun c hc => h c (List.mem_reverse.mp hc)),
    List.reverse_reverse]

theorem isUnsignedDecimal_of_digits (l : List Char) (hne : l ≠ [])
    (h : ∀ c ∈ l, c.isDigit = true) : isUnsignedDecimal l = true := by
  unfold isUnsignedDecimal
  have h1 : l.takeWhile Char.isDigit = l := List.takeWhile_eq_self_iff.mpr h
  have h2 : l.dropWhile Char.isDigit = [] := List.dropWhile_eq_nil_iff.mpr h
  simp only [h1, h2, Bool.or_eq_true]
  right
  cases l with
  | nil => exact absurd rfl hne
  | cons c r => rfl

/-- A string of one or more decimal digits converts to a number. -/
theorem isNumericString_of_digits (w : String) (hne : w.data ≠ [])
    (h : ∀ c ∈ w.data, c.isDigit = true) : isNumericString w = true := by
  unfold isNumericString
  simp only [trimSpaces_of_digits w.data h, Bool.or_eq_true]
  right
  unfold isStrDecimal
  cases hd : w.data with
  | nil => exact absurd hd hne
  | cons c r =>
    have hc : c.isDigit = true := h c (by rw [hd]; exact List.mem_cons_self _ _)
    simp only [not_sign_of_isDigit c hc]
    apply isUnsignedDecimal_of_digits
    · simp
    · intro x hx
      exact h x (by rw [hd]; exact hx)


/-! ## Lemmas: addWeight and processWords -/

theorem mem_keys_setOwn (v : TermVector) (k : String) (x : JSVal) (w : String) :
    w ∈ keys (setOwn v k x) ↔ w ∈ keys v ∨ w = k := by
  induction v with
  | nil => simp [setOwn, keys]
  | cons p v ih =>
    obtain ⟨k1, y⟩ := p
    unfold setOwn
    by_cases h : k1 = k
    · rw [if_pos h]
      simp only [keys, List.map_cons, List.mem_cons]
      constructor
      · rintro (h1 | h1)
        · exact Or.inl (Or.inl h1)
        · exact Or.inl (Or.inr h1)
      · rintro ((h1 | h1) | h1)
        · exact Or.inl h1
        · exact Or.inr h1
        · exact Or.inl (h1.trans h.symm)
    · rw [if_neg h]
      have ih2 : w ∈ List.map Prod.fst (setOwn v k x) ↔ w ∈ List.map Prod.fst v ∨ w = k := ih
      simp only [keys, List.map_cons, List.mem_cons, ih2]
      tauto

theorem mem_keys_addWeight (v : TermVector) (k : String) (weight : Weight) (w : String)
    (h : w ∈ keys (addWeight v k weight)) : w ∈ keys v ∨ w = k := by
  unfold addWeight setProp at h
  split_ifs at h
  · exact Or.inl h
  · exact (mem_keys_setOwn v k _ w).mp h

theorem mem_keys_processWords (d : String) (weight : Weight) (w : String)
    (ws : List String) : ∀ (v : TermVector), w ∈ keys (processWords d v ws weight) →
      w ∈ keys v ∨ passesFilter d w = true := by
  induction ws with
  | nil => intro v h; exact Or.inl h
  | cons a ws ih =>
    intro v h
    unfold processWords at h
    rw [List.foldl_cons] at h
    rcases ih _ h with h1 | h1
    · split_ifs at h1 with hp
      · rcases mem_keys_addWeight v a weight w h1 with h2 | h2
        · exact Or.inl h2
        · right
          rw [h2]
          exact hp
      · exact Or.inl h1
    · exact Or.inr h1

/-! ## Lemmas: getTabVector -/

theorem passesFilter_of_mem_keys (env : ScanEnv) (tab : Tab) (w : String)
    (h : w ∈ keys (getTabVector env tab)) : passesFilter (domainNameOf env tab) w = true := by
  unfold getTabVector at h
  rcases mem_keys_processWords _ _ _ _ _ h with h | h
  · rcases mem_keys_processWords _ _ _ _ _ h with h | h
    · rcases mem_keys_processWords _ _ _ _ _ h with h | h
      · simp [keys] at h
      · exact h
    · exact h
  · exact h

/-! ## Theorems: getTabVector -/

/-- C5: no key of the vector built by `getTabVector` is a stop word, a purely numeric token, or
the tab's own domain root, whichever stream the token came from. -/
theorem getTabVector_excludes (env : ScanEnv) (tab : Tab) (w : String) :
    w ∈ keys (getTabVector env tab) →
      w ∉ STOP_WORDS ∧ ¬ isPurelyNumeric w ∧ jsIsNaN w = true ∧
      w ≠ domainNameOf env tab ∧
      (∀ h, tab.url.bind env.hostname = some h → w ≠ domainRoot h) := by
  intro hw
  have hp := passesFilter_of_mem_keys env tab w hw
  unfold passesFilter at hp
  simp only [Bool.and_eq_true, decide_eq_true_eq, Bool.not_eq_true', bne_iff_ne, ne_eq] at hp
  obtain ⟨⟨⟨_, hstop⟩, hnan⟩, hdom⟩ := hp
  refine ⟨?_, ?_, hnan, hdom, ?_⟩
  · intro hmem
    have : STOP_WORDS.contains w = true := by simpa using hmem
    rw [this] at hstop
    exact Bool.noConfusion hstop
  · rintro ⟨hne, hdig⟩
    have := isNumericString_of_digits w hne hdig
    unfold jsIsNaN at hnan
    rw [this] at hnan
    exact Bool.noConfusion hnan
  · intro h hh
    unfold domainNameOf at hdom
    rw [hh] at hdom
    exact hdom

/-- C5, at a tab titled "Kubernetes Docs" on `https://example.com/`. -/
theorem getTabVector_excludes_witness :
    "kubernetes" ∉ STOP_WORDS ∧ ¬ isPurelyNumeric "kubernetes" ∧ jsIsNaN "kubernetes" = true ∧
      "kubernetes" ≠ domainNameOf exampleEnv
        ⟨1, some "Kubernetes Docs", some "https://example.com/", "complete"⟩ ∧
      (∀ h, (some "https://example.com/").bind exampleEnv.hostname = some h →
        "kubernetes" ≠ domainRoot h) :=
  getTabVector_excludes exampleEnv
    ⟨1, some "Kubernetes Docs", some "https://example.com/", "complete"⟩ "kubernetes"
    (by decide!)

/-- C6 fails on the URL stream: the tab at `https://example.com/` gets the key `https:`, which
has a character outside a-z and 0-9. -/
theorem getTabVector_url_key_not_alnum :
    "https:" ∈ keys (getTabVector exampleEnv
      ⟨1, some "Example", some "https://example.com/", "complete"⟩) ∧
    "https:".data.all isLowerAlnum = false := by
  decide!

/-- C7 at its failing input: a tab titled "Constructor Pattern" at `https://example.com/docs`
whose page text is "constructor pattern guide".  The token `constructor` passes the filter and
occurs once in the title and once in the page text, which by the stream weights is 5.5; but
`vector["constructor"] || 0` is the function inherited from `Object.prototype`, and the stored
value is the string made of the text of that function followed by "5" and "0.5".  The token
`pattern`, read as `undefined` at first, is stored with 5.5; while the tab is loading its page
text is not read, and `pattern` is stored with 5. -/
theorem getTabVector_inherited_key_weight :
    passesFilter (domainNameOf probeEnv
      ⟨1, some "Constructor Pattern", some "https://example.com/docs", "complete"⟩)
      "constructor" = true ∧
    (titleWordsOf probeEnv
      ⟨1, some "Constructor Pattern", some "https://example.com/docs", "complete"⟩).count
      "constructor" = 1 ∧
    (urlPathOf probeEnv
      ⟨1, some "Constructor Pattern", some "https://example.com/docs", "complete"⟩).count
      "constructor" = 0 ∧
    (pageWordsOf probeEnv
      ⟨1, some "Constructor Pattern", some "https://example.com/docs", "complete"⟩).count
      "constructor" = 1 ∧
    getTabVector probeEnv
      ⟨1, some "Constructor Pattern", some "https://example.com/docs", "complete"⟩ =
      [("constructor", JSVal.inheritedText "constructor" "50.5"), ("pattern", 5.5),
        ("https:", 1.5), ("docs", 1.5), ("guide", 0.5)] ∧
    getTabVector probeEnv
      ⟨1, some "Constructor Pattern", some "https://example.com/docs", "loading"⟩ =
      [("constructor", JSVal.inheritedText "constructor" "5"), ("pattern", 5),
        ("https:", 1.5), ("docs", 1.5)] := by
  decide!

/-! ## Lemmas: the assignment pass -/

/-- The state of the loop over `groupVectors` after a prefix of the groups: nothing chosen and
no group above the threshold so far, or the first group with the highest score so far. -/
theorem foldl_bestMatchStep_inv (v : TermVector) (pre : List GroupData) :
    ((pre.foldl (bestMatchStep v) (none, 0)).1 = none ∧
      (pre.foldl (bestMatchStep v) (none, 0)).2 = 0 ∧
      ∀ x ∈ pre, (calculateSimilarity v x.vector).gt SIMILARITY_THRESHOLD = false) ∨
    (∃ l1 g l2, pre = l1 ++ g :: l2 ∧
      (pre.foldl (bestMatchStep v) (none, 0)).1 = some g.groupId ∧
      (pre.foldl (bestMatchStep v) (none, 0)).2 = calculateSimilarity v g.vector ∧
      (calculateSimilarity v g.vector).gt SIMILARITY_THRESHOLD = true ∧
      (∀ x ∈ l1, calculateSimilarity v x.vector = JSNum.nan ∨
        (calculateSimilarity v g.vector).gt (calculateSimilarity v x.vector) = true) ∧
      (∀ x ∈ l2, (calculateSimilarity v x.vector).gt (calculateSimilarity v g.vector) = false)) := by
  induction pre using List.reverseRecOn with
  | nil => left; simp
  | append_singleton pre h ih =>
    rw [List.foldl_append, List.foldl_cons, List.foldl_nil]
    have hT := JSNum.threshold_gt_zero
    rcases ih with ⟨h1, h2, h3⟩ | ⟨l1, g, l2, hpre, h1, h2, h3, h4, h5⟩
    · by_cases hh : (calculateSimilarity v h.vector).gt SIMILARITY_THRESHOLD = true
      · right
        have h0 : (calculateSimilarity v h.vector).gt 0 = true := JSNum.gt_trans _ _ _ hh hT
        refine ⟨pre, h, [], rfl, ?_, ?_, hh, ?_, ?_⟩
        · simp only [bestMatchStep, h2, hh, h0, Bool.and_self, if_true]
        · simp only [bestMatchStep, h2, hh, h0, Bool.and_self, if_true]
        · intro x hx
          by_cases hn : calculateSimilarity v x.vector = JSNum.nan
          · exact Or.inl hn
          · exact Or.inr (JSNum.gt_of_gt_of_not_gt _ _ _ hh (h3 x hx) hn)
        · intro x hx
          cases hx
      · left
        have hh2 : (calculateSimilarity v h.vector).gt SIMILARITY_THRESHOLD = false := by
          simpa using hh
        refine ⟨?_, ?_, ?_⟩
        · simp only [bestMatchStep, hh2, Bool.false_and, Bool.false_eq_true, if_false]
          exact h1
        · simp only [bestMatchStep, hh2, Bool.false_and, Bool.false_eq_true, if_false]
          exact h2
        · intro x hx
          rcases List.mem_append.mp hx with hx | hx
          · exact h3 x hx
          · rw [List.mem_singleton] at hx
            rw [hx]
            exact hh2
    · right
      by_cases hh : ((calculateSimilarity v h.vector).gt SIMILARITY_THRESHOLD &&
          (calculateSimilarity v h.vector).gt (calculateSimilarity v g.vector)) = true
      · have hh2 := hh
        rw [Bool.and_eq_true] at hh2
        refine ⟨pre, h, [], rfl, ?_, ?_, hh2.1, ?_, ?_⟩
        · simp only [bestMatchStep, h2, hh, if_true]
        · simp only [bestMatchStep, h2, hh, if_true]
        · intro x hx
          rw [hpre] at hx
          rcases List.mem_append.mp hx with hx | hx
          · rcases h4 x hx with hn | hgt
            · exact Or.inl hn
            · exact Or.inr (JSNum.gt_trans _ _ _ hh2.2 hgt)
          · rcases List.mem_cons.mp hx with hx | hx
            · rw [hx]; exact Or.inr hh2.2
            · by_cases hn : calculateSimilarity v x.vector = JSNum.nan
              · exact Or.inl hn
              · exact Or.inr (JSNum.gt_of_gt_of_not_gt _ _ _ hh2.2 (h5 x hx) hn)
        · intro x hx
          cases hx
      · refine ⟨l1, g, l2 ++ [h], ?_, ?_, ?_, h3, h4, ?_⟩
        · rw [hpre]; simp
        · simp only [bestMatchStep, h2, hh, Bool.false_eq_true, if_false]
          exact h1
        · simp only [bestMatchStep, h2, hh, Bool.false_eq_true, if_false]
        · intro x hx
          rcases List.mem_append.mp hx with hx | hx
          · exact h5 x hx
          · rw [List.mem_singleton] at hx
            rw [hx]
            cases hgt : (calculateSimilarity v h.vector).gt (calculateSimilarity v g.vector) with
            | false => rfl
            | true =>
              exfalso
              apply hh
              rw [Bool.and_eq_true]
              exact ⟨JSNum.gt_trans _ _ _ hgt h3, hgt⟩

/-- Groups that do not beat the best score leave the pair `(bestMatch, bestScore)` as it is. -/
theorem foldl_bestMatchStep_stay (v : TermVector) (l : List GroupData) (m : Option Nat)
    (b : JSNum) (h : ∀ x ∈ l, (calculateSimilarity v x.vector).gt b = false) :
    l.foldl (bestMatchStep v) (m, b) = (m, b) := by
  induction l with
  | nil => rfl
  | cons a l ih =>
    rw [List.foldl_cons]
    have ha := h a (List.mem_cons_self _ _)
    have : bestMatchStep v (m, b) a = (m, b) := by
      simp only [bestMatchStep, ha, Bool.and_false, Bool.false_eq_true, if_false]
    rw [this]
    exact ih (fun x hx => h x (List.mem_cons_of_mem _ hx))

/-- The first group with the highest score, when that score is above the threshold, is the one
the loop chooses. -/
theorem findBestMatch_of_first_max (v : TermVector) (l1 l2 : List GroupData) (g : GroupData)
    (hg : (calculateSimilarity v g.vector).gt SIMILARITY_THRESHOLD = true)
    (h1 : ∀ x ∈ l1, calculateSimilarity v x.vector = JSNum.nan ∨
      (calculateSimilarity v g.vector).gt (calculateSimilarity v x.vector) = true)
    (h2 : ∀ x ∈ l2, (calculateSimilarity v x.vector).gt (calculateSimilarity v g.vector) = false) :
    findBestMatch v (l1 ++ g :: l2) = (some g.groupId, calculateSimilarity v g.vector) := by
  unfold findBestMatch
  rw [List.foldl_append, List.foldl_cons]
  have hlt : (calculateSimilarity v g.vector).gt (l1.foldl (bestMatchStep v) (none, 0)).2
      = true := by
    rcases foldl_bestMatchStep_inv v l1 with ⟨_, hz, _⟩ | ⟨a1, g0, a2, hl, _, hs, hgt0, _, _⟩
    · rw [hz]
      exact JSNum.gt_trans _ _ _ hg JSNum.threshold_gt_zero
    · rw [hs]
      rcases h1 g0 (by rw [hl]; simp) with hn | hgt
      · rw [hn, JSNum.gt_nan_left] at hgt0
        cases hgt0
      · exact hgt
  have hstep : bestMatchStep v (l1.foldl (bestMatchStep v) (none, 0)) g =
      (some g.groupId, calculateSimilarity v g.vector) := by
    simp only [bestMatchStep, hg, hlt, Bool.and_self, if_true]
  rw [hstep]
  exact foldl_bestMatchStep_stay v l2 _ _ h2

theorem findBestMatch_none_iff (v : TermVector) (gs : List GroupData) :
    (findBestMatch v gs).1 = none ↔
      ∀ x ∈ gs, (calculateSimilarity v x.vector).gt SIMILARITY_THRESHOLD = false := by
  unfold findBestMatch
  constructor
  · intro h
    rcases foldl_bestMatchStep_inv v gs with ⟨_, _, h3⟩ | ⟨l1, g, l2, _, h1, _⟩
    · exact h3
    · rw [h] at h1
      cases h1
  · intro h
    rcases foldl_bestMatchStep_inv v gs with ⟨h1, _, _⟩ | ⟨l1, g, l2, hgs, _, _, h3, _⟩
    · exact h1
    · exfalso
      rw [h g (by rw [hgs]; simp)] at h3
      cases h3

theorem findBestMatch_some_iff (v : TermVector) (gs : List GroupData) (id : Nat) :
    (findBestMatch v gs).1 = some id ↔
      ∃ l1 g l2, gs = l1 ++ g :: l2 ∧ g.groupId = id ∧
        (calculateSimilarity v g.vector).gt SIMILARITY_THRESHOLD = true ∧
        (∀ x ∈ l1, calculateSimilarity v x.vector = JSNum.nan ∨
          (calculateSimilarity v g.vector).gt (calculateSimilarity v x.vector) = true) ∧
        (∀ x ∈ l2,
          (calculateSimilarity v x.vector).gt (calculateSimilarity v g.vector) = false) := by
  constructor
  · intro h
    unfold findBestMatch at h
    rcases foldl_bestMatchStep_inv v gs with ⟨h1, _, _⟩ | ⟨l1, g, l2, hgs, h1, _, h3, h4, h5⟩
    · rw [h] at h1
      cases h1
    · rw [h] at h1
      exact ⟨l1, g, l2, hgs, (Option.some.inj h1).symm, h3, h4, h5⟩
  · rintro ⟨l1, g, l2, hgs, hid, h3, h4, h5⟩
    rw [hgs, findBestMatch_of_first_max v l1 l2 g h3 h4 h5, hid]

theorem assignStep_of_none (host : HostOutcomes) (gs : List GroupData) (st : SweepState)
    (i : Nat) (entry : TabEntry) (h : (findBestMatch entry.vector gs).1 = none) :
    assignStep host gs st i entry = st := by
  unfold assignStep
  rw [h]
  simp

theorem assignStep_of_reject (host : HostOutcomes) (gs : List GroupData) (st : SweepState)
    (i : Nat) (entry : TabEntry) (h : host.assignOk i = false) :
    assignStep host gs st i entry = st := by
  unfold assignStep
  rw [h]
  by_cases hp : entry.tabId ∈ st.processedIds
  · simp [hp]
  · cases (findBestMatch entry.vector gs).1 <;> simp [hp]

theorem assignStep_of_some (host : HostOutcomes) (gs : List GroupData) (st : SweepState)
    (i : Nat) (entry : TabEntry) (id : Nat) (hp : entry.tabId ∉ st.processedIds)
    (h : (findBestMatch entry.vector gs).1 = some id) (hok : host.assignOk i = true) :
    (assignStep host gs st i entry).processedIds = st.processedIds ++ [entry.tabId] ∧
    (assignStep host gs st i entry).tabsAddedToExisting = st.tabsAddedToExisting + 1 ∧
    Mutation.assigned entry.tabId id ∈ (assignStep host gs st i entry).mutations := by
  unfold assignStep
  rw [h]
  by_cases hs : host.assignStoreOk i = true
  · simp [hp, hok, hs]
  · simp [hp, hok, hs]

/-! ## Theorems: the assignment pass -/

/-- C8 fails in its last clause: the tab vector `{alpha: 5, "https:": 1.5}` has similarity
0.9999999999999999, not 1, with a group whose vector is the same; and when a second group holds
three such tabs, with vector `{alpha: 15, "https:": 4.5}` and similarity exactly 1, the tab goes
to the second group. -/
theorem assignment_rule_counterexample :
    calculateSimilarity [("alpha", 5), ("https:", 1.5)] [("alpha", 5), ("https:", 1.5)] =
      JSNum.fin (1 - 1 / 2 ^ 53) ∧
    calculateSimilarity [("alpha", 5), ("https:", 1.5)] [("alpha", 5), ("https:", 1.5)] ≠ 1 ∧
    findBestMatch [("alpha", 5), ("https:", 1.5)]
      [⟨7, [("alpha", 5), ("https:", 1.5)]⟩, ⟨8, [("alpha", 15), ("https:", 4.5)]⟩] =
      (some 8, 1) := by
  decide!

/-- C8, amended: in the assignment pass a tab gets a group if and only if some group vector has
a computed similarity above 0.25 with the tab's vector; the group chosen is the first one, in
iteration order, whose similarity is the highest: every group before it has a lower similarity
or `NaN`, and no group after it has a higher one.  The pass then issues the assignment for that
group and records the tab, and does nothing when no group is chosen.  A tab whose vector equals
the vector of some group, with a squared magnitude between `2 ^ (-1000)` and `2 ^ 1000`, has a
similarity within `2 ^ (-50)` of 1 with that group and gets a group; with `{dog: 5}` on both
sides the similarity is exactly 1. -/
theorem assignment_rule (v : TermVector) (gs : List GroupData) :
    ((findBestMatch v gs).1 ≠ none ↔
      ∃ x ∈ gs, (calculateSimilarity v x.vector).gt (JSNum.fin (1 / 4)) = true) ∧
    (∀ id, (findBestMatch v gs).1 = some id ↔
      ∃ l1 g l2, gs = l1 ++ g :: l2 ∧ g.groupId = id ∧
        (calculateSimilarity v g.vector).gt (JSNum.fin (1 / 4)) = true ∧
        (∀ x ∈ l1, calculateSimilarity v x.vector = JSNum.nan ∨
          (calculateSimilarity v g.vector).gt (calculateSimilarity v x.vector) = true) ∧
        (∀ x ∈ l2,
          (calculateSimilarity v x.vector).gt (calculateSimilarity v g.vector) = false)) ∧
    (∀ (host : HostOutcomes) (st : SweepState) (i tabId : Nat), tabId ∉ st.processedIds →
      ((findBestMatch v gs).1 = none → assignStep host gs st i ⟨tabId, v⟩ = st) ∧
      (host.assignOk i = false → assignStep host gs st i ⟨tabId, v⟩ = st) ∧
      (∀ id, (findBestMatch v gs).1 = some id → host.assignOk i = true →
        (assignStep host gs st i ⟨tabId, v⟩).processedIds = st.processedIds ++ [tabId] ∧
        (assignStep host gs st i ⟨tabId, v⟩).tabsAddedToExisting =
          st.tabsAddedToExisting + 1 ∧
        Mutation.assigned tabId id ∈ (assignStep host gs st i ⟨tabId, v⟩).mutations)) ∧
    (∀ g ∈ gs, g.vector = v → ∀ q, (similaritySums v v).magnitude1 = JSNum.fin q →
      pow2 (-1000) ≤ q → q ≤ pow2 1000 →
      (∃ r, calculateSimilarity v g.vector = JSNum.fin r ∧
        1 - 1 / 2 ^ 50 ≤ r ∧ r ≤ 1 + 1 / 2 ^ 50) ∧
      (findBestMatch v gs).1 ≠ none) ∧
    (∀ gid, calculateSimilarity [("dog", 5)] [("dog", 5)] = 1 ∧
      (findBestMatch [("dog", 5)] [⟨gid, [("dog", 5)]⟩]).1 = some gid) := by
  have hnone : (findBestMatch v gs).1 ≠ none ↔
      ∃ x ∈ gs, (calculateSimilarity v x.vector).gt (JSNum.fin (1 / 4)) = true := by
    rw [Ne, findBestMatch_none_iff]
    constructor
    · intro hne
      by_contra hcon
      apply hne
      intro x hx
      cases hgt : (calculateSimilarity v x.vector).gt SIMILARITY_THRESHOLD with
      | false => rfl
      | true => exact absurd ⟨x, hx, hgt⟩ hcon
    · rintro ⟨x, hx, h⟩ hall
      have hf := hall x hx
      rw [show SIMILARITY_THRESHOLD = JSNum.fin (1 / 4) from rfl, h] at hf
      cases hf
  refine ⟨hnone, ?_, ?_, ?_, ?_⟩
  · intro id
    exact findBestMatch_some_iff v gs id
  · intro host st i tabId hp
    refine ⟨?_, ?_, ?_⟩
    · intro h
      exact assignStep_of_none host gs st i ⟨tabId, v⟩ h
    · intro h
      exact assignStep_of_reject host gs st i ⟨tabId, v⟩ h
    · intro id h hok
      exact assignStep_of_some host gs st i ⟨tabId, v⟩ id hp h hok
  · intro g hg hgv q hM hlo hhi
    obtain ⟨r, hr, hr1, hr2⟩ := (self_similarity_bound v q hM).2 hlo hhi
    rw [hgv]
    refine ⟨⟨r, hr, hr1, hr2⟩, ?_⟩
    rw [hnone]
    refine ⟨g, hg, ?_⟩
    rw [hgv, hr]
    show decide ((1 : ℚ) / 4 < r) = true
    rw [decide_eq_true_eq]
    have : (1 : ℚ) / 4 < 1 - 1 / 2 ^ 50 := by norm_num
    linarith
  · intro gid
    have h1 : calculateSimilarity [("dog", 5)] [("dog", 5)] = 1 := by decide!
    refine ⟨h1, ?_⟩
    rw [findBestMatch_some_iff]
    refine ⟨[], ⟨gid, [("dog", 5)]⟩, [], rfl, rfl, ?_, ?_, ?_⟩
    · rw [h1]
      decide!
    · intro x hx
      cases hx
    · intro x hx
      cases hx

/-- C8 amended, at the tab vector `{dog: 5}` and one group with vector `{dog: 5}`: the
similarity is 1, the group is chosen, and the sweep adds one tab to an existing group.  At the
tab vector `{p: 1, q: 1.5}` and a group with vector
`{p: 6.5, k0: 12.5, k1: 3, k2: 0.5, k3: 0.5}` the computed similarity is 0.25000000000000006
and the group is chosen. -/
theorem assignment_rule_witness :
    ((∃ r, calculateSimilarity [("dog", 5)] [("dog", 5)] = JSNum.fin r ∧
        1 - 1 / 2 ^ 50 ≤ r ∧ r ≤ 1 + 1 / 2 ^ 50) ∧
      (findBestMatch [("dog", 5)] [⟨7, [("dog", 5)]⟩]).1 ≠ none) ∧
    findBestMatch [("dog", 5)] [⟨7, [("dog", 5)]⟩] = (some 7, 1) ∧
    (tidySweep exampleEnv okHost none [⟨7, [("dog", 5)]⟩] [⟨1, [("dog", 5)]⟩]
      none).tabsAddedToExisting = 1 ∧
    findBestMatch [("p", 1), ("q", 1.5)]
      [⟨7, [("p", 6.5), ("k0", 12.5), ("k1", 3), ("k2", 0.5), ("k3", 0.5)]⟩] =
      (some 7, JSNum.fin (1 / 4 + 1 / 2 ^ 54)) :=
  ⟨(assignment_rule [("dog", 5)] [⟨7, [("dog", 5)]⟩]).2.2.2.1 ⟨7, [("dog", 5)]⟩
      (List.mem_singleton.mpr rfl) rfl 25 (by decide!) (by decide!) (by decide!),
    by decide!, by decide!, by decide!⟩

/-! ## Lemmas: invariants of the sweep -/

/-- A property kept by every iteration of STEP 1 holds after the loop. -/
theorem assignLoop_preserves (host : HostOutcomes) (gs : List GroupData)
    (P : SweepState → Prop)
    (hstep : ∀ st i entry, P st → P (assignStep host gs st i entry)) :
    ∀ (l : List TabEntry) (i : Nat) (st : SweepState), P st → P (assignLoop host gs i l st) := by
  intro l
  induction l with
  | nil => intro i st h; exact h
  | cons a l ih =>
    intro i st h
    unfold assignLoop
    exact ih (i + 1) _ (hstep st i a h)

/-- A property kept by every iteration of STEP 2 holds after the loop. -/
theorem clusterLoop_preserves (env : ScanEnv) (host : HostOutcomes) (m : ℚ)
    (P : SweepState → Prop)
    (hstep : ∀ st i entry rest, P st → P (clusterStep env host m st i entry rest)) :
    ∀ (l : List TabEntry) (i : Nat) (st : SweepState),
      P st → P (clusterLoop env host m i l st) := by
  intro l
  induction l with
  | nil => intro i st h; exact h
  | cons a l ih =>
    intro i st h
    unfold clusterLoop
    exact ih (i + 1) _ (hstep st i a l h)

/-- A property of the initial state kept by every iteration of both loops holds after the
sweep. -/
theorem tidySweep_preserves (env : ScanEnv) (host : HostOutcomes) (setting : Option ℚ)
    (gs : List GroupData) (tabData : List TabEntry) (la : Option LastAction)
    (P : SweepState → Prop) (h0 : P (SweepState.init la))
    (h1 : ∀ st i entry, P st → P (assignStep host gs st i entry))
    (h2 : ∀ st i entry rest,
      P st → P (clusterStep env host (minGroupSizeOf setting) st i entry rest)) :
    P (tidySweep env host setting gs tabData la) := by
  unfold tidySweep
  apply clusterLoop_preserves env host _ P h2
  exact assignLoop_preserves host gs P h1 _ _ _ h0

theorem SizeInv_init (m : ℚ) (la : Option LastAction) : SizeInv m la (SweepState.init la) := by
  refine ⟨?_, ?_, ?_, Or.inl rfl⟩
  · intro ids gid h; cases h
  · intro ids name gid h; cases h
  · intro c h; cases h

theorem SizeInv_assignStep (m : ℚ) (la : Option LastAction) (host : HostOutcomes)
    (gs : List GroupData) (st : SweepState) (i : Nat) (entry : TabEntry)
    (h : SizeInv m la st) : SizeInv m la (assignStep host gs st i entry) := by
  obtain ⟨h1, h2, h3, h4⟩ := h
  unfold assignStep
  by_cases hp : entry.tabId ∈ st.processedIds
  · simp only [hp, if_true]
    exact ⟨h1, h2, h3, h4⟩
  · simp only [hp, if_false]
    cases hb : (findBestMatch entry.vector gs).1 with
    | none => exact ⟨h1, h2, h3, h4⟩
    | some b =>
      simp only
      by_cases hok : host.assignOk i = true
      · simp only [hok, if_true]
        by_cases hs : host.assignStoreOk i = true
        · simp only [hs, if_true]
          refine ⟨?_, ?_, h3, ?_⟩
          · intro ids gid hm
            simp at hm
            exact h1 ids gid hm
          · intro ids name gid hm
            simp at hm
            exact h2 ids name gid hm
          · right
            exact ⟨_, rfl, by simp⟩
        · simp only [hs]
          refine ⟨?_, ?_, h3, ?_⟩
          · intro ids gid hm
            simp at hm
            exact h1 ids gid hm
          · intro ids name gid hm
            simp at hm
            exact h2 ids name gid hm
          · rcases h4 with h4 | ⟨a, ha, hm⟩
            · exact Or.inl h4
            · exact Or.inr ⟨a, ha, List.mem_append_left _ hm⟩
      · simp only [hok]
        exact ⟨h1, h2, h3, h4⟩

theorem SizeInv_clusterStep (m : ℚ) (la : Option LastAction) (env : ScanEnv)
    (host : HostOutcomes) (st : SweepState) (i : Nat) (entry : TabEntry)
    (rest : List TabEntry) (h : SizeInv m la st) :
    SizeInv m la (clusterStep env host m st i entry rest) := by
  obtain ⟨h1, h2, h3, h4⟩ := h
  unfold clusterStep
  by_cases hp : entry.tabId ∈ st.processedIds
  · simp only [hp, if_true]
    exact ⟨h1, h2, h3, h4⟩
  · simp only [hp, if_false]
    have hskip : ∀ c ∈ st.clusters ++
        [(⟨i, (buildCluster st.processedIds entry rest).1,
          (buildCluster st.processedIds entry rest).2, false⟩ : ClusterRecord)],
        c.materialized = true → m ≤ (c.cluster.length : ℚ) := by
      intro c hc hmat
      rcases List.mem_append.mp hc with hc | hc
      · exact h3 c hc hmat
      · rw [List.mem_singleton] at hc
        rw [hc] at hmat
        cases hmat
    by_cases hsize : m ≤ ((buildCluster st.processedIds entry rest).1.length : ℚ)
    · simp only [hsize, if_true]
      cases hc : host.createGroup i with
      | none => exact ⟨h1, h2, hskip, h4⟩
      | some newGroupId =>
        simp only
        by_cases hu : host.updateOk i = true
        · simp only [hu, if_true]
          have hmat : ∀ c ∈ st.clusters ++
              [(⟨i, (buildCluster st.processedIds entry rest).1,
                (buildCluster st.processedIds entry rest).2, true⟩ : ClusterRecord)],
              c.materialized = true → m ≤ (c.cluster.length : ℚ) := by
            intro c hc hmat
            rcases List.mem_append.mp hc with hc | hc
            · exact h3 c hc hmat
            · rw [List.mem_singleton] at hc
              rw [hc]
              exact hsize
          by_cases hs : host.createStoreOk i = true
          · simp only [hs, if_true]
            refine ⟨?_, ?_, hmat, ?_⟩
            · intro ids gid hm
              simp at hm
              rcases hm with hm | ⟨rfl, _⟩
              · exact h1 ids gid hm
              · exact hsize
            · intro ids name gid hm
              simp at hm
              rcases hm with hm | ⟨rfl, _, _⟩
              · exact h2 ids name gid hm
              · exact hsize
            · right
              exact ⟨_, rfl, by simp⟩
          · simp only [hs]
            refine ⟨?_, ?_, hmat, ?_⟩
            · intro ids gid hm
              simp at hm
              rcases hm with hm | ⟨rfl, _⟩
              · exact h1 ids gid hm
              · exact hsize
            · intro ids name gid hm
              simp at hm
              exact h2 ids name gid hm
            · rcases h4 with h4 | ⟨a, ha, hm⟩
              · exact Or.inl h4
              · exact Or.inr ⟨a, ha, List.mem_append_left _ hm⟩
        · simp only [hu]
          refine ⟨?_, ?_, hskip, ?_⟩
          · intro ids gid hm
            simp at hm
            rcases hm with hm | ⟨rfl, _⟩
            · exact h1 ids gid hm
            · exact hsize
          · intro ids name gid hm
            simp at hm
            exact h2 ids name gid hm
          · rcases h4 with h4 | ⟨a, ha, hm⟩
            · exact Or.inl h4
            · exact Or.inr ⟨a, ha, List.mem_append_left _ hm⟩
    · simp only [hsize, if_false]
      exact ⟨h1, h2, hskip, h4⟩

theorem SizeInv_tidySweep (env : ScanEnv) (host : HostOutcomes) (setting : Option ℚ)
    (gs : List GroupData) (tabData : List TabEntry) (la : Option LastAction) :
    SizeInv (minGroupSizeOf setting) la (tidySweep env host setting gs tabData la) :=
  tidySweep_preserves env host setting gs tabData la _ (SizeInv_init _ la)
    (fun st i entry h => SizeInv_assignStep _ la host gs st i entry h)
    (fun st i entry rest h => SizeInv_clusterStep _ la env host st i entry rest h)

theorem lt_minGroupSizeOf (setting : Option ℚ) (k : Nat)
    (h : (k : ℚ) < minGroupSizeOf setting ∨ ∃ q, setting = some q ∧ (k : ℚ) < q) :
    (k : ℚ) < minGroupSizeOf setting := by
  rcases h with h | ⟨q, rfl, hq⟩
  · exact h
  · unfold minGroupSizeOf
    by_cases h0 : q = 0
    · have : (0 : ℚ) ≤ (k : ℚ) := Nat.cast_nonneg k
      rw [h0] at hq
      linarith
    · simp only [h0, if_false]
      exact hq

theorem foldl_scanStep_not_processed (P : List Nat) (entryA : TabEntry)
    (rest : List TabEntry) : ∀ acc : List Nat × TermVector, (∀ x ∈ acc.1, x ∉ P) →
      ∀ x ∈ (rest.foldl (scanStep P entryA) acc).1, x ∉ P := by
  induction rest with
  | nil => intro acc h; exact h
  | cons b rest ih =>
    intro acc h
    rw [List.foldl_cons]
    apply ih
    unfold scanStep
    by_cases hb : b.tabId ∈ P
    · simp only [hb, if_true]
      exact h
    · simp only [hb, if_false]
      by_cases hs : (calculateSimilarity entryA.vector b.vector).gt SIMILARITY_THRESHOLD = true
      · simp only [hs, if_true]
        intro x hx
        rcases List.mem_append.mp hx with hx | hx
        · exact h x hx
        · rw [List.mem_singleton] at hx
          rw [hx]
          exact hb
      · simp only [hs, if_false]
        exact h

/-- Every member of a cluster was outside `processedIds` when the cluster was built. -/
theorem buildCluster_not_processed (P : List Nat) (entryA : TabEntry) (rest : List TabEntry)
    (hA : entryA.tabId ∉ P) : ∀ x ∈ (buildCluster P entryA rest).1, x ∉ P := by
  unfold buildCluster
  apply foldl_scanStep_not_processed
  intro x hx
  simp only [List.mem_singleton] at hx
  rw [hx]
  exact hA

theorem ExclInv_init (la : Option LastAction) : ExclInv (SweepState.init la) := by
  refine ⟨?_, ?_⟩
  · intro c hc; cases hc
  · exact List.Pairwise.nil

theorem ExclInv_assignStep (host : HostOutcomes) (gs : List GroupData) (st : SweepState)
    (i : Nat) (entry : TabEntry) (h : ExclInv st) :
    ExclInv (assignStep host gs st i entry) := by
  obtain ⟨h1, h2⟩ := h
  unfold assignStep
  by_cases hp : entry.tabId ∈ st.processedIds
  · simp only [hp, if_true]
    exact ⟨h1, h2⟩
  · simp only [hp, if_false]
    cases hb : (findBestMatch entry.vector gs).1 with
    | none => exact ⟨h1, h2⟩
    | some b =>
      simp only
      by_cases hok : host.assignOk i = true
      · simp only [hok, if_true]
        by_cases hs : host.assignStoreOk i = true
        · simp only [hs, if_true]
          exact ⟨fun c hc hm x hx => List.mem_append_left _ (h1 c hc hm x hx), h2⟩
        · simp only [hs]
          exact ⟨fun c hc hm x hx => List.mem_append_left _ (h1 c hc hm x hx), h2⟩
      · simp only [hok]
        exact ⟨h1, h2⟩

theorem ExclInv_clusterStep (env : ScanEnv) (host : HostOutcomes) (m : ℚ) (st : SweepState)
    (i : Nat) (entry : TabEntry) (rest : List TabEntry) (h : ExclInv st) :
    ExclInv (clusterStep env host m st i entry rest) := by
  obtain ⟨h1, h2⟩ := h
  unfold clusterStep
  by_cases hp : entry.tabId ∈ st.processedIds
  · simp only [hp, if_true]
    exact ⟨h1, h2⟩
  · simp only [hp, if_false]
    have hnew := buildCluster_not_processed st.processedIds entry rest hp
    have hpair : ∀ b : Bool, (st.clusters ++
        [(⟨i, (buildCluster st.processedIds entry rest).1,
          (buildCluster st.processedIds entry rest).2, b⟩ : ClusterRecord)]).Pairwise
        (fun c1 c2 => c1.materialized = true → ∀ x ∈ c1.cluster, x ∉ c2.cluster) := by
      intro b
      rw [List.pairwise_append]
      refine ⟨h2, List.pairwise_singleton _ _, ?_⟩
      intro c1 hc1 c2 hc2 hm x hx
      rw [List.mem_singleton] at hc2
      rw [hc2]
      intro hx2
      exact hnew x hx2 (h1 c1 hc1 hm x hx)
    have hskip : ∀ c ∈ st.clusters ++
        [(⟨i, (buildCluster st.processedIds entry rest).1,
          (buildCluster st.processedIds entry rest).2, false⟩ : ClusterRecord)],
        c.materialized = true → ∀ x ∈ c.cluster, x ∈ st.processedIds := by
      intro c hc hmat
      rcases List.mem_append.mp hc with hc | hc
      · exact h1 c hc hmat
      · rw [List.mem_singleton] at hc
        rw [hc] at hmat
        cases hmat
    have hmat : ∀ c ∈ st.clusters ++
        [(⟨i, (buildCluster st.processedIds entry rest).1,
          (buildCluster st.processedIds entry rest).2, true⟩ : ClusterRecord)],
        c.materialized = true → ∀ x ∈ c.cluster,
          x ∈ st.processedIds ++ (buildCluster st.processedIds entry rest).1 := by
      intro c hc hmat x hx
      rcases List.mem_append.mp hc with hc | hc
      · exact List.mem_append_left _ (h1 c hc hmat x hx)
      · rw [List.mem_singleton] at hc
        rw [hc] at hx
        exact List.mem_append_right _ hx
    by_cases hsize : m ≤ ((buildCluster st.processedIds entry rest).1.length : ℚ)
    · simp only [hsize, if_true]
      cases hc : host.createGroup i with
      | none => exact ⟨hskip, hpair false⟩
      | some newGroupId =>
        simp only
        by_cases hu : host.updateOk i = true
        · simp only [hu, if_true]
          by_cases hs : host.createStoreOk i = true
          · simp only [hs, if_true]
            exact ⟨hmat, hpair true⟩
          · simp only [hs]
            exact ⟨hmat, hpair true⟩
        · simp only [hu]
          exact ⟨hskip, hpair false⟩
    · simp only [hsize, if_false]
      exact ⟨hskip, hpair false⟩

theorem ExclInv_tidySweep (env : ScanEnv) (host : HostOutcomes) (setting : Option ℚ)
    (gs : List GroupData) (tabData : List TabEntry) (la : Option LastAction) :
    ExclInv (tidySweep env host setting gs tabData la) :=
  tidySweep_preserves env host setting gs tabData la _ (ExclInv_init la)
    (fun st i entry h => ExclInv_assignStep host gs st i entry h)
    (fun st i entry rest h => ExclInv_clusterStep env host _ st i entry rest h)

/-! ## Theorems: the clustering pass -/

/-- C9: a cluster built by the clustering pass with fewer members than the minimum group size
is never materialized: no group is made from it, no `group_created` record is stored for it,
and the `lastAction` slot holds such a record only if it did before the sweep. -/
theorem small_cluster_never_grouped (env : ScanEnv) (host : HostOutcomes)
    (setting : Option ℚ) (gs : List GroupData) (tabData : List TabEntry)
    (la : Option LastAction) (c : ClusterRecord)
    (hc : c ∈ (tidySweep env host setting gs tabData la).clusters)
    (hk : (c.cluster.length : ℚ) < minGroupSizeOf setting ∨
      ∃ q, setting = some q ∧ (c.cluster.length : ℚ) < q) :
    c.materialized = false ∧
    (∀ gid, Mutation.grouped c.cluster gid ∉
      (tidySweep env host setting gs tabData la).mutations) ∧
    (∀ name gid, Mutation.stored (LastAction.groupCreated c.cluster name gid) ∉
      (tidySweep env host setting gs tabData la).mutations) ∧
    (∀ name gid, (tidySweep env host setting gs tabData la).lastAction =
      some (LastAction.groupCreated c.cluster name gid) →
      la = some (LastAction.groupCreated c.cluster name gid)) := by
  have hlt := lt_minGroupSizeOf setting c.cluster.length hk
  obtain ⟨h1, h2, h3, h4⟩ := SizeInv_tidySweep env host setting gs tabData la
  refine ⟨?_, ?_, ?_, ?_⟩
  · cases hm : c.materialized with
    | false => rfl
    | true =>
      have := h3 c hc hm
      linarith
  · intro gid hmem
    have := h1 _ _ hmem
    linarith
  · intro name gid hmem
    have := h2 _ _ _ hmem
    linarith
  · intro name gid hla
    rcases h4 with h4 | ⟨a, ha, hmem⟩
    · rw [← h4, hla]
    · rw [hla] at ha
      have ha2 := Option.some.inj ha
      rw [← ha2] at hmem
      have := h2 _ _ _ hmem
      linarith

/-- C9, at two tabs with the vector `{alpha: 5}` and the setting `minGroupSize = 3`: the cluster
of the two tabs is built and no group is made from it. -/
theorem small_cluster_never_grouped_witness :
    (⟨0, [1, 2], [("alpha", 5)], false⟩ : ClusterRecord) ∈
      (tidySweep exampleEnv okHost (some 3) [] [⟨1, [("alpha", 5)]⟩, ⟨2, [("alpha", 5)]⟩]
        none).clusters ∧
    ((2 : ℕ) : ℚ) < minGroupSizeOf (some 3) ∧
    ∀ gid, Mutation.grouped [1, 2] gid ∉
      (tidySweep exampleEnv okHost (some 3) [] [⟨1, [("alpha", 5)]⟩, ⟨2, [("alpha", 5)]⟩]
        none).mutations :=
  ⟨by decide!, by decide!,
    (small_cluster_never_grouped exampleEnv okHost (some 3) []
      [⟨1, [("alpha", 5)]⟩, ⟨2, [("alpha", 5)]⟩] none ⟨0, [1, 2], [("alpha", 5)], false⟩
      (by decide!) (Or.inl (by decide!))).2.1⟩

/-- C10 fails as stated: with `minGroupSize = 3` and two tabs with the vector `{alpha: 5}`, tab 2
joins the cluster of seed 1, which is too small to be materialized, and is then the seed of a
second cluster; with the default size and a host that rejects the first group creation, the
same happens. -/
theorem cluster_membership_counterexample :
    ((tidySweep exampleEnv okHost (some 3) [] [⟨1, [("alpha", 5)]⟩, ⟨2, [("alpha", 5)]⟩]
        none).clusters.map (fun c => c.cluster) = [[1, 2], [2]]) ∧
    ((tidySweep exampleEnv { okHost with createGroup := fun i => if i = 0 then none else some 9 }
        none [] [⟨1, [("alpha", 5)]⟩, ⟨2, [("alpha", 5)]⟩]
        none).clusters.map (fun c => c.cluster) = [[1, 2], [2]]) ∧
    ¬ ((tidySweep exampleEnv okHost (some 3) [] [⟨1, [("alpha", 5)]⟩, ⟨2, [("alpha", 5)]⟩]
        none).clusters.Pairwise (fun c1 c2 => ∀ x ∈ c1.cluster, x ∉ c2.cluster)) := by
  decide!

/-- C10, amended: a tab of a materialized cluster (one whose group was made and labelled, so
that its ids entered `processedIds`) is in no cluster built later in the sweep, neither as seed
nor as joined member. -/
theorem materialized_cluster_exclusive (env : ScanEnv) (host : HostOutcomes)
    (setting : Option ℚ) (gs : List GroupData) (tabData : List TabEntry)
    (la : Option LastAction) :
    (tidySweep env host setting gs tabData la).clusters.Pairwise
      (fun c1 c2 => c1.materialized = true → ∀ x ∈ c1.cluster, x ∉ c2.cluster) :=
  (ExclInv_tidySweep env host setting gs tabData la).2


/-! ## Lemmas: building a cluster -/

theorem lookup_cons_if (w k : String) (x : JSVal) (v : TermVector) :
    List.lookup w ((k, x) :: v) = if w = k then some x else v.lookup w := by
  rw [List.lookup_cons]
  by_cases h : w = k
  · simp [h]
  · have : (w == k) = false := by simpa using h
    simp [h, this]

theorem mem_of_lookup_eq_some (v : TermVector) (w : String) (x : JSVal)
    (h : v.lookup w = some x) : (w, x) ∈ v := by
  induction v with
  | nil => cases h
  | cons a v ih =>
    obtain ⟨k, y⟩ := a
    rw [lookup_cons_if] at h
    by_cases hw : w = k
    · rw [if_pos hw] at h
      cases h
      rw [hw]
      exact List.mem_cons_self _ _
    · rw [if_neg hw] at h
      exact List.mem_cons_of_mem _ (ih h)

theorem lookup_eq_none_of_not_mem (v : TermVector) (w : String) (h : w ∉ keys v) :
    v.lookup w = none := by
  induction v with
  | nil => rfl
  | cons a v ih =>
    obtain ⟨k, y⟩ := a
    rw [lookup_cons_if]
    have hk : w ≠ k := by
      intro hwk
      apply h
      rw [hwk]
      exact List.mem_cons_self _ _
    rw [if_neg hk]
    apply ih
    intro hmem
    exact h (List.mem_cons_of_mem _ hmem)

theorem lookup_ne_none_of_mem (v : TermVector) (w : String) (h : w ∈ keys v) :
    v.lookup w ≠ none := by
  induction v with
  | nil => cases h
  | cons a v ih =>
    obtain ⟨k, y⟩ := a
    rw [lookup_cons_if]
    by_cases hk : w = k
    · rw [if_pos hk]
      simp
    · rw [if_neg hk]
      apply ih
      rcases List.mem_cons.mp h with h1 | h1
      · exact absurd h1 hk
      · exact h1

/-- For a vector with positive weights that scores above the threshold against the seed, the
test `!vector[word]` on a key of the seed is false exactly when the word is a key of the
vector: a word that the vector only inherits from `Object.prototype` would have made the score
`NaN`. -/
theorem truthy_getProp_of_joined (vA vB : TermVector) (hpos : positiveWeights vB)
    (hj : (calculateSimilarity vA vB).gt SIMILARITY_THRESHOLD = true) (w : String)
    (hw : w ∈ keys vA) : (getProp vB w).truthy = decide (w ∈ keys vB) := by
  by_cases hk : w ∈ keys vB
  · rw [decide_eq_true hk]
    unfold getProp
    cases hl : vB.lookup w with
    | none => exact absurd hl (lookup_ne_none_of_mem vB w hk)
    | some x =>
      obtain ⟨q, hq, hq0⟩ := hpos (w, x) (mem_of_lookup_eq_some vB w x hl)
      simp only at hq
      simp only [hq, JSVal.truthy, JSNum.isZero]
      simp [(ne_of_gt hq0)]
  · rw [decide_eq_false hk]
    unfold getProp
    rw [lookup_eq_none_of_not_mem vB w hk]
    simp only
    split_ifs with hproto
    · exfalso
      have hnan : calculateSimilarity vA vB = JSNum.nan := by
        apply calculateSimilarity_nan_of_word vA vB w ((mem_allWords vA vB w).mpr (Or.inl hw))
        right
        unfold valueOr0 getProp
        rw [lookup_eq_none_of_not_mem vB w hk]
        simp only [if_pos hproto]
        rfl
      rw [hnan, JSNum.gt_nan_left] at hj
      cases hj
    · rfl

/-- The inner loop of STEP 2 from any pair `(cluster, sharedVectorPool)`: the joined tabs are
appended to the cluster and the pool keeps the entries whose term reads as a truthy value in
every joined vector. -/
theorem foldl_scanStep_eq (P : List Nat) (entryA : TabEntry) (rest : List TabEntry) :
    ∀ acc : List Nat × TermVector,
      rest.foldl (scanStep P entryA) acc =
        (acc.1 ++ (joinedOf P entryA rest).map TabEntry.tabId,
         acc.2.filter (fun p => (joinedOf P entryA rest).all
           (fun entryB => (getProp entryB.vector p.1).truthy))) := by
  induction rest with
  | nil => intro acc; simp [joinedOf]
  | cons b rest ih =>
    intro acc
    rw [List.foldl_cons, ih]
    unfold scanStep joinedOf
    by_cases hb : b.tabId ∈ P
    · simp [hb, List.filter_cons]
    · by_cases hs : (calculateSimilarity entryA.vector b.vector).gt SIMILARITY_THRESHOLD = true
      · simp [hb, hs, List.filter_cons, List.filter_filter, Bool.and_comm]
      · simp [hb, hs, List.filter_cons]

theorem mem_joinedOf (P : List Nat) (entryA : TabEntry) (rest : List TabEntry) (B : TabEntry) :
    B ∈ joinedOf P entryA rest ↔
      B ∈ rest ∧ B.tabId ∉ P ∧
        (calculateSimilarity entryA.vector B.vector).gt (JSNum.fin (1 / 4)) = true := by
  unfold joinedOf
  rw [List.mem_filter]
  simp only [Bool.and_eq_true, decide_eq_true_eq]
  rfl

theorem all_truthy_eq_all_mem (entryA : TabEntry) (joined : List TabEntry)
    (hpos : ∀ B ∈ joined, positiveWeights B.vector)
    (hj : ∀ B ∈ joined,
      (calculateSimilarity entryA.vector B.vector).gt SIMILARITY_THRESHOLD = true)
    (w : String) (hw : w ∈ keys entryA.vector) :
    joined.all (fun entryB => (getProp entryB.vector w).truthy) =
      joined.all (fun entryB => decide (w ∈ keys entryB.vector)) := by
  induction joined with
  | nil => rfl
  | cons b joined ih =>
    simp only [List.all_cons]
    rw [ih (fun B hB => hpos B (List.mem_cons_of_mem _ hB))
      (fun B hB => hj B (List.mem_cons_of_mem _ hB))]
    rw [truthy_getProp_of_joined entryA.vector b.vector (hpos b (List.mem_cons_self _ _))
      (hj b (List.mem_cons_self _ _)) w hw]

/-- The pair built by the inner loop, for vectors with positive weights. -/
theorem buildCluster_eq (P : List Nat) (entryA : TabEntry) (rest : List TabEntry)
    (hpos : ∀ B ∈ rest, positiveWeights B.vector) :
    buildCluster P entryA rest =
      (entryA.tabId :: (joinedOf P entryA rest).map TabEntry.tabId,
       sharedTermsOf entryA (joinedOf P entryA rest)) := by
  unfold buildCluster sharedTermsOf
  rw [foldl_scanStep_eq]
  simp only [List.singleton_append, Prod.mk.injEq, true_and]
  apply List.filter_congr
  intro p hp
  apply all_truthy_eq_all_mem
  · intro B hB
    exact hpos B ((mem_joinedOf P entryA rest B).mp hB).1
  · intro B hB
    exact ((mem_joinedOf P entryA rest B).mp hB).2.2
  · exact List.mem_map_of_mem Prod.fst hp

theorem lookup_filter_key (v : TermVector) (f : String → Bool) (w : String) (hw : f w = true) :
    (v.filter (fun p => f p.1)).lookup w = v.lookup w := by
  induction v with
  | nil => rfl
  | cons a v ih =>
    obtain ⟨k, x⟩ := a
    by_cases hk : f k = true
    · rw [List.filter_cons_of_pos (by simpa using hk), lookup_cons_if, lookup_cons_if, ih]
    · rw [List.filter_cons_of_neg (by simpa using hk), lookup_cons_if, ih]
      have : ¬ (w = k) := by
        rintro rfl
        exact hk hw
      rw [if_neg this]

theorem mem_keys_sharedTermsOf (entryA : TabEntry) (joined : List TabEntry) (w : String) :
    w ∈ keys (sharedTermsOf entryA joined) ↔
      w ∈ keys entryA.vector ∧ ∀ B ∈ joined, w ∈ keys B.vector := by
  unfold sharedTermsOf keys
  simp only [List.mem_map, List.mem_filter, List.all_eq_true, decide_eq_true_eq]
  constructor
  · rintro ⟨p, ⟨hp, hall⟩, rfl⟩
    exact ⟨⟨p, hp, rfl⟩, hall⟩
  · rintro ⟨⟨p, hp, rfl⟩, hall⟩
    exact ⟨p, ⟨hp, hall⟩, rfl⟩

theorem clusterStep_clusters (env : ScanEnv) (host : HostOutcomes) (m : ℚ) (st : SweepState)
    (i : Nat) (entryA : TabEntry) (rest : List TabEntry)
    (hA : entryA.tabId ∉ st.processedIds) :
    ∃ b, (clusterStep env host m st i entryA rest).clusters = st.clusters ++
      [⟨i, (buildCluster st.processedIds entryA rest).1,
        (buildCluster st.processedIds entryA rest).2, b⟩] := by
  unfold clusterStep
  simp only [hA, if_false]
  by_cases hsize : m ≤ ((buildCluster st.processedIds entryA rest).1.length : ℚ)
  · simp only [hsize, if_true]
    cases hc : host.createGroup i with
    | none => exact ⟨false, rfl⟩
    | some g =>
      simp only
      by_cases hu : host.updateOk i = true
      · simp only [hu, if_true]
        by_cases hs : host.createStoreOk i = true
        · simp only [hs, if_true]
          exact ⟨true, rfl⟩
        · simp only [hs]
          exact ⟨true, rfl⟩
      · simp only [hu]
        exact ⟨false, rfl⟩
  · simp only [hsize, if_false]
    exact ⟨false, rfl⟩

/-! ## Theorems: clusters, pools and labels -/

/-- C11: for vectors with positive weights, the cluster that STEP 2 builds from the seed `A` has,
behind `A`, exactly the tabs after `A` in order that are not yet processed and have a computed
`calculateSimilarity(A, B) > 0.25`; the keys of its shared vector pool are exactly the terms
that are in the vector of every member, and each carries the weight it has in the vector of
`A`. -/
theorem cluster_members_and_pool (env : ScanEnv) (host : HostOutcomes) (m : ℚ)
    (st : SweepState) (i : Nat) (entryA : TabEntry) (rest : List TabEntry)
    (hA : entryA.tabId ∉ st.processedIds)
    (hpos : ∀ B ∈ rest, positiveWeights B.vector) :
    (∃ b, (clusterStep env host m st i entryA rest).clusters = st.clusters ++
      [⟨i, entryA.tabId :: (joinedOf st.processedIds entryA rest).map TabEntry.tabId,
        sharedTermsOf entryA (joinedOf st.processedIds entryA rest), b⟩]) ∧
    (∀ B, B ∈ joinedOf st.processedIds entryA rest ↔
      B ∈ rest ∧ B.tabId ∉ st.processedIds ∧
        (calculateSimilarity entryA.vector B.vector).gt (JSNum.fin (1 / 4)) = true) ∧
    (joinedOf st.processedIds entryA rest).Sublist rest ∧
    (∀ w, w ∈ keys (sharedTermsOf entryA (joinedOf st.processedIds entryA rest)) ↔
      w ∈ keys entryA.vector ∧
        ∀ B ∈ joinedOf st.processedIds entryA rest, w ∈ keys B.vector) ∧
    (∀ w ∈ keys (sharedTermsOf entryA (joinedOf st.processedIds entryA rest)),
      (sharedTermsOf entryA (joinedOf st.processedIds entryA rest)).lookup w =
        entryA.vector.lookup w) := by
  refine ⟨?_, mem_joinedOf _ _ _, List.filter_sublist _, mem_keys_sharedTermsOf _ _, ?_⟩
  · obtain ⟨b, hb⟩ := clusterStep_clusters env host m st i entryA rest hA
    rw [buildCluster_eq st.processedIds entryA rest hpos] at hb
    exact ⟨b, hb⟩
  · intro w hw
    have hall := ((mem_keys_sharedTermsOf _ _ w).mp hw).2
    unfold sharedTermsOf
    apply lookup_filter_key entryA.vector
      (fun k => (joinedOf st.processedIds entryA rest).all
        (fun entryB => decide (k ∈ keys entryB.vector)))
    simp only [List.all_eq_true, decide_eq_true_eq]
    exact hall

/-- C11, at the seed `{kubernetes: 5, alpha: 5}` followed by `{kubernetes: 5, beta: 5}` and
`{gamma: 5}`: the second tab joins, the third does not, and the pool is `{kubernetes: 5}`.  At
the seed `{p: 1, q: 1.5}` followed by `{p: 6.5, k0: 12.5, k1: 3, k2: 0.5, k3: 0.5}` the computed
similarity is 0.25000000000000006 and the tab joins. -/
theorem cluster_members_and_pool_witness :
    (1 ∉ (SweepState.init none).processedIds ∧
      ∀ B ∈ [(⟨2, [("kubernetes", 5), ("beta", 5)]⟩ : TabEntry), ⟨3, [("gamma", 5)]⟩],
        positiveWeights B.vector) ∧
    (∃ b, (clusterStep exampleEnv okHost 2 (SweepState.init none) 0
        ⟨1, [("kubernetes", 5), ("alpha", 5)]⟩
        [⟨2, [("kubernetes", 5), ("beta", 5)]⟩, ⟨3, [("gamma", 5)]⟩]).clusters =
      (SweepState.init none).clusters ++
        [⟨0, 1 :: (joinedOf (SweepState.init none).processedIds
            ⟨1, [("kubernetes", 5), ("alpha", 5)]⟩
            [⟨2, [("kubernetes", 5), ("beta", 5)]⟩, ⟨3, [("gamma", 5)]⟩]).map TabEntry.tabId,
          sharedTermsOf ⟨1, [("kubernetes", 5), ("alpha", 5)]⟩
            (joinedOf (SweepState.init none).processedIds
              ⟨1, [("kubernetes", 5), ("alpha", 5)]⟩
              [⟨2, [("kubernetes", 5), ("beta", 5)]⟩, ⟨3, [("gamma", 5)]⟩]), b⟩]) ∧
    (clusterStep exampleEnv okHost 2 (SweepState.init none) 0
        ⟨1, [("kubernetes", 5), ("alpha", 5)]⟩
        [⟨2, [("kubernetes", 5), ("beta", 5)]⟩, ⟨3, [("gamma", 5)]⟩]).clusters =
      [⟨0, [1, 2], [("kubernetes", 5)], true⟩] ∧
    calculateSimilarity [("p", 1), ("q", 1.5)]
      [("p", 6.5), ("k0", 12.5), ("k1", 3), ("k2", 0.5), ("k3", 0.5)] =
      JSNum.fin (1 / 4 + 1 / 2 ^ 54) ∧
    (buildCluster [] ⟨1, [("p", 1), ("q", 1.5)]⟩
      [⟨2, [("p", 6.5), ("k0", 12.5), ("k1", 3), ("k2", 0.5), ("k3", 0.5)]⟩]) =
      ([1, 2], [("p", 1)]) :=
  have hpos : ∀ B ∈ [(⟨2, [("kubernetes", 5), ("beta", 5)]⟩ : TabEntry), ⟨3, [("gamma", 5)]⟩],
      positiveWeights B.vector := by
    intro B hB p hp
    simp only [List.mem_cons, List.mem_singleton, List.not_mem_nil, or_false] at hB
    rcases hB with rfl | rfl
    · simp only [List.mem_cons, List.mem_singleton, List.not_mem_nil, or_false] at hp
      rcases hp with rfl | rfl
      · exact ⟨5, rfl, by norm_num⟩
      · exact ⟨5, rfl, by norm_num⟩
    · simp only [List.mem_singleton] at hp
      rw [hp]
      exact ⟨5, rfl, by norm_num⟩
  ⟨⟨by decide, hpos⟩,
    (cluster_members_and_pool exampleEnv okHost 2 (SweepState.init none) 0
      ⟨1, [("kubernetes", 5), ("alpha", 5)]⟩
      [⟨2, [("kubernetes", 5), ("beta", 5)]⟩, ⟨3, [("gamma", 5)]⟩]
      (by decide) hpos).1,
    by decide!, by decide!, by decide!⟩

/-! ## Lemmas: the label -/

theorem head?_orderedInsert (r : String → String → Prop) [DecidableRel r] (a : String)
    (l : List String) :
    (l.orderedInsert r a).head? =
      match l.head? with
      | none => some a
      | some b => if r a b then some a else some b := by
  cases l with
  | nil => rfl
  | cons b l =>
    simp only [List.orderedInsert, List.head?_cons]
    by_cases h : r a b
    · simp [h]
    · simp [h]

theorem ne_nan_of_isDouble (x : JSNum) (h : isDouble x) : x ≠ JSNum.nan := by
  intro hx
  rw [hx] at h
  exact h

/-- The head of the stable sort under the comparator `f(b) - f(a)` is the first element, in the
original order, whose key `f` is the highest. -/
theorem head?_insertionSort_first_max (f : String → JSNum) (l : List String)
    (hf : ∀ u ∈ l, isDouble (f u)) :
    (l = [] ∧ (l.insertionSort (fun a b => ((f b).sub (f a)).gt 0 = false)).head? = none) ∨
    (∃ l1 t l2, l = l1 ++ t :: l2 ∧
      (l.insertionSort (fun a b => ((f b).sub (f a)).gt 0 = false)).head? = some t ∧
      (∀ u ∈ l1, (f t).gt (f u) = true) ∧ (∀ u ∈ l2, (f u).gt (f t) = false)) := by
  induction l with
  | nil => left; exact ⟨rfl, rfl⟩
  | cons a l ih =>
    right
    rw [List.insertionSort, head?_orderedInsert]
    have hfa := hf a (List.mem_cons_self _ _)
    rcases ih (fun u hu => hf u (List.mem_cons_of_mem _ hu)) with
      ⟨hl, hh⟩ | ⟨l1, t, l2, hl, hh, h1, h2⟩
    · rw [hh, hl]
      refine ⟨[], a, [], rfl, rfl, ?_, ?_⟩
      · intro u hu; cases hu
      · intro u hu; cases hu
    · rw [hh]
      have hft : isDouble (f t) := hf t (List.mem_cons_of_mem _ (by rw [hl]; simp))
      have hsub : ((f t).sub (f a)).gt 0 = (f t).gt (f a) := sub_gt_zero_iff _ _ hft hfa
      cases hta : (f t).gt (f a) with
      | false =>
        refine ⟨[], a, l, rfl, ?_, ?_, ?_⟩
        · simp only [hsub, hta, if_true]
        · intro u hu; cases hu
        · intro u hu
          rw [hl] at hu
          cases hua : (f u).gt (f a) with
          | false => rfl
          | true =>
            exfalso
            have hut : (f u).gt (f t) = true :=
              JSNum.gt_of_gt_of_not_gt _ _ _ hua hta (ne_nan_of_isDouble _ hft)
            rcases List.mem_append.mp hu with hu | hu
            · have := JSNum.gt_trans _ _ _ (h1 u hu) hut
              rw [JSNum.gt_irrefl] at this
              cases this
            · rcases List.mem_cons.mp hu with hu | hu
              · rw [hu, JSNum.gt_irrefl] at hut
                cases hut
              · rw [h2 u hu] at hut
                cases hut
      | true =>
        refine ⟨a :: l1, t, l2, ?_, ?_, ?_, h2⟩
        · rw [hl]; rfl
        · simp only [hsub, hta, Bool.true_eq_false, if_false]
        · intro u hu
          rcases List.mem_cons.mp hu with hu | hu
          · rw [hu]; exact hta
          · exact h1 u hu

theorem mem_candidates (pool : TermVector) (w : String) :
    w ∈ (keys pool).filter (fun word => !STOP_WORDS.contains word) ↔
      w ∈ keys pool ∧ w ∉ STOP_WORDS := by
  simp [List.mem_filter]

theorem bestLabelOf_eq_none (pool : TermVector) (h : ∀ w ∈ keys pool, w ∈ STOP_WORDS) :
    bestLabelOf pool = none := by
  unfold bestLabelOf
  have hnil : (keys pool).filter (fun word => !STOP_WORDS.contains word) = [] := by
    rw [List.filter_eq_nil_iff]
    intro w hw
    simpa using h w hw
  rw [hnil]
  rfl

/-- The product `sharedVectorPool[word] * word.length` of a finite weight is a rounded
number. -/
theorem isDouble_labelWeight (pool : TermVector) (hnum : finiteWeights pool) (w : String)
    (hw : w ∈ keys pool) : isDouble (labelWeight pool w) := by
  unfold labelWeight getProp
  cases hl : pool.lookup w with
  | none => exact absurd hl (lookup_ne_none_of_mem pool w hw)
  | some x =>
    obtain ⟨q, hq⟩ := hnum (w, x) (mem_of_lookup_eq_some pool w x hl)
    simp only at hq
    rw [hq]
    exact isDouble_roundToDouble _

theorem bestLabelOf_first_max (pool : TermVector) (hnum : finiteWeights pool)
    (h : ∃ w ∈ keys pool, w ∉ STOP_WORDS) :
    ∃ l1 t l2, (keys pool).filter (fun word => !STOP_WORDS.contains word) = l1 ++ t :: l2 ∧
      bestLabelOf pool = some t ∧
      (∀ u ∈ l1, (labelWeight pool t).gt (labelWeight pool u) = true) ∧
      (∀ u ∈ l2, (labelWeight pool u).gt (labelWeight pool t) = false) := by
  unfold bestLabelOf
  have hf : ∀ u ∈ (keys pool).filter (fun word => !STOP_WORDS.contains word),
      isDouble (labelWeight pool u) := by
    intro u hu
    exact isDouble_labelWeight pool hnum u ((mem_candidates pool u).mp hu).1
  rcases head?_insertionSort_first_max (labelWeight pool)
    ((keys pool).filter (fun word => !STOP_WORDS.contains word)) hf with ⟨hl, _⟩ | hx
  · exfalso
    obtain ⟨w, hw, hs⟩ := h
    have : w ∈ (keys pool).filter (fun word => !STOP_WORDS.contains word) :=
      (mem_candidates pool w).mpr ⟨hw, hs⟩
    rw [hl] at this
    cases this
  · exact hx

/-! ## Theorems: the label -/

/-- C12: the label of a shared vector pool with finite weights.  When the pool has no term
outside the stop words the label is "Research".  Otherwise the chosen term `t` is a term of the
pool outside the stop words whose product `weight * length` no other such term exceeds, and the
first such term in key order: the product of every candidate before it is lower.  The label is
`t` with its first letter in upper case when `t` is longer than 2, and "Research" otherwise. -/
theorem label_selection (env : ScanEnv) (pool : TermVector) (hnum : finiteWeights pool) :
    ((∀ w ∈ keys pool, w ∈ STOP_WORDS) → labelOf env pool = "Research") ∧
    ((∃ w ∈ keys pool, w ∉ STOP_WORDS) →
      ∃ l1 t l2, (keys pool).filter (fun word => !STOP_WORDS.contains word) = l1 ++ t :: l2 ∧
        t ∈ keys pool ∧ t ∉ STOP_WORDS ∧
        (∀ u ∈ keys pool, u ∉ STOP_WORDS →
          (((getProp pool u).toNumber.mul (JSNum.fin (jsLength u))).gt
            ((getProp pool t).toNumber.mul (JSNum.fin (jsLength t)))) = false) ∧
        (∀ u ∈ l1,
          (((getProp pool t).toNumber.mul (JSNum.fin (jsLength t))).gt
            ((getProp pool u).toNumber.mul (JSNum.fin (jsLength u)))) = true) ∧
        bestLabelOf pool = some t ∧
        labelOf env pool = if 2 < jsLength t then capitalize env t else "Research") := by
  constructor
  · intro h
    unfold labelOf
    rw [bestLabelOf_eq_none pool h]
  · intro h
    obtain ⟨l1, t, l2, hl, hb, h1, h2⟩ := bestLabelOf_first_max pool hnum h
    have ht : t ∈ keys pool ∧ t ∉ STOP_WORDS := by
      rw [← mem_candidates, hl]
      simp
    refine ⟨l1, t, l2, hl, ht.1, ht.2, ?_, h1, hb, ?_⟩
    · intro u hu hs
      have hmem : u ∈ (keys pool).filter (fun word => !STOP_WORDS.contains word) :=
        (mem_candidates pool u).mpr ⟨hu, hs⟩
      rw [hl] at hmem
      show (labelWeight pool u).gt (labelWeight pool t) = false
      rcases List.mem_append.mp hmem with hu1 | hu1
      · cases hgt : (labelWeight pool u).gt (labelWeight pool t) with
        | false => rfl
        | true =>
          have := JSNum.gt_trans _ _ _ (h1 u hu1) hgt
          rw [JSNum.gt_irrefl] at this
          cases this
      · rcases List.mem_cons.mp hu1 with hu2 | hu2
        · rw [hu2]
          exact JSNum.gt_irrefl _
        · exact h2 u hu2
    · unfold labelOf
      rw [hb]
      simp only
      by_cases hlen : 2 < jsLength t
      · have hne : t ≠ "" := by
          rintro rfl
          revert hlen
          decide
        simp [hlen, hne]
      · simp [hlen]

/-- C12, at the pool `{docs: 1.5, kubernetes: 1.5}`, where `kubernetes` has the product 15
against 6 and the label is "Kubernetes" though `docs` comes first; at the pool
`{docs: 5, kubernetes: 1.5}`, where `docs` has the product 20 against 15; at a tie, where the
first term wins; at a pool of a stop word and a short term; and at three tabs that share only
the term `kubernetes`, with the label "Kubernetes". -/
theorem label_selection_witness :
    finiteWeights [("docs", 1.5), ("kubernetes", 1.5)] ∧
    (∃ l1 t l2, (keys [("docs", 1.5), ("kubernetes", 1.5)]).filter
          (fun word => !STOP_WORDS.contains word) = l1 ++ t :: l2 ∧
        t ∈ keys [("docs", 1.5), ("kubernetes", 1.5)] ∧ t ∉ STOP_WORDS ∧
        (∀ u ∈ keys [("docs", 1.5), ("kubernetes", 1.5)], u ∉ STOP_WORDS →
          (((getProp [("docs", 1.5), ("kubernetes", 1.5)] u).toNumber.mul
              (JSNum.fin (jsLength u))).gt
            ((getProp [("docs", 1.5), ("kubernetes", 1.5)] t).toNumber.mul
              (JSNum.fin (jsLength t)))) = false) ∧
        (∀ u ∈ l1,
          (((getProp [("docs", 1.5), ("kubernetes", 1.5)] t).toNumber.mul
              (JSNum.fin (jsLength t))).gt
            ((getProp [("docs", 1.5), ("kubernetes", 1.5)] u).toNumber.mul
              (JSNum.fin (jsLength u)))) = true) ∧
        bestLabelOf [("docs", 1.5), ("kubernetes", 1.5)] = some t ∧
        labelOf exampleEnv [("docs", 1.5), ("kubernetes", 1.5)] =
          if 2 < jsLength t then capitalize exampleEnv t else "Research") ∧
    labelOf exampleEnv [("docs", 1.5), ("kubernetes", 1.5)] = "Kubernetes" ∧
    labelOf exampleEnv [("docs", 5), ("kubernetes", 1.5)] = "Docs" ∧
    labelOf exampleEnv [("alpha", 5), ("gamma", 5)] = "Alpha" ∧
    labelOf exampleEnv [("page", 5), ("ab", 5)] = "Research" ∧
    labelOf exampleEnv [("page", 5)] = "Research" ∧
    Mutation.labelled 100 "Kubernetes" ∈
      (tidySweep exampleEnv okHost (some 2) []
        [⟨1, [("kubernetes", 5), ("alpha", 5)]⟩, ⟨2, [("kubernetes", 5), ("beta", 5)]⟩,
          ⟨3, [("kubernetes", 5), ("gamma", 5)]⟩] none).mutations :=
  have hnum : finiteWeights [("docs", 1.5), ("kubernetes", 1.5)] := by
    intro p hp
    simp only [List.mem_cons, List.mem_singleton, List.not_mem_nil, or_false] at hp
    rcases hp with rfl | rfl
    · exact ⟨3 / 2, by decide!⟩
    · exact ⟨3 / 2, by decide!⟩
  ⟨hnum,
    (label_selection exampleEnv [("docs", 1.5), ("kubernetes", 1.5)] hnum).2
      ⟨"kubernetes", by decide, by decide⟩,
    by decide!, by decide!, by decide!, by decide!, by decide!, by decide!⟩

/-! ## Lemmas: a tab with an empty vector -/

/-- A property kept by the iterations of STEP 1 on entries that satisfy `Q` holds after the loop
over such entries. -/
theorem assignLoop_preserves_of (host : HostOutcomes) (gs : List GroupData)
    (Q : TabEntry → Prop) (P : SweepState → Prop)
    (hstep : ∀ st i entry, Q entry → P st → P (assignStep host gs st i entry)) :
    ∀ (l : List TabEntry) (i : Nat) (st : SweepState),
      (∀ e ∈ l, Q e) → P st → P (assignLoop host gs i l st) := by
  intro l
  induction l with
  | nil => intro i st _ h; exact h
  | cons a l ih =>
    intro i st hq h
    unfold assignLoop
    exact ih (i + 1) _ (fun e he => hq e (List.mem_cons_of_mem _ he))
      (hstep st i a (hq a (List.mem_cons_self _ _)) h)

/-- A property kept by the iterations of STEP 2 on entries that satisfy `Q` holds after the loop
over such entries. -/
theorem clusterLoop_preserves_of (env : ScanEnv) (host : HostOutcomes) (m : ℚ)
    (Q : TabEntry → Prop) (P : SweepState → Prop)
    (hstep : ∀ st i entry rest, Q entry → (∀ b ∈ rest, Q b) → P st →
      P (clusterStep env host m st i entry rest)) :
    ∀ (l : List TabEntry) (i : Nat) (st : SweepState),
      (∀ e ∈ l, Q e) → P st → P (clusterLoop env host m i l st) := by
  intro l
  induction l with
  | nil => intro i st _ h; exact h
  | cons a l ih =>
    intro i st hq h
    unfold clusterLoop
    have hrest : ∀ e ∈ l, Q e := fun e he => hq e (List.mem_cons_of_mem _ he)
    exact ih (i + 1) _ hrest (hstep st i a l (hq a (List.mem_cons_self _ _)) hrest h)

theorem tidySweep_preserves_of (env : ScanEnv) (host : HostOutcomes) (setting : Option ℚ)
    (gs : List GroupData) (tabData : List TabEntry) (la : Option LastAction)
    (Q : TabEntry → Prop) (P : SweepState → Prop) (hq : ∀ e ∈ tabData, Q e)
    (h0 : P (SweepState.init la))
    (h1 : ∀ st i entry, Q entry → P st → P (assignStep host gs st i entry))
    (h2 : ∀ st i entry rest, Q entry → (∀ b ∈ rest, Q b) → P st →
      P (clusterStep env host (minGroupSizeOf setting) st i entry rest)) :
    P (tidySweep env host setting gs tabData la) := by
  unfold tidySweep
  apply clusterLoop_preserves_of env host _ Q P h2
  · intro e he
    unfold remainingTabData at he
    exact hq e (List.mem_filter.mp he).1
  · exact assignLoop_preserves_of host gs Q P h1 _ _ _ hq h0

theorem toNumber_valueOr0_nil (w : String) :
    (valueOr0 [] w).toNumber = JSNum.fin 0 ∨ (valueOr0 [] w).toNumber = JSNum.nan := by
  unfold valueOr0 getProp
  simp only [List.lookup]
  split_ifs with h
  · right; rfl
  · left
    show JSNum.fin ((0 : ℕ) : ℚ) = JSNum.fin 0
    rw [Nat.cast_zero]

theorem add_zero_sq (x : JSNum) (hx : x = JSNum.fin 0 ∨ x = JSNum.nan)
    (m : JSNum) (hm : m = JSNum.fin 0 ∨ m = JSNum.nan) :
    m.add (x.mul x) = JSNum.fin 0 ∨ m.add (x.mul x) = JSNum.nan := by
  rcases hm with rfl | rfl
  · rcases hx with rfl | rfl
    · left
      have : JSNum.mul (JSNum.fin 0) (JSNum.fin 0) = JSNum.fin 0 := by
        show roundToDouble (0 * 0) = JSNum.fin 0
        rw [mul_zero, roundToDouble_zero]
      rw [this]
      show roundToDouble (0 + 0) = JSNum.fin 0
      rw [add_zero, roundToDouble_zero]
    · right; rfl
  · right
    exact JSNum.add_nan_left _

theorem foldl_accumulate_nil_left (v : TermVector) (l : List String) : ∀ (s : Sums),
    (s.magnitude1 = JSNum.fin 0 ∨ s.magnitude1 = JSNum.nan) →
    ((l.foldl (accumulate [] v) s).magnitude1 = JSNum.fin 0 ∨
      (l.foldl (accumulate [] v) s).magnitude1 = JSNum.nan) := by
  induction l with
  | nil => intro s h; exact h
  | cons a l ih =>
    intro s h
    rw [List.foldl_cons]
    apply ih
    exact add_zero_sq _ (toNumber_valueOr0_nil a) _ h

theorem foldl_accumulate_nil_right (v : TermVector) (l : List String) : ∀ (s : Sums),
    (s.magnitude2 = JSNum.fin 0 ∨ s.magnitude2 = JSNum.nan) →
    ((l.foldl (accumulate v []) s).magnitude2 = JSNum.fin 0 ∨
      (l.foldl (accumulate v []) s).magnitude2 = JSNum.nan) := by
  induction l with
  | nil => intro s h; exact h
  | cons a l ih =>
    intro s h
    rw [List.foldl_cons]
    apply ih
    exact add_zero_sq _ (toNumber_valueOr0_nil a) _ h

theorem mul_zero_left_cases (x : JSNum) :
    (JSNum.fin 0).mul x = JSNum.fin 0 ∨ (JSNum.fin 0).mul x = JSNum.nan := by
  cases x with
  | nan => right; rfl
  | posInf => right; rfl
  | negInf => right; rfl
  | fin b =>
    left
    show roundToDouble (0 * b) = JSNum.fin 0
    rw [zero_mul, roundToDouble_zero]

theorem sqrt_zero : (JSNum.fin 0).sqrt = JSNum.fin 0 := by
  show (if (0 : ℚ) < 0 then JSNum.nan else if (0 : ℚ) = 0 then JSNum.fin 0
    else JSNum.fin (sqrtPos 0)) = JSNum.fin 0
  simp

theorem calculateSimilarity_of_denominator (v1 v2 : TermVector)
    (h : denominator v1 v2 = JSNum.fin 0 ∨ denominator v1 v2 = JSNum.nan) :
    (calculateSimilarity v1 v2).gt SIMILARITY_THRESHOLD = false := by
  unfold calculateSimilarity
  rcases h with h | h
  · rw [h]
    have : (JSNum.fin 0).isZero = true := by simp [JSNum.isZero]
    rw [if_pos this]
    exact JSNum.zero_gt_threshold
  · rw [h]
    have : JSNum.nan.isZero = false := rfl
    rw [this]
    simp only [Bool.false_eq_true, if_false, JSNum.div_nan_right]
    exact JSNum.gt_nan_left _

/-- The similarity of the empty vector with any vector is 0 or `NaN`, and so not above the
threshold. -/
theorem similarity_nil_left (v : TermVector) :
    (calculateSimilarity [] v).gt SIMILARITY_THRESHOLD = false := by
  apply calculateSimilarity_of_denominator
  unfold denominator
  rcases foldl_accumulate_nil_left v (allWords [] v) ⟨0, 0, 0⟩
    (Or.inl (by show JSNum.fin ((0 : ℕ) : ℚ) = JSNum.fin 0; rw [Nat.cast_zero])) with h | h
  · have h1 : (similaritySums [] v).magnitude1 = JSNum.fin 0 := h
    rw [h1, sqrt_zero]
    exact mul_zero_left_cases _
  · have h1 : (similaritySums [] v).magnitude1 = JSNum.nan := h
    rw [h1]
    right
    exact JSNum.mul_nan_left _

theorem similarity_nil_right (v : TermVector) :
    (calculateSimilarity v []).gt SIMILARITY_THRESHOLD = false := by
  apply calculateSimilarity_of_denominator
  unfold denominator
  rcases foldl_accumulate_nil_right v (allWords v []) ⟨0, 0, 0⟩
    (Or.inl (by show JSNum.fin ((0 : ℕ) : ℚ) = JSNum.fin 0; rw [Nat.cast_zero])) with h | h
  · have h1 : (similaritySums v []).magnitude2 = JSNum.fin 0 := h
    rw [h1, sqrt_zero, jsMul_comm]
    exact mul_zero_left_cases _
  · have h1 : (similaritySums v []).magnitude2 = JSNum.nan := h
    rw [h1]
    right
    exact JSNum.mul_nan_right _

theorem findBestMatch_nil (gs : List GroupData) : (findBestMatch [] gs).1 = none := by
  rw [findBestMatch_none_iff]
  intro x _
  exact similarity_nil_left _

/-- A cluster that contains a tab with an empty vector is that tab alone. -/
theorem buildCluster_of_empty (P : List Nat) (entryA : TabEntry) (rest : List TabEntry)
    (t : Nat) (hA : entryA.tabId = t → entryA.vector = [])
    (hrest : ∀ B ∈ rest, B.tabId = t → B.vector = [])
    (ht : t ∈ (buildCluster P entryA rest).1) : (buildCluster P entryA rest).1 = [t] := by
  unfold buildCluster at ht ⊢
  rw [foldl_scanStep_eq] at ht ⊢
  simp only [List.singleton_append, List.mem_cons, List.mem_map] at ht ⊢
  rcases ht with ht | ⟨B, hB, hBt⟩
  · have hv := hA ht.symm
    have hj : joinedOf P entryA rest = [] := by
      unfold joinedOf
      rw [List.filter_eq_nil_iff]
      intro B _
      rw [hv, similarity_nil_left]
      simp
    rw [hj, ht]
    rfl
  · exfalso
    unfold joinedOf at hB
    rw [List.mem_filter] at hB
    obtain ⟨hBr, hcond⟩ := hB
    simp only [Bool.and_eq_true, decide_eq_true_eq] at hcond
    rw [hrest B hBr hBt, similarity_nil_right] at hcond
    exact Bool.noConfusion hcond.2

theorem InertInv_init (t : Nat) (la : Option LastAction) : InertInv t (SweepState.init la) := by
  refine ⟨?_, ?_⟩
  · intro g h; cases h
  · intro ids g h; cases h

theorem InertInv_assignStep (t : Nat) (host : HostOutcomes) (gs : List GroupData)
    (st : SweepState) (i : Nat) (entry : TabEntry)
    (hq : entry.tabId = t → entry.vector = []) (h : InertInv t st) :
    InertInv t (assignStep host gs st i entry) := by
  by_cases ht : entry.tabId = t
  · have hv := hq ht
    have hnone : (findBestMatch entry.vector gs).1 = none := by
      rw [hv]
      exact findBestMatch_nil gs
    rw [assignStep_of_none host gs st i entry hnone]
    exact h
  · obtain ⟨h1, h2⟩ := h
    unfold assignStep
    by_cases hp : entry.tabId ∈ st.processedIds
    · simp only [hp, if_true]
      exact ⟨h1, h2⟩
    · simp only [hp, if_false]
      cases hb : (findBestMatch entry.vector gs).1 with
      | none => exact ⟨h1, h2⟩
      | some b =>
        simp only
        by_cases hok : host.assignOk i = true
        · simp only [hok, if_true]
          by_cases hs : host.assignStoreOk i = true
          · simp only [hs, if_true]
            refine ⟨?_, ?_⟩
            · intro g hm
              simp at hm
              rcases hm with hm | hm
              · exact h1 g hm
              · exact ht hm.1.symm
            · intro ids g hm
              simp at hm
              exact h2 ids g hm
          · simp only [hs]
            refine ⟨?_, ?_⟩
            · intro g hm
              simp at hm
              rcases hm with hm | hm
              · exact h1 g hm
              · exact ht hm.1.symm
            · intro ids g hm
              simp at hm
              exact h2 ids g hm
        · simp only [hok]
          exact ⟨h1, h2⟩

theorem InertInv_clusterStep (t : Nat) (env : ScanEnv) (host : HostOutcomes) (m : ℚ)
    (st : SweepState) (i : Nat) (entry : TabEntry) (rest : List TabEntry)
    (hq : entry.tabId = t → entry.vector = [])
    (hrest : ∀ B ∈ rest, B.tabId = t → B.vector = []) (h : InertInv t st) :
    InertInv t (clusterStep env host m st i entry rest) := by
  obtain ⟨h1, h2⟩ := h
  have hnew := buildCluster_of_empty st.processedIds entry rest t hq hrest
  unfold clusterStep
  by_cases hp : entry.tabId ∈ st.processedIds
  · simp only [hp, if_true]
    exact ⟨h1, h2⟩
  · simp only [hp, if_false]
    by_cases hsize : m ≤ ((buildCluster st.processedIds entry rest).1.length : ℚ)
    · simp only [hsize, if_true]
      cases hc : host.createGroup i with
      | none => exact ⟨h1, h2⟩
      | some newGroupId =>
        simp only
        by_cases hu : host.updateOk i = true
        · simp only [hu, if_true]
          by_cases hs : host.createStoreOk i = true
          · simp only [hs, if_true]
            refine ⟨?_, ?_⟩
            · intro g hm
              simp at hm
              exact h1 g hm
            · intro ids g hm hin
              simp at hm
              rcases hm with hm | ⟨rfl, _⟩
              · exact h2 ids g hm hin
              · exact hnew hin
          · simp only [hs]
            refine ⟨?_, ?_⟩
            · intro g hm
              simp at hm
              exact h1 g hm
            · intro ids g hm hin
              simp at hm
              rcases hm with hm | ⟨rfl, _⟩
              · exact h2 ids g hm hin
              · exact hnew hin
        · simp only [hu]
          refine ⟨?_, ?_⟩
          · intro g hm
            simp at hm
            exact h1 g hm
          · intro ids g hm hin
            simp at hm
            rcases hm with hm | ⟨rfl, _⟩
            · exact h2 ids g hm hin
            · exact hnew hin
    · simp only [hsize, if_false]
      exact ⟨h1, h2⟩

theorem InertInv_tidySweep (t : Nat) (env : ScanEnv) (host : HostOutcomes)
    (setting : Option ℚ) (gs : List GroupData) (tabData : List TabEntry)
    (la : Option LastAction) (ht : ∀ e ∈ tabData, e.tabId = t → e.vector = []) :
    InertInv t (tidySweep env host setting gs tabData la) :=
  tidySweep_preserves_of env host setting gs tabData la
    (fun e => e.tabId = t → e.vector = []) _ ht (InertInv_init t la)
    (fun st i entry hq h => InertInv_assignStep t host gs st i entry hq h)
    (fun st i entry rest hq hrest h =>
      InertInv_clusterStep t env host _ st i entry rest hq hrest h)


/-! ## Theorems: a tab with an empty vector -/

/-- C13: a tab whose term vector is empty is never assigned to an existing group, and a new
group that contains it has no other member; under a minimum group size above 1, as under the
default 2 and the stored 2 that the extension writes, it is in no new group at all. -/
theorem empty_vector_tab_inert (env : ScanEnv) (host : HostOutcomes) (setting : Option ℚ)
    (gs : List GroupData) (tabData : List TabEntry) (la : Option LastAction) (t : Nat)
    (ht : ∀ e ∈ tabData, e.tabId = t → e.vector = []) :
    (∀ g, Mutation.assigned t g ∉ (tidySweep env host setting gs tabData la).mutations) ∧
    (∀ ids g, Mutation.grouped ids g ∈ (tidySweep env host setting gs tabData la).mutations →
      t ∈ ids → ids = [t]) ∧
    (1 < minGroupSizeOf setting →
      ∀ ids g, Mutation.grouped ids g ∈ (tidySweep env host setting gs tabData la).mutations →
        t ∉ ids) := by
  obtain ⟨h1, h2⟩ := InertInv_tidySweep t env host setting gs tabData la ht
  refine ⟨h1, h2, ?_⟩
  intro hm ids g hmem hin
  have hsize := (SizeInv_tidySweep env host setting gs tabData la).1 ids g hmem
  rw [h2 ids g hmem hin] at hsize
  simp only [List.length_singleton, Nat.cast_one] at hsize
  linarith

/-- C13, at a sweep with one group `{dog: 5}`, a tab with an empty vector and two tabs
`{cats: 5}`, under the default minimum size and under the stored size 2: the two tabs are
grouped, the empty one is neither assigned nor grouped. -/
theorem empty_vector_tab_inert_witness :
    (∀ e ∈ [(⟨1, []⟩ : TabEntry), ⟨2, [("cats", 5)]⟩, ⟨3, [("cats", 5)]⟩],
      e.tabId = 1 → e.vector = []) ∧
    (1 < minGroupSizeOf none ∧ 1 < minGroupSizeOf (some 2)) ∧
    ((∀ g, Mutation.assigned 1 g ∉
      (tidySweep exampleEnv okHost none [⟨7, [("dog", 5)]⟩]
        [⟨1, []⟩, ⟨2, [("cats", 5)]⟩, ⟨3, [("cats", 5)]⟩] none).mutations) ∧
     (∀ ids g, Mutation.grouped ids g ∈
      (tidySweep exampleEnv okHost none [⟨7, [("dog", 5)]⟩]
        [⟨1, []⟩, ⟨2, [("cats", 5)]⟩, ⟨3, [("cats", 5)]⟩] none).mutations → 1 ∉ ids)) ∧
    (tidySweep exampleEnv okHost none [⟨7, [("dog", 5)]⟩]
        [⟨1, []⟩, ⟨2, [("cats", 5)]⟩, ⟨3, [("cats", 5)]⟩] none).mutations =
      [Mutation.grouped [2, 3] 101, Mutation.labelled 101 "Cats",
        Mutation.stored (LastAction.groupCreated [2, 3] "Cats" 101)] :=
  ⟨by decide, ⟨by decide!, by decide!⟩,
    ⟨(empty_vector_tab_inert exampleEnv okHost none [⟨7, [("dog", 5)]⟩]
      [⟨1, []⟩, ⟨2, [("cats", 5)]⟩, ⟨3, [("cats", 5)]⟩] none 1 (by decide)).1,
     (empty_vector_tab_inert exampleEnv okHost none [⟨7, [("dog", 5)]⟩]
      [⟨1, []⟩, ⟨2, [("cats", 5)]⟩, ⟨3, [("cats", 5)]⟩] none 1 (by decide)).2.2 (by decide!)⟩,
    by decide!⟩

/-! ## Lemmas: undoLastAction and the lastAction slot -/

theorem undoCatch_clears (host : UndoHost) (k : Nat) (slot : Option LastAction)
    (r : UndoResult) (h : (undoCatch host k slot).1 = some r) :
    (undoCatch host k slot).2 = none := by
  unfold undoCatch at h ⊢
  by_cases hk : host.setOk k = true
  · simp [hk]
  · simp [hk] at h

/-- When `undoLastAction` returns, the slot is cleared, whatever the host answered. -/
theorem undoLastAction_clears (host : UndoHost) (slot : Option LastAction) (r : UndoResult)
    (h : (undoLastAction host slot).1 = some r) : (undoLastAction host slot).2 = none := by
  unfold undoLastAction at h ⊢
  by_cases hg : host.getOk = true
  · simp only [hg, if_true] at h ⊢
    cases slot with
    | none => rfl
    | some a =>
      cases a with
      | tabAdded t g =>
        simp only at h ⊢
        by_cases h1 : (host.tabGetOk && host.ungroupOk) = true
        · simp only [h1, if_true] at h ⊢
          by_cases h2 : host.setOk 0 = true
          · simp [h2]
          · simp only [h2] at h ⊢
            by_cases h3 : host.setOk 1 = true
            · simp [h3]
            · simp only [h3] at h ⊢
              exact undoCatch_clears host 2 _ r h
        · simp only [h1] at h ⊢
          by_cases h2 : host.setOk 0 = true
          · simp [h2]
          · simp only [h2] at h ⊢
            exact undoCatch_clears host 1 _ r h
      | groupCreated ids name g =>
        simp only at h ⊢
        cases hq : host.queryTabs with
        | none =>
          simp only [hq] at h ⊢
          exact undoCatch_clears host 0 _ r h
        | some existing =>
          simp only [hq] at h ⊢
          by_cases hv : (ids.filter (fun id => existing.contains id)).length = 0
          · simp only [hv, if_true] at h ⊢
            by_cases h2 : host.setOk 0 = true
            · simp [h2]
            · simp only [h2] at h ⊢
              exact undoCatch_clears host 1 _ r h
          · simp only [hv, if_false] at h ⊢
            by_cases hu : host.ungroupOk = true
            · simp only [hu, if_true] at h ⊢
              by_cases h2 : host.setOk 0 = true
              · simp [h2]
              · simp only [h2] at h ⊢
                exact undoCatch_clears host 1 _ r h
            · simp only [hu] at h ⊢
              exact undoCatch_clears host 0 _ r h
  · simp only [hg] at h ⊢
    exact undoCatch_clears host 0 _ r h

/-- When the storage accepts its writes, `undoLastAction` returns, whatever the tab manager
answered. -/
theorem undoLastAction_returns (host : UndoHost) (slot : Option LastAction)
    (hset : ∀ k, host.setOk k = true) : ∃ r, (undoLastAction host slot).1 = some r := by
  unfold undoLastAction undoCatch
  simp only [hset, if_true]
  by_cases hg : host.getOk = true
  · simp only [hg, if_true]
    cases slot with
    | none => exact ⟨_, rfl⟩
    | some a =>
      cases a with
      | tabAdded t g =>
        simp only
        by_cases h1 : (host.tabGetOk && host.ungroupOk) = true
        · simp only [h1, if_true]
          exact ⟨_, rfl⟩
        · simp only [h1]
          exact ⟨_, rfl⟩
      | groupCreated ids name g =>
        simp only
        cases hq : host.queryTabs with
        | none => exact ⟨_, rfl⟩
        | some existing =>
          simp only
          by_cases hv : (ids.filter (fun id => existing.contains id)).length = 0
          · simp only [hv, if_true]
            exact ⟨_, rfl⟩
          · simp only [hv, if_false]
            by_cases hu : host.ungroupOk = true
            · simp only [hu, if_true]
              exact ⟨_, rfl⟩
            · simp only [hu]
              exact ⟨_, rfl⟩
  · simp only [hg]
    exact ⟨_, rfl⟩

/-- An assignment that the host accepts, followed by a write that the storage accepts, leaves
the record of that assignment in the slot. -/
theorem assignStep_lastAction (host : HostOutcomes) (gs : List GroupData) (st : SweepState)
    (i : Nat) (entry : TabEntry) (id : Nat) (hp : entry.tabId ∉ st.processedIds)
    (h : (findBestMatch entry.vector gs).1 = some id) (hok : host.assignOk i = true)
    (hs : host.assignStoreOk i = true) :
    (assignStep host gs st i entry).lastAction = some (LastAction.tabAdded entry.tabId id) := by
  unfold assignStep
  rw [h]
  simp [hp, hok, hs]

/-- A group that the host makes and labels, followed by a write that the storage accepts,
leaves the record of that group in the slot. -/
theorem clusterStep_lastAction (env : ScanEnv) (host : HostOutcomes) (m : ℚ)
    (st : SweepState) (i : Nat) (entryA : TabEntry) (rest : List TabEntry) (g : Nat)
    (hp : entryA.tabId ∉ st.processedIds)
    (hsize : m ≤ ((buildCluster st.processedIds entryA rest).1.length : ℚ))
    (hc : host.createGroup i = some g) (hu : host.updateOk i = true)
    (hs : host.createStoreOk i = true) :
    (clusterStep env host m st i entryA rest).lastAction =
      some (LastAction.groupCreated (buildCluster st.processedIds entryA rest).1
        (labelOf env (buildCluster st.processedIds entryA rest).2) g) := by
  unfold clusterStep
  simp [hp, hsize, hc, hu, hs]


/-! ## Theorems: the lastAction slot and the tabs a sweep touches -/

/-- C14 at its failing input: two tabs with the vector `{alpha: 5}` and a host that makes the
group of the cluster `[1, 2]` but rejects its label update.  The group exists, yet the
`lastAction` slot still holds the `tab_added` record of an earlier sweep: the creation wrote no
`group_created` record, and an undo would take tab 9 out of group 7.  With every call accepted
the same sweep writes the record.  In `undoLastAction`, when the first write of `null` is
rejected after the tab was taken out of its group, the inner `catch` reports "Tab no longer
exists". -/
theorem lastAction_not_written_on_update_failure :
    (tidySweep exampleEnv { okHost with updateOk := fun _ => false } none []
      [⟨1, [("alpha", 5)]⟩, ⟨2, [("alpha", 5)]⟩]
      (some (LastAction.tabAdded 9 7))).mutations = [Mutation.grouped [1, 2] 100] ∧
    (tidySweep exampleEnv { okHost with updateOk := fun _ => false } none []
      [⟨1, [("alpha", 5)]⟩, ⟨2, [("alpha", 5)]⟩]
      (some (LastAction.tabAdded 9 7))).lastAction = some (LastAction.tabAdded 9 7) ∧
    (tidySweep exampleEnv okHost none [] [⟨1, [("alpha", 5)]⟩, ⟨2, [("alpha", 5)]⟩]
      (some (LastAction.tabAdded 9 7))).lastAction =
      some (LastAction.groupCreated [1, 2] "Alpha" 100) ∧
    undoLastAction
      { getOk := true, queryTabs := some [1], tabGetOk := true, ungroupOk := true,
        setOk := fun k => decide (k ≠ 0), errorMessage := "" }
      (some (LastAction.tabAdded 1 7)) = (some ⟨false, "Tab no longer exists"⟩, none) := by
  decide!

/-- C15 at its failing input: three tabs with the vector `{alpha: 5}` and a host that makes the
group of the first cluster but rejects its label update.  The sweep makes the group `[1, 2, 3]`
and then the group `[2, 3]`: tabs 2 and 3 are grouped twice. -/
theorem touched_twice_on_update_failure :
    (tidySweep exampleEnv updateFailsOnceHost none []
      [⟨1, [("alpha", 5)]⟩, ⟨2, [("alpha", 5)]⟩, ⟨3, [("alpha", 5)]⟩] none).mutations =
      [Mutation.grouped [1, 2, 3] 100, Mutation.grouped [2, 3] 101,
        Mutation.labelled 101 "Alpha",
        Mutation.stored (LastAction.groupCreated [2, 3] "Alpha" 101)] := by
  decide!

/-! ## Lemmas: the tabs a sweep touches when no label update is rejected -/

theorem CommitInv_init (la : Option LastAction) : CommitInv (SweepState.init la) := by
  refine ⟨?_, ?_, List.Pairwise.nil, ?_⟩
  · intro t g h; cases h
  · intro ids g h; cases h
  · intro t g ids g2 h; cases h

theorem CommitInv_assignStep (host : HostOutcomes) (gs : List GroupData) (st : SweepState)
    (i : Nat) (entry : TabEntry) (h : CommitInv st) :
    CommitInv (assignStep host gs st i entry) := by
  obtain ⟨h1, h2, h3, h4⟩ := h
  unfold assignStep
  by_cases hp : entry.tabId ∈ st.processedIds
  · simp only [hp, if_true]
    exact ⟨h1, h2, h3, h4⟩
  · simp only [hp, if_false]
    cases hb : (findBestMatch entry.vector gs).1 with
    | none => exact ⟨h1, h2, h3, h4⟩
    | some b =>
      simp only
      by_cases hok : host.assignOk i = true
      · simp only [hok, if_true]
        have hnot : ∀ ids g2, Mutation.grouped ids g2 ∈ st.mutations →
            entry.tabId ∉ ids := fun ids g2 hm hin => hp (h2 ids g2 hm _ hin)
        by_cases hs : host.assignStoreOk i = true
        · simp only [hs, if_true]
          refine ⟨?_, ?_, ?_, ?_⟩
          · intro t g hm
            simp at hm
            rcases hm with hm | ⟨rfl, _⟩
            · exact List.mem_append_left _ (h1 t g hm)
            · simp
          · intro ids g hm x hx
            simp at hm
            exact List.mem_append_left _ (h2 ids g hm x hx)
          · rw [List.pairwise_append]
            refine ⟨?_, by simp, ?_⟩
            · rw [List.pairwise_append]
              refine ⟨h3, by simp, ?_⟩
              intro a _ b hb2
              simp at hb2
              intro ids1 g1 ids2 g2 _ hb3
              rw [hb2] at hb3
              cases hb3
            · intro a _ b hb2
              simp at hb2
              intro ids1 g1 ids2 g2 _ hb3
              rw [hb2] at hb3
              cases hb3
          · intro t g ids g2 hm hm2
            simp at hm hm2
            rcases hm with hm | ⟨rfl, _⟩
            · exact h4 t g ids g2 hm hm2
            · exact hnot ids g2 hm2
        · simp only [hs, Bool.false_eq_true, if_false]
          refine ⟨?_, ?_, ?_, ?_⟩
          · intro t g hm
            simp at hm
            rcases hm with hm | ⟨rfl, _⟩
            · exact List.mem_append_left _ (h1 t g hm)
            · simp
          · intro ids g hm x hx
            simp at hm
            exact List.mem_append_left _ (h2 ids g hm x hx)
          · rw [List.pairwise_append]
            refine ⟨h3, by simp, ?_⟩
            intro a _ b hb2
            simp at hb2
            intro ids1 g1 ids2 g2 _ hb3
            rw [hb2] at hb3
            cases hb3
          · intro t g ids g2 hm hm2
            simp at hm hm2
            rcases hm with hm | ⟨rfl, _⟩
            · exact h4 t g ids g2 hm hm2
            · exact hnot ids g2 hm2
      · simp only [hok]
        exact ⟨h1, h2, h3, h4⟩

theorem CommitInv_clusterStep (env : ScanEnv) (host : HostOutcomes) (m : ℚ) (st : SweepState)
    (i : Nat) (entry : TabEntry) (rest : List TabEntry)
    (hupd : ∀ j g, host.createGroup j = some g → host.updateOk j = true)
    (h : CommitInv st) : CommitInv (clusterStep env host m st i entry rest) := by
  obtain ⟨h1, h2, h3, h4⟩ := h
  unfold clusterStep
  by_cases hp : entry.tabId ∈ st.processedIds
  · simp only [hp, if_true]
    exact ⟨h1, h2, h3, h4⟩
  · simp only [hp, if_false]
    have hnew := buildCluster_not_processed st.processedIds entry rest hp
    by_cases hsize : m ≤ ((buildCluster st.processedIds entry rest).1.length : ℚ)
    · simp only [hsize, if_true]
      cases hc : host.createGroup i with
      | none => exact ⟨h1, h2, h3, h4⟩
      | some newGroupId =>
        have hu := hupd i newGroupId hc
        simp only [hu, if_true]
        have hpair : (st.mutations ++
            [Mutation.grouped (buildCluster st.processedIds entry rest).1 newGroupId,
              Mutation.labelled newGroupId
                (labelOf env (buildCluster st.processedIds entry rest).2)]).Pairwise
            (fun m1 m2 => ∀ ids1 g1 ids2 g2, m1 = Mutation.grouped ids1 g1 →
              m2 = Mutation.grouped ids2 g2 → ∀ x ∈ ids1, x ∉ ids2) := by
          rw [List.pairwise_append]
          refine ⟨h3, by simp, ?_⟩
          intro a ha b hb2
          simp at hb2
          intro ids1 g1 ids2 g2 ha2 hb3 x hx hx2
          rcases hb2 with hb2 | hb2
          · rw [hb2] at hb3
            cases hb3
            rw [ha2] at ha
            exact hnew x hx2 (h2 ids1 g1 ha x hx)
          · rw [hb2] at hb3
            cases hb3
        have hA : ∀ t g, Mutation.assigned t g ∈ st.mutations →
            t ∈ st.processedIds ++ (buildCluster st.processedIds entry rest).1 :=
          fun t g hm => List.mem_append_left _ (h1 t g hm)
        have hG : ∀ ids g, Mutation.grouped ids g ∈ st.mutations ∨
            (ids = (buildCluster st.processedIds entry rest).1 ∧ g = newGroupId) →
            ∀ x ∈ ids, x ∈ st.processedIds ++ (buildCluster st.processedIds entry rest).1 := by
          intro ids g hm x hx
          rcases hm with hm | ⟨rfl, _⟩
          · exact List.mem_append_left _ (h2 ids g hm x hx)
          · exact List.mem_append_right _ hx
        have hAG : ∀ t g ids g2, Mutation.assigned t g ∈ st.mutations →
            (Mutation.grouped ids g2 ∈ st.mutations ∨
              (ids = (buildCluster st.processedIds entry rest).1 ∧ g2 = newGroupId)) →
            t ∉ ids := by
          intro t g ids g2 hm hm2
          rcases hm2 with hm2 | ⟨rfl, _⟩
          · exact h4 t g ids g2 hm hm2
          · exact fun hin => hnew t hin (h1 t g hm)
        by_cases hs : host.createStoreOk i = true
        · simp only [hs, if_true]
          refine ⟨?_, ?_, ?_, ?_⟩
          · intro t g hm
            simp at hm
            exact hA t g hm
          · intro ids g hm
            simp at hm
            exact hG ids g hm
          · rw [List.pairwise_append]
            refine ⟨hpair, by simp, ?_⟩
            intro a _ b hb2
            simp at hb2
            intro ids1 g1 ids2 g2 _ hb3
            rw [hb2] at hb3
            cases hb3
          · intro t g ids g2 hm hm2
            simp at hm hm2
            exact hAG t g ids g2 hm hm2
        · simp only [hs, Bool.false_eq_true, if_false]
          refine ⟨?_, ?_, hpair, ?_⟩
          · intro t g hm
            simp at hm
            exact hA t g hm
          · intro ids g hm
            simp at hm
            exact hG ids g hm
          · intro t g ids g2 hm hm2
            simp at hm hm2
            exact hAG t g ids g2 hm hm2
    · simp only [hsize, if_false]
      exact ⟨h1, h2, h3, h4⟩

/-- When no label update is rejected after its group was made, the groups a sweep makes are
pairwise disjoint and hold no tab that the sweep assigned to an existing group, whatever other
calls the host rejects. -/
theorem CommitInv_tidySweep (env : ScanEnv) (host : HostOutcomes) (setting : Option ℚ)
    (gs : List GroupData) (tabData : List TabEntry) (la : Option LastAction)
    (hupd : ∀ j g, host.createGroup j = some g → host.updateOk j = true) :
    CommitInv (tidySweep env host setting gs tabData la) :=
  tidySweep_preserves env host setting gs tabData la _ (CommitInv_init la)
    (fun st i entry h => CommitInv_assignStep host gs st i entry h)
    (fun st i entry rest h => CommitInv_clusterStep env host _ st i entry rest hupd h)


end Custos
